import Mathlib

/-!
# TPM TIS driver (`src/tpm.c`, `src/tpm.h`)

A shallow embedding of the TIS transport of the driver and of its presence
detection, followed by theorems about it.

* The chip is a state machine `Chip σ` answering the memory-mapped register
  accesses `readb`, `readl`, `writeb` and the passing of time `msleep`.
* The machine state `World σ` holds the chip, the log of every register access
  and sleep made so far (oldest first), the two static default tables, the
  low-memory zone (`low b` is the content of block `b`, `low_next` the number
  of blocks handed out, `zone_low` the outcomes of the coming requests), the
  driver table entry and the session flags.
* Machine integers are `Nat`: `u8` reads are taken `% 256`, `u32` reads
  `% 2 ^ 32`, the `u16` burst count `% 65536`, the `u32` offset `% 2 ^ 32`.
* A load through a null pointer has no defined result: the functions that
  read the timeout or duration records return `Option`.
-/

namespace Tpm

/-! ## Constants of `tpm.h` -/

def TIS_DRIVER_IDX : Nat := 0
def TPM_NUM_DRIVERS : Nat := 1
/-- The constant -1, as stored in the 4-bit field `tpm_driver_to_use`. -/
def TPM_INVALID_DRIVER : Nat := 15

def TPM_TIS_BASE_ADDRESS : Nat := 0xfed40000

def TIS_REG (locty reg : Nat) : Nat := TPM_TIS_BASE_ADDRESS + (locty <<< 12) + reg

def TIS_REG_ACCESS : Nat := 0x0
def TIS_REG_INT_ENABLE : Nat := 0x8
def TIS_REG_STS : Nat := 0x18
def TIS_REG_DATA_FIFO : Nat := 0x24
def TIS_REG_DID_VID : Nat := 0xf00

def TIS_STS_VALID : Nat := 1 <<< 7
def TIS_STS_COMMAND_READY : Nat := 1 <<< 6
def TIS_STS_TPM_GO : Nat := 1 <<< 5
def TIS_STS_DATA_AVAILABLE : Nat := 1 <<< 4

def TIS_ACCESS_ACTIVE_LOCALITY : Nat := 1 <<< 5
def TIS_ACCESS_REQUEST_USE : Nat := 1 <<< 1

def SCALER : Nat := 10
def TIS_DEFAULT_TIMEOUT_A : Nat := 750 * SCALER
def TIS_DEFAULT_TIMEOUT_B : Nat := 2000 * SCALER
def TIS_DEFAULT_TIMEOUT_C : Nat := 750 * SCALER
def TIS_DEFAULT_TIMEOUT_D : Nat := 750 * SCALER

def TIS_TIMEOUT_TYPE_A : Nat := 0
def TIS_TIMEOUT_TYPE_B : Nat := 1
def TIS_TIMEOUT_TYPE_C : Nat := 2
def TIS_TIMEOUT_TYPE_D : Nat := 3

def TPM_DEFAULT_DURATION_SHORT : Nat := 2000 * SCALER
def TPM_DEFAULT_DURATION_MEDIUM : Nat := 20000 * SCALER
def TPM_DEFAULT_DURATION_LONG : Nat := 60000 * SCALER

/-- Duration classes of `enum tpmDurationType`. -/
inductive tpmDurationType where
  | TPM_DURATION_TYPE_SHORT
  | TPM_DURATION_TYPE_MEDIUM
  | TPM_DURATION_TYPE_LONG
  deriving DecidableEq, Repr

/-- Value of the enumerator, used as an index into the durations record. -/
def tpmDurationType.toNat : tpmDurationType → Nat
  | .TPM_DURATION_TYPE_SHORT => 0
  | .TPM_DURATION_TYPE_MEDIUM => 1
  | .TPM_DURATION_TYPE_LONG => 2

def TPM_RET_BASE : Nat := 0x1
def TCG_NO_RESPONSE : Nat := TPM_RET_BASE + 0x2
def TCG_RESPONSE_TIMEOUT : Nat := TPM_RET_BASE + 0xb

/-! ## Hardware, memory and session state -/

/-- One observable action of the driver on its collaborators. -/
inductive Event where
  | readb (addr val : Nat)
  | readl (addr val : Nat)
  | writeb (addr val : Nat)
  | msleep (ms : Nat)
  deriving DecidableEq, Repr

/-- The chip behind the register window: a state machine that answers reads,
takes writes and may change while the driver sleeps. -/
structure Chip (σ : Type) where
  readb : σ → Nat → Nat × σ
  readl : σ → Nat → Nat × σ
  writeb : σ → Nat → Nat → σ
  msleep : σ → Nat → σ

/-- What a `u32 *` of the driver table can point to. -/
inductive Ptr where
  | null
  | tis_default_timeouts
  | tpm_default_durations
  | low (blk : Nat)
  deriving DecidableEq, Repr

/-- The entry `tpm_drivers[TIS_DRIVER_IDX]`. Its function-pointer fields are
fixed by the initialiser and never assigned; calls through them are calls of
the `tis_*` functions below. -/
structure tpm_driver where
  timeouts : Ptr
  durations : Ptr
  sha1threshold : Nat
  deriving DecidableEq, Repr

/-- The bit-field record `tcpa_state_t`: four 1-bit flags and a 4-bit index. -/
structure tcpa_state_t where
  tpm_probed : Bool
  tpm_found : Bool
  tpm_working : Bool
  if_shutdown : Bool
  tpm_driver_to_use : Nat
  deriving DecidableEq, Repr

/-- Everything the driver reads or writes. -/
structure World (σ : Type) where
  chip : σ
  trace : List Event
  tis_default_timeouts : List Nat
  tpm_default_durations : List Nat
  low : Nat → List Nat
  low_next : Nat
  zone_low : List Bool
  tpm_drivers : tpm_driver
  tcpa_state : tcpa_state_t

/-- The state at boot: static initialisers of `tpm.c`, nothing allocated, no
register touched. `zone` lists the outcomes of the coming `malloc_low` calls. -/
def World.boot {σ : Type} (c : σ) (zone : List Bool) : World σ :=
  { chip := c
    trace := []
    tis_default_timeouts :=
      [TIS_DEFAULT_TIMEOUT_A, TIS_DEFAULT_TIMEOUT_B, TIS_DEFAULT_TIMEOUT_C, TIS_DEFAULT_TIMEOUT_D]
    tpm_default_durations :=
      [TPM_DEFAULT_DURATION_SHORT, TPM_DEFAULT_DURATION_MEDIUM, TPM_DEFAULT_DURATION_LONG]
    low := fun _ => []
    low_next := 0
    zone_low := zone
    tpm_drivers := { timeouts := Ptr.null, durations := Ptr.null, sha1threshold := 100 * 1024 }
    tcpa_state :=
      { tpm_probed := false, tpm_found := false, tpm_working := false, if_shutdown := false,
        tpm_driver_to_use := TPM_INVALID_DRIVER } }

section Primitives
variable {σ : Type}

/-- Byte read of a register (`readb` of the platform, answered by the chip):
the value is a `u8` and the access is logged. -/
def readb (hw : Chip σ) (addr : Nat) (w : World σ) : Nat × World σ :=
  let r := hw.readb w.chip addr
  (r.1 % 256, { w with chip := r.2, trace := w.trace ++ [Event.readb addr (r.1 % 256)] })

/-- Word read of a register (`readl` of the platform, answered by the chip):
the value is a `u32` and the access is logged. -/
def readl (hw : Chip σ) (addr : Nat) (w : World σ) : Nat × World σ :=
  let r := hw.readl w.chip addr
  (r.1 % 2 ^ 32, { w with chip := r.2, trace := w.trace ++ [Event.readl addr (r.1 % 2 ^ 32)] })

/-- Byte write of a register (`writeb` of the platform, taken by the chip):
the value is converted to `u8` and the access is logged. -/
def writeb (hw : Chip σ) (addr val : Nat) (w : World σ) : World σ :=
  { w with chip := hw.writeb w.chip addr (val % 256),
           trace := w.trace ++ [Event.writeb addr (val % 256)] }

/-- Sleep of `ms` milliseconds (`msleep` of the platform): the chip may change
meanwhile and the sleep is logged. -/
def msleep (hw : Chip σ) (ms : Nat) (w : World σ) : World σ :=
  { w with chip := hw.msleep w.chip ms, trace := w.trace ++ [Event.msleep ms] }

/-- The array a pointer designates, if any. -/
def deref (w : World σ) : Ptr → Option (List Nat)
  | .null => none
  | .tis_default_timeouts => some w.tis_default_timeouts
  | .tpm_default_durations => some w.tpm_default_durations
  | .low blk => some (w.low blk)

/-- The load `p[i]`. -/
def load (w : World σ) (p : Ptr) (i : Nat) : Option Nat :=
  match deref w p with
  | none => none
  | some a => a[i]?

/-- Modelled from the spec: `malloc_low` is not part of the sources given; it
yields a freshly allocated buffer if allocation succeeds and a null pointer
otherwise. Whether it succeeds is read off `zone_low`. `size` is in bytes, the
block holds `size / 4` words. -/
def malloc_low (size : Nat) (w : World σ) : Ptr × World σ :=
  match w.zone_low with
  | true :: rest =>
    (Ptr.low w.low_next,
      { w with low := Function.update w.low w.low_next (List.replicate (size / 4) 0),
               low_next := w.low_next + 1, zone_low := rest })
  | false :: rest => (Ptr.null, { w with zone_low := rest })
  | [] => (Ptr.null, w)

/-- The copy `memcpy(dst, src, 4 * n)` of `n` words into the array `dst`
designates. It is only ever called with a non-null `dst`. -/
def memcpy (dst : Ptr) (src : List Nat) (n : Nat) (w : World σ) : World σ :=
  match dst with
  | .null => w
  | .tis_default_timeouts =>
    { w with tis_default_timeouts := src.take n ++ w.tis_default_timeouts.drop n }
  | .tpm_default_durations =>
    { w with tpm_default_durations := src.take n ++ w.tpm_default_durations.drop n }
  | .low blk => { w with low := Function.update w.low blk (src.take n ++ (w.low blk).drop n) }

end Primitives

/-! ## The driver (`tpm.c`) -/

section Driver
variable {σ : Type}

/-- Returns 0 if the device is not there and 1 otherwise (`tpm.c`, `tis_probe`). -/
def tis_probe (hw : Chip σ) (w : World σ) : Nat × World σ :=
  let (didvid, w1) := readl hw (TIS_REG 0 TIS_REG_DID_VID) w
  if didvid ≠ 0 ∧ didvid ≠ 0xffffffff then (1, w1) else (0, w1)

def tis_init (hw : Chip σ) (w : World σ) : Nat × World σ :=
  let w1 := writeb hw (TIS_REG 0 TIS_REG_INT_ENABLE) 0 w
  let w2 :=
    if w1.tpm_drivers.durations = Ptr.null then
      let (p, wa) := malloc_low 12 w1
      let (durations, wb) :=
        if p ≠ Ptr.null then (p, memcpy p wa.tpm_default_durations 3 wa)
        else (Ptr.tpm_default_durations, wa)
      { wb with tpm_drivers := { wb.tpm_drivers with durations := durations } }
    else w1
  let w3 :=
    if w2.tpm_drivers.timeouts = Ptr.null then
      let (p, wa) := malloc_low 16 w2
      let (timeouts, wb) :=
        if p ≠ Ptr.null then (p, memcpy p wa.tis_default_timeouts 4 wa)
        else (Ptr.tis_default_timeouts, wa)
      { wb with tpm_drivers := { wb.tpm_drivers with timeouts := timeouts } }
    else w2
  (1, w3)

/-- The arguments are the caller's arrays, `none` for a null pointer. -/
def set_timeouts (timeouts durations : Option (List Nat)) (w : World σ) : World σ :=
  let tos := w.tpm_drivers.timeouts
  let dus := w.tpm_drivers.durations
  let w1 :=
    match timeouts with
    | some t =>
      if tos ≠ Ptr.null ∧ tos ≠ Ptr.tis_default_timeouts then memcpy tos t 4 w else w
    | none => w
  match durations with
  | some d =>
    if dus ≠ Ptr.null ∧ dus ≠ Ptr.tpm_default_durations then memcpy dus d 3 w1 else w1
  | none => w1

/-- The recursion is the loop `while (time > 0)`, on `time` itself. -/
def tis_wait_sts (hw : Chip σ) (locty : Nat) : Nat → Nat → Nat → World σ → Nat × World σ
  | 0, _, _, w => (1, w)
  | time + 1, mask, expect, w =>
    let (sts, w1) := readb hw (TIS_REG locty TIS_REG_STS) w
    if sts &&& mask = expect then (0, w1)
    else tis_wait_sts hw locty time mask expect (msleep hw 1 w1)

def tis_activate (hw : Chip σ) (locty : Nat) (w : World σ) : Option (Nat × World σ) :=
  match load w w.tpm_drivers.timeouts TIS_TIMEOUT_TYPE_A with
  | none => none
  | some timeout_a =>
    let (a0, w1) := readb hw (TIS_REG locty TIS_REG_ACCESS) w
    let w2 :=
      if a0 &&& TIS_ACCESS_ACTIVE_LOCALITY = 0 then
        [4, 3, 2, 1, 0].foldl
          (fun x l => writeb hw (TIS_REG l TIS_REG_ACCESS) TIS_ACCESS_ACTIVE_LOCALITY x) w1
      else w1
    let w3 := writeb hw (TIS_REG locty TIS_REG_ACCESS) TIS_ACCESS_REQUEST_USE w2
    let (acc, w4) := readb hw (TIS_REG locty TIS_REG_ACCESS) w3
    if acc &&& TIS_ACCESS_ACTIVE_LOCALITY ≠ 0 then
      let w5 := writeb hw (TIS_REG locty TIS_REG_STS) TIS_STS_COMMAND_READY w4
      some (tis_wait_sts hw locty timeout_a TIS_STS_COMMAND_READY TIS_STS_COMMAND_READY w5)
    else some (0, w4)

/-- The scan `for (locty = 0; locty <= 4; locty++)` of
`tis_find_active_locality`, with `n` localities still to look at. -/
def find_active_scan (hw : Chip σ) : Nat → Nat → World σ → Option Nat × World σ
  | 0, _, w => (none, w)
  | n + 1, locty, w =>
    let (acc, w1) := readb hw (TIS_REG locty TIS_REG_ACCESS) w
    if acc &&& TIS_ACCESS_ACTIVE_LOCALITY ≠ 0 then (some locty, w1)
    else find_active_scan hw n (locty + 1) w1

def tis_find_active_locality (hw : Chip σ) (w : World σ) : Option (Nat × World σ) :=
  match find_active_scan hw 5 0 w with
  | (some locty, w1) => some (locty, w1)
  | (none, w1) =>
    match tis_activate hw 0 w1 with
    | none => none
    | some (_, w2) => some (0, w2)

def tis_ready (hw : Chip σ) (w : World σ) : Option (Nat × World σ) :=
  match tis_find_active_locality hw w with
  | none => none
  | some (locty, w1) =>
    match load w1 w1.tpm_drivers.timeouts TIS_TIMEOUT_TYPE_B with
    | none => none
    | some timeout_b =>
      let w2 := writeb hw (TIS_REG locty TIS_REG_STS) TIS_STS_COMMAND_READY w1
      some (tis_wait_sts hw locty timeout_b TIS_STS_COMMAND_READY TIS_STS_COMMAND_READY w2)

/-- The loop `while (burst == 0 && ctr < timeout_d)` of `tis_senddata`, entered
with `burst == 0`; `n` is `timeout_d - ctr`, the polls still allowed. Returns
`burst` and `ctr`. -/
def senddata_poll (hw : Chip σ) (locty : Nat) : Nat → Nat → World σ → Nat × Nat × World σ
  | 0, ctr, w => (0, ctr, w)
  | n + 1, ctr, w =>
    let (v, w1) := readl hw (TIS_REG locty TIS_REG_STS) w
    let burst := (v >>> 8) % 65536
    if burst = 0 then senddata_poll hw locty n (ctr + 1) (msleep hw 1 w1)
    else (burst, ctr, w1)

/-- The loop `while (1)` of `tis_senddata`, entered with `burst != 0`; the
recursion is on `burst`. `data i` is the byte at `data + i`. Returns `burst`
and `offset`. -/
def senddata_burst (hw : Chip σ) (locty : Nat) (data : Nat → Nat) (len : Nat) :
    Nat → Nat → World σ → Nat × Nat × World σ
  | 0, offset, w => (0, offset, w)
  | b + 1, offset, w =>
    let w1 := writeb hw (TIS_REG locty TIS_REG_DATA_FIFO) (data offset) w
    let offset1 := (offset + 1) % 2 ^ 32
    if b = 0 ∨ offset1 = len then (b, offset1, w1)
    else senddata_burst hw locty data len b offset1 w1

/-- The loop `do ... while (end == 0)` of `tis_senddata`. Every round that does
not leave writes a byte, and `offset` is 32 bits wide, so `2 ^ 32` rounds are
never used up; `none` stands for running out of rounds. -/
def senddata_loop (hw : Chip σ) (locty : Nat) (data : Nat → Nat) (len timeout_d : Nat) :
    Nat → Nat → Nat → Nat → World σ → Option (Nat × World σ)
  | 0, _, _, _, _ => none
  | fuel + 1, burst, offset, ctr, w =>
    let (burst1, ctr1, w1) :=
      if burst = 0 then senddata_poll hw locty (timeout_d - ctr) ctr w else (burst, ctr, w)
    if burst1 = 0 then some (TCG_RESPONSE_TIMEOUT, w1)
    else
      let (burst2, offset2, w2) := senddata_burst hw locty data len burst1 offset w1
      if offset2 = len then some (0, w2)
      else senddata_loop hw locty data len timeout_d fuel burst2 offset2 ctr1 w2

def tis_senddata (hw : Chip σ) (data : Nat → Nat) (len : Nat) (w : World σ) :
    Option (Nat × World σ) :=
  match tis_find_active_locality hw w with
  | none => none
  | some (locty, w1) =>
    match load w1 w1.tpm_drivers.timeouts TIS_TIMEOUT_TYPE_D with
    | none => none
    | some timeout_d => senddata_loop hw locty data len timeout_d (2 ^ 32) 0 0 0 w1

/-- The loop `while (offset < *len)` of `tis_readresp`; `n` is `*len - offset`.
Returns `offset` and the buffer. -/
def readresp_loop (hw : Chip σ) (locty : Nat) :
    Nat → Nat → (Nat → Nat) → World σ → Nat × (Nat → Nat) × World σ
  | 0, offset, buffer, w => (offset, buffer, w)
  | n + 1, offset, buffer, w =>
    let (b, w1) := readb hw (TIS_REG locty TIS_REG_DATA_FIFO) w
    let buffer1 := Function.update buffer offset b
    let offset1 := offset + 1
    let (sts, w2) := readb hw (TIS_REG locty TIS_REG_STS) w1
    if sts &&& TIS_STS_DATA_AVAILABLE = 0 then (offset1, buffer1, w2)
    else readresp_loop hw locty n offset1 buffer1 w2

/-- Returns the code, the buffer and the new `*len`. -/
def tis_readresp (hw : Chip σ) (buffer : Nat → Nat) (len : Nat) (w : World σ) :
    Option (Nat × (Nat → Nat) × Nat × World σ) :=
  match tis_find_active_locality hw w with
  | none => none
  | some (locty, w1) =>
    let (offset, buffer1, w2) := readresp_loop hw locty len 0 buffer w1
    some (0, buffer1, offset, w2)

def tis_waitdatavalid (hw : Chip σ) (w : World σ) : Option (Nat × World σ) :=
  match tis_find_active_locality hw w with
  | none => none
  | some (locty, w1) =>
    match load w1 w1.tpm_drivers.timeouts TIS_TIMEOUT_TYPE_C with
    | none => none
    | some timeout_c =>
      let (r, w2) := tis_wait_sts hw locty timeout_c TIS_STS_VALID TIS_STS_VALID w1
      if r ≠ 0 then some (TCG_NO_RESPONSE, w2) else some (0, w2)

def tis_waitrespready (hw : Chip σ) (to_t : tpmDurationType) (w : World σ) :
    Option (Nat × World σ) :=
  match tis_find_active_locality hw w with
  | none => none
  | some (locty, w1) =>
    match load w1 w1.tpm_drivers.durations to_t.toNat with
    | none => none
    | some timeout =>
      let w2 := writeb hw (TIS_REG locty TIS_REG_STS) TIS_STS_TPM_GO w1
      let (r, w3) :=
        tis_wait_sts hw locty timeout TIS_STS_DATA_AVAILABLE TIS_STS_DATA_AVAILABLE w2
      if r ≠ 0 then some (TCG_NO_RESPONSE, w3) else some (0, w3)

/-- The loop over the `TPM_NUM_DRIVERS = 1` entries of the table, unrolled. -/
def is_tpm_present (hw : Chip σ) (w : World σ) : Nat × World σ :=
  let (p, w1) := tis_probe hw w
  if p ≠ 0 then
    let (_, w2) := tis_init hw w1
    (1, { w2 with tcpa_state := { w2.tcpa_state with tpm_driver_to_use := TIS_DRIVER_IDX % 16 } })
  else (0, w1)

def vtpm4hvm_setup (hw : Chip σ) (w : World σ) : Nat × World σ :=
  let w3 :=
    if w.tcpa_state.tpm_probed = false then
      let w1 := { w with tcpa_state := { w.tcpa_state with tpm_probed := true } }
      let (r, w2) := is_tpm_present hw w1
      let w2a := { w2 with tcpa_state := { w2.tcpa_state with tpm_found := decide (r ≠ 0) } }
      { w2a with tcpa_state := { w2a.tcpa_state with tpm_working := true } }
    else w
  if w3.tcpa_state.tpm_working = false then (0, w3)
  else (if w3.tcpa_state.tpm_found then 1 else 0, w3)

end Driver

/-! ## Simulated chips -/

/-- A chip that replays recorded answers: byte reads are answered from the
first list and word reads from the second, in order and whatever the address,
with 0 once a list is used up. Writes and sleeps leave it as it is. -/
def replay : Chip (List Nat × List Nat) :=
  { readb := fun s _ => (s.1.headD 0, (s.1.tail, s.2))
    readl := fun s _ => (s.2.headD 0, (s.1, s.2.tail))
    writeb := fun s _ _ => s
    msleep := fun s _ => s }

/-- The machine on which a replay chip `c` went through boot and `tis_init` with
both allocations granted, and whose timeouts were then set to `t`. -/
def readyWorld (c : List Nat × List Nat) (t : List Nat) : World (List Nat × List Nat) :=
  set_timeouts (some t) none (tis_init replay (World.boot c [true, true])).2

/-- The machine on which a replay chip `c` went through boot and `tis_init` with
both allocations granted, and whose timeouts and durations were then set to
`t` and `d`. -/
def tunedWorld (c : List Nat × List Nat) (t d : List Nat) : World (List Nat × List Nat) :=
  set_timeouts (some t) (some d) (tis_init replay (World.boot c [true, true])).2

/-- A payload for the examples: byte `i` is `i + 1`. -/
def samplePayload (i : Nat) : Nat := i + 1

/-- State of the simulated register file: the locality that owns the chip, if
any, and whether the chip has taken the command-ready request. -/
structure RegFile where
  active : Option (Fin 5)
  ready : Bool
  deriving DecidableEq, Repr

/-- Locality of an address of the register window. -/
def addrLocty (addr : Nat) : Nat := (addr - TPM_TIS_BASE_ADDRESS) >>> 12

/-- Register offset of an address of the register window. -/
def addrReg (addr : Nat) : Nat := (addr - TPM_TIS_BASE_ADDRESS) % 4096

/-- A register file that honours the request/active protocol. Writing the
active-locality bit to the ACCESS register of the owner releases the chip; a
request-use write to the ACCESS register of one of the five localities of a
free chip makes that locality, and no other, the owner; a command-ready write
to the STS register of the owner is echoed by later reads of STS. -/
def regfile : Chip RegFile :=
  { readb := fun s addr =>
      if addrReg addr = TIS_REG_ACCESS then
        (if s.active.map Fin.val = some (addrLocty addr)
          then 0x80 ||| TIS_ACCESS_ACTIVE_LOCALITY else 0x80, s)
      else if addrReg addr = TIS_REG_STS then
        (if s.active.map Fin.val = some (addrLocty addr) ∧ s.ready = true
          then 0x80 ||| TIS_STS_COMMAND_READY else 0x80, s)
      else (0xff, s)
    readl := fun s _ => (0xffffffff, s)
    writeb := fun s addr v =>
      if addrReg addr = TIS_REG_ACCESS then
        if v &&& TIS_ACCESS_ACTIVE_LOCALITY ≠ 0 then
          (if s.active.map Fin.val = some (addrLocty addr)
            then { active := none, ready := false } else s)
        else if v &&& TIS_ACCESS_REQUEST_USE ≠ 0 then
          (if h : s.active = none ∧ addrLocty addr < 5
            then { active := some ⟨addrLocty addr, h.2⟩, ready := false } else s)
        else s
      else if addrReg addr = TIS_REG_STS then
        (if v &&& TIS_STS_COMMAND_READY ≠ 0 ∧ s.active.map Fin.val = some (addrLocty addr)
          then { s with ready := true } else s)
      else s
    msleep := fun s _ => s }

/-- The chip `hw` honours the request/active protocol, `owner c` being the
locality that owns the chip in state `c`, if any: the owner is one of the
localities 0 to 4; the ACCESS register of a locality shows the active-locality
bit exactly when that locality is the owner; a write of the active-locality
bit to the ACCESS register of the owner releases the chip and to another
ACCESS register changes nothing; a request-use write makes the locality the
owner if the chip is free and changes nothing otherwise; reads, sleeps and
writes to STS do not change the owner. -/
structure HonorsProtocol {σ : Type} (hw : Chip σ) (owner : σ → Option Nat) : Prop where
  owner_le : ∀ c l, owner c = some l → l ≤ 4
  access_read : ∀ c l, l ≤ 4 →
    ((hw.readb c (TIS_REG l TIS_REG_ACCESS)).1 % 256 &&& TIS_ACCESS_ACTIVE_LOCALITY ≠ 0 ↔
      owner c = some l)
  readb_owner : ∀ c a, owner (hw.readb c a).2 = owner c
  msleep_owner : ∀ c n, owner (hw.msleep c n) = owner c
  release : ∀ c l, l ≤ 4 →
    owner (hw.writeb c (TIS_REG l TIS_REG_ACCESS) TIS_ACCESS_ACTIVE_LOCALITY) =
      if owner c = some l then none else owner c
  request : ∀ c l, l ≤ 4 →
    owner (hw.writeb c (TIS_REG l TIS_REG_ACCESS) TIS_ACCESS_REQUEST_USE) =
      if owner c = none then some l else owner c
  sts_write : ∀ c l v, l ≤ 4 → owner (hw.writeb c (TIS_REG l TIS_REG_STS) v) = owner c

/-! ## The chip as seen by a send and by a receive

These definitions describe the chip alone. They say what it answers when it is
accessed in the pattern of a send (poll STS for the burst count, sleep after a
zero, write a chunk after a non-zero) or of a receive (read DATA_FIFO, read
STS, and so on), and what log of accesses such a run leaves. -/

section Views
variable {σ : Type}

/-- The burst count in a 32-bit value of STS: bits 8 to 23. -/
def burstOf (v : Nat) : Nat := (v >>> 8) % 65536

/-- The chip polled `n` times for its burst count, with a sleep of 1 ms after
each poll, reports a burst count of 0 every time. -/
def pollsZero (hw : Chip σ) (locty : Nat) : Nat → σ → Bool
  | 0, _ => true
  | n + 1, c =>
    decide (burstOf ((hw.readl c (TIS_REG locty TIS_REG_STS)).1 % 2 ^ 32) = 0) &&
      pollsZero hw locty n (hw.msleep (hw.readl c (TIS_REG locty TIS_REG_STS)).2 1)

/-- The chip after the `k` bytes `data offset`, ..., `data (offset + k - 1)` have
been written to DATA_FIFO of `locty`. -/
def feed (hw : Chip σ) (locty : Nat) (data : Nat → Nat) : Nat → Nat → σ → σ
  | 0, _, c => c
  | k + 1, offset, c =>
    feed hw locty data k (offset + 1)
      (hw.writeb c (TIS_REG locty TIS_REG_DATA_FIFO) (data offset % 256))

/-- The chip in state `c`, with `offset` bytes of a payload of `len` bytes
already taken, answers the successive 32-bit reads of STS with the values `vs`
(zero burst counts included) when it is slept on after a zero burst count and
fed `min burst (len - offset)` bytes after a non-zero one; no read comes after
the payload is complete, and the payload is complete at the end of `vs`. -/
def offers (hw : Chip σ) (locty : Nat) (data : Nat → Nat) (len : Nat) :
    List Nat → Nat → σ → Bool
  | [], offset, _ => decide (offset = len)
  | v :: vs, offset, c =>
    decide ((hw.readl c (TIS_REG locty TIS_REG_STS)).1 % 2 ^ 32 = v) && decide (offset < len) &&
      (if burstOf v = 0 then
        offers hw locty data len vs offset
          (hw.msleep (hw.readl c (TIS_REG locty TIS_REG_STS)).2 1)
      else
        offers hw locty data len vs (offset + min (burstOf v) (len - offset))
          (feed hw locty data (min (burstOf v) (len - offset)) offset
            (hw.readl c (TIS_REG locty TIS_REG_STS)).2))

/-- The writes of the `k` bytes `data offset`, ... to DATA_FIFO of `locty`. -/
def chunkEvents (locty : Nat) (data : Nat → Nat) (offset k : Nat) : List Event :=
  (List.range k).map fun i =>
    Event.writeb (TIS_REG locty TIS_REG_DATA_FIFO) (data (offset + i) % 256)

/-- The log of a send whose reads of STS are answered with `vs`: each read is
followed by a sleep of 1 ms if its burst count is 0 and by a chunk of
`min burst (len - offset)` writes to DATA_FIFO otherwise. -/
def sendEvents (locty : Nat) (data : Nat → Nat) (len : Nat) : List Nat → Nat → List Event
  | [], _ => []
  | v :: vs, offset =>
    Event.readl (TIS_REG locty TIS_REG_STS) v ::
      (if burstOf v = 0 then Event.msleep 1 :: sendEvents locty data len vs offset
      else
        chunkEvents locty data offset (min (burstOf v) (len - offset)) ++
          sendEvents locty data len vs (offset + min (burstOf v) (len - offset)))

/-- The writes to a DATA_FIFO register in a log, in order, each as the pair of
the address and the byte written. -/
def fifoWrites (tr : List Event) : List (Nat × Nat) :=
  tr.filterMap fun e =>
    match e with
    | Event.writeb a v => if addrReg a = TIS_REG_DATA_FIFO then some (a, v) else none
    | _ => none

/-- The sizes of the runs of consecutive writes to DATA_FIFO of `locty` in a
log; any other event ends a run. `run` is the length of the run in progress. -/
def writeBursts (locty : Nat) : List Event → Nat → List Nat
  | [], run => if run = 0 then [] else [run]
  | Event.writeb a _ :: tr, run =>
    if a = TIS_REG locty TIS_REG_DATA_FIFO then writeBursts locty tr (run + 1)
    else (if run = 0 then [] else [run]) ++ writeBursts locty tr 0
  | _ :: tr, run => (if run = 0 then [] else [run]) ++ writeBursts locty tr 0

/-- The log of `n` polls of the burst count with a sleep of 1 ms after each,
as a function of the chip the polls start from. -/
def zeroPollEvents (hw : Chip σ) (locty : Nat) : Nat → σ → List Event
  | 0, _ => []
  | n + 1, c =>
    Event.readl (TIS_REG locty TIS_REG_STS)
        ((hw.readl c (TIS_REG locty TIS_REG_STS)).1 % 2 ^ 32) ::
      Event.msleep 1 ::
        zeroPollEvents hw locty n (hw.msleep (hw.readl c (TIS_REG locty TIS_REG_STS)).2 1)

/-- One round of a receive, seen from the chip: a byte read of DATA_FIFO, then
a byte read of STS. -/
def respRound (hw : Chip σ) (locty : Nat) (c : σ) : σ :=
  (hw.readb (hw.readb c (TIS_REG locty TIS_REG_DATA_FIFO)).2 (TIS_REG locty TIS_REG_STS)).2

/-- The chip after `i` rounds of a receive. -/
def respChip (hw : Chip σ) (locty : Nat) : Nat → σ → σ
  | 0, c => c
  | i + 1, c => respChip hw locty i (respRound hw locty c)

/-- The byte that round `i` of a receive (counted from 0) reads from DATA_FIFO. -/
def respByte (hw : Chip σ) (locty : Nat) (c : σ) (i : Nat) : Nat :=
  (hw.readb (respChip hw locty i c) (TIS_REG locty TIS_REG_DATA_FIFO)).1 % 256

/-- The value of STS that round `i` of a receive (counted from 0) reads after
its byte. -/
def respSts (hw : Chip σ) (locty : Nat) (c : σ) (i : Nat) : Nat :=
  (hw.readb (hw.readb (respChip hw locty i c) (TIS_REG locty TIS_REG_DATA_FIFO)).2
    (TIS_REG locty TIS_REG_STS)).1 % 256

/-- The log of the first `n` rounds of a receive. -/
def respEvents (hw : Chip σ) (locty : Nat) (c : σ) (n : Nat) : List Event :=
  (List.range n).flatMap fun i =>
    [Event.readb (TIS_REG locty TIS_REG_DATA_FIFO) (respByte hw locty c i),
      Event.readb (TIS_REG locty TIS_REG_STS) (respSts hw locty c i)]

/-- One round of a wait that does not end, seen from the chip: a byte read of
STS, then a sleep of 1 ms. -/
def pollRound (hw : Chip σ) (locty : Nat) (c : σ) : σ :=
  hw.msleep (hw.readb c (TIS_REG locty TIS_REG_STS)).2 1

/-- The chip after `i` such rounds. -/
def pollChip (hw : Chip σ) (locty : Nat) : Nat → σ → σ
  | 0, c => c
  | i + 1, c => pollChip hw locty i (pollRound hw locty c)

/-- The value of STS that poll `i` of a wait (counted from 0) reads. -/
def pollSts (hw : Chip σ) (locty : Nat) (c : σ) (i : Nat) : Nat :=
  (hw.readb (pollChip hw locty i c) (TIS_REG locty TIS_REG_STS)).1 % 256

/-- The log of the first `n` polls of a wait none of which ended it: each read
of STS is followed by one sleep of 1 ms. -/
def waitEvents (hw : Chip σ) (locty : Nat) (c : σ) (n : Nat) : List Event :=
  (List.range n).flatMap fun i =>
    [Event.readb (TIS_REG locty TIS_REG_STS) (pollSts hw locty c i), Event.msleep 1]

/-- The number of byte reads of STS of `locty` in a log. -/
def stsPolls (locty : Nat) (tr : List Event) : Nat :=
  tr.countP fun e =>
    match e with
    | Event.readb a _ => decide (a = TIS_REG locty TIS_REG_STS)
    | _ => false

/-- The number of sleeps in a log. -/
def sleeps (tr : List Event) : Nat :=
  tr.countP fun e =>
    match e with
    | Event.msleep _ => true
    | _ => false

/-- The chip after the ACCESS registers of the `n` localities from `l0` on
have been read in turn. -/
def scanChip (hw : Chip σ) : Nat → Nat → σ → σ
  | 0, _, c => c
  | n + 1, l0, c => scanChip hw n (l0 + 1) (hw.readb c (TIS_REG l0 TIS_REG_ACCESS)).2

/-- The value that read `i` (counted from 0) of a scan starting at locality
`l0` gets from the ACCESS register of locality `l0 + i`. -/
def scanAccess (hw : Chip σ) (l0 : Nat) (c : σ) (i : Nat) : Nat :=
  (hw.readb (scanChip hw i l0 c) (TIS_REG (l0 + i) TIS_REG_ACCESS)).1 % 256

/-- The log of the first `n` reads of such a scan. -/
def scanEvents (hw : Chip σ) (l0 : Nat) (c : σ) (n : Nat) : List Event :=
  (List.range n).map fun i =>
    Event.readb (TIS_REG (l0 + i) TIS_REG_ACCESS) (scanAccess hw l0 c i)

/-- The writes to an ACCESS register in a log, in order, each as the pair of
the address and the byte written. -/
def accessWrites (tr : List Event) : List (Nat × Nat) :=
  tr.filterMap fun e =>
    match e with
    | Event.writeb a v => if addrReg a = TIS_REG_ACCESS then some (a, v) else none
    | _ => none

/-- The number of bytes a send at `offset` has yet to write before `offset`,
a 32-bit counter, equals `len`: `len - offset` if `offset` is below `len`, and
the way round through `2 ^ 32` otherwise. -/
def sendDist (offset len : Nat) : Nat :=
  if offset < len then len - offset else len + 2 ^ 32 - offset

/-- Runs a log against the burst count: `allow` is the number of bytes the
chip still accepts. A 32-bit read of STS of `locty` sets it to the burst count
read (bits 8 to 23); a write to DATA_FIFO must be to `locty`, needs `allow` to
be positive and takes 1 off it; any other event leaves it. The result is the
last `allow`, or `none` if a write came without allowance. -/
def gateRun (locty : Nat) : List Event → Nat → Option Nat
  | [], allow => some allow
  | Event.readl a v :: tr, allow =>
    if a = TIS_REG locty TIS_REG_STS then gateRun locty tr (burstOf v)
    else gateRun locty tr allow
  | Event.writeb a _ :: tr, allow =>
    if addrReg a = TIS_REG_DATA_FIFO then
      (if a = TIS_REG locty TIS_REG_DATA_FIFO ∧ 0 < allow then gateRun locty tr (allow - 1)
        else none)
    else gateRun locty tr allow
  | Event.readb _ _ :: tr, allow => gateRun locty tr allow
  | Event.msleep _ :: tr, allow => gateRun locty tr allow

/-- Entry `i` of the array `p` designates can be loaded and is above 0. -/
def positiveAt (w : World σ) (p : Ptr) (i : Nat) : Bool :=
  match load w p i with
  | some v => decide (0 < v)
  | none => false

/-- Every one of the four timeouts and of the three durations of the driver is
above 0. -/
def recordsPositive (w : World σ) : Bool :=
  (List.range 4).all (fun i => positiveAt w w.tpm_drivers.timeouts i) &&
    (List.range 3).all (fun i => positiveAt w w.tpm_drivers.durations i)

/-- The accesses `tis_activate` makes before it looks for the grant: the read
of ACCESS of `locty` at entry, the five releases if that read lacks the
active-locality bit, the request, and the read of ACCESS of `locty` whose value
decides whether the wait for command-ready is run. Returns that value. -/
def activateHead (hw : Chip σ) (locty : Nat) (w : World σ) : Nat × World σ :=
  let (a0, w1) := readb hw (TIS_REG locty TIS_REG_ACCESS) w
  let w2 :=
    if a0 &&& TIS_ACCESS_ACTIVE_LOCALITY = 0 then
      [4, 3, 2, 1, 0].foldl
        (fun x l => writeb hw (TIS_REG l TIS_REG_ACCESS) TIS_ACCESS_ACTIVE_LOCALITY x) w1
    else w1
  readb hw (TIS_REG locty TIS_REG_ACCESS)
    (writeb hw (TIS_REG locty TIS_REG_ACCESS) TIS_ACCESS_REQUEST_USE w2)

/-- The memory of the machine: everything but the chip and the log. -/
def memOf (w : World σ) :
    List Nat × List Nat × (Nat → List Nat) × Nat × List Bool × tpm_driver × tcpa_state_t :=
  (w.tis_default_timeouts, w.tpm_default_durations, w.low, w.low_next, w.zone_low,
    w.tpm_drivers, w.tcpa_state)

/-- The step from `w` to `x` changed no memory and wrote to no DATA_FIFO. -/
def Quiet (w x : World σ) : Prop :=
  memOf x = memOf w ∧ fifoWrites x.trace = fifoWrites w.trace

end Views

/-! ## Theorems -/

section Proofs
variable {σ : Type}

/-! ### What the primitives leave alone -/

@[simp] theorem readb_tcpa_state (hw : Chip σ) (a : Nat) (w : World σ) :
    (readb hw a w).2.tcpa_state = w.tcpa_state := rfl

@[simp] theorem readl_tcpa_state (hw : Chip σ) (a : Nat) (w : World σ) :
    (readl hw a w).2.tcpa_state = w.tcpa_state := rfl

@[simp] theorem writeb_tcpa_state (hw : Chip σ) (a v : Nat) (w : World σ) :
    (writeb hw a v w).tcpa_state = w.tcpa_state := rfl

@[simp] theorem malloc_low_tcpa_state (n : Nat) (w : World σ) :
    (malloc_low n w).2.tcpa_state = w.tcpa_state := by
  unfold malloc_low; split <;> rfl

@[simp] theorem memcpy_tcpa_state (p : Ptr) (src : List Nat) (n : Nat) (w : World σ) :
    (memcpy p src n w).tcpa_state = w.tcpa_state := by
  cases p <;> rfl

@[simp] theorem tis_probe_tcpa_state (hw : Chip σ) (w : World σ) :
    (tis_probe hw w).2.tcpa_state = w.tcpa_state := by
  unfold tis_probe
  dsimp only
  split_ifs <;> rfl

@[simp] theorem tis_init_tcpa_state (hw : Chip σ) (w : World σ) :
    (tis_init hw w).2.tcpa_state = w.tcpa_state := by
  unfold tis_init
  dsimp only
  split_ifs <;> simp

@[simp] theorem is_tpm_present_tpm_probed (hw : Chip σ) (w : World σ) :
    (is_tpm_present hw w).2.tcpa_state.tpm_probed = w.tcpa_state.tpm_probed := by
  unfold is_tpm_present
  dsimp only
  split_ifs <;> simp

/-- The value `vtpm4hvm_setup` returns, as a function of the session flags it
leaves behind. -/
theorem vtpm4hvm_setup_fst (hw : Chip σ) (w : World σ) :
    (vtpm4hvm_setup hw w).1 =
      if (vtpm4hvm_setup hw w).2.tcpa_state.tpm_working = false then 0
      else if (vtpm4hvm_setup hw w).2.tcpa_state.tpm_found then 1 else 0 := by
  unfold vtpm4hvm_setup
  dsimp only
  split_ifs <;> simp_all

theorem vtpm4hvm_setup_probed (hw : Chip σ) (w : World σ) :
    (vtpm4hvm_setup hw w).2.tcpa_state.tpm_probed = true := by
  unfold vtpm4hvm_setup
  dsimp only
  split_ifs <;> simp_all

/-- Once `tpm_probed` is set, a call is a pure read of the flags. -/
theorem vtpm4hvm_setup_of_probed (hw : Chip σ) (w : World σ)
    (h : w.tcpa_state.tpm_probed = true) :
    vtpm4hvm_setup hw w =
      (if w.tcpa_state.tpm_working = false then 0
        else if w.tcpa_state.tpm_found then 1 else 0, w) := by
  unfold vtpm4hvm_setup
  simp only [h]
  split_ifs <;> simp_all

theorem vtpm4hvm_setup_again (hw : Chip σ) (w : World σ) :
    vtpm4hvm_setup hw (vtpm4hvm_setup hw w).2 = vtpm4hvm_setup hw w := by
  rw [vtpm4hvm_setup_of_probed hw _ (vtpm4hvm_setup_probed hw w), ← vtpm4hvm_setup_fst]

/-- C6: `tis_probe` makes one 32-bit read, of DID_VID of locality 0, and
returns 1 if the value read is neither 0x00000000 nor 0xFFFFFFFF and 0 if it is
one of the two. -/
theorem tis_probe_spec (hw : Chip σ) (w : World σ) :
    (tis_probe hw w).2 = (readl hw (TIS_REG 0 TIS_REG_DID_VID) w).2 ∧
    ((readl hw (TIS_REG 0 TIS_REG_DID_VID) w).1 ≠ 0 ∧
      (readl hw (TIS_REG 0 TIS_REG_DID_VID) w).1 ≠ 0xffffffff → (tis_probe hw w).1 = 1) ∧
    ((readl hw (TIS_REG 0 TIS_REG_DID_VID) w).1 = 0 ∨
      (readl hw (TIS_REG 0 TIS_REG_DID_VID) w).1 = 0xffffffff → (tis_probe hw w).1 = 0) := by
  unfold tis_probe
  dsimp only
  refine ⟨?_, ?_, ?_⟩
  · split_ifs <;> rfl
  · intro h; simp [h]
  · intro h
    rcases h with h | h <;> simp [h]

/-- C7: a second call of `vtpm4hvm_setup`, and every later one, returns what
the first call returned and leaves the whole machine state as the first call
left it: the log of register accesses has not grown and the session flags and
the selected driver are the same. -/
theorem vtpm4hvm_setup_idempotent (hw : Chip σ) (w : World σ) (k : Nat) :
    Nat.iterate (fun r => vtpm4hvm_setup hw r.2) k (vtpm4hvm_setup hw w) =
      vtpm4hvm_setup hw w := by
  induction k with
  | zero => rfl
  | succ n ih => rw [Function.iterate_succ_apply', ih, vtpm4hvm_setup_again]

/-! ### The allocator and the copy -/

@[simp] theorem malloc_low_trace (n : Nat) (w : World σ) :
    (malloc_low n w).2.trace = w.trace := by
  unfold malloc_low; split <;> rfl

@[simp] theorem malloc_low_chip (n : Nat) (w : World σ) :
    (malloc_low n w).2.chip = w.chip := by
  unfold malloc_low; split <;> rfl

@[simp] theorem malloc_low_tpm_drivers (n : Nat) (w : World σ) :
    (malloc_low n w).2.tpm_drivers = w.tpm_drivers := by
  unfold malloc_low; split <;> rfl

@[simp] theorem malloc_low_tis_default_timeouts (n : Nat) (w : World σ) :
    (malloc_low n w).2.tis_default_timeouts = w.tis_default_timeouts := by
  unfold malloc_low; split <;> rfl

@[simp] theorem malloc_low_tpm_default_durations (n : Nat) (w : World σ) :
    (malloc_low n w).2.tpm_default_durations = w.tpm_default_durations := by
  unfold malloc_low; split <;> rfl

@[simp] theorem memcpy_trace (p : Ptr) (src : List Nat) (n : Nat) (w : World σ) :
    (memcpy p src n w).trace = w.trace := by
  cases p <;> rfl

@[simp] theorem memcpy_chip (p : Ptr) (src : List Nat) (n : Nat) (w : World σ) :
    (memcpy p src n w).chip = w.chip := by
  cases p <;> rfl

@[simp] theorem memcpy_tpm_drivers (p : Ptr) (src : List Nat) (n : Nat) (w : World σ) :
    (memcpy p src n w).tpm_drivers = w.tpm_drivers := by
  cases p <;> rfl

@[simp] theorem memcpy_zone_low (p : Ptr) (src : List Nat) (n : Nat) (w : World σ) :
    (memcpy p src n w).zone_low = w.zone_low := by
  cases p <;> rfl

/-- The allocator never hands out one of the static tables. -/
theorem malloc_low_fst (n : Nat) (w : World σ) :
    (malloc_low n w).1 = Ptr.null ∨ (malloc_low n w).1 = Ptr.low w.low_next := by
  unfold malloc_low; split <;> simp

/-! ### `tis_init` -/

theorem tis_init_trace (hw : Chip σ) (w : World σ) :
    (tis_init hw w).2.trace = w.trace ++ [Event.writeb (TIS_REG 0 TIS_REG_INT_ENABLE) 0] := by
  unfold tis_init
  dsimp only
  split_ifs <;> simp [writeb]

theorem tis_init_timeouts_ne_null (hw : Chip σ) (w : World σ) :
    (tis_init hw w).2.tpm_drivers.timeouts ≠ Ptr.null := by
  unfold tis_init
  dsimp only
  split_ifs <;> simp_all

theorem tis_init_durations_ne_null (hw : Chip σ) (w : World σ) :
    (tis_init hw w).2.tpm_drivers.durations ≠ Ptr.null := by
  unfold tis_init
  dsimp only
  split_ifs <;> simp_all [writeb]

/-! ### Presence detection -/

theorem tis_probe_eq (hw : Chip σ) (w : World σ) :
    tis_probe hw w =
      (if (readl hw (TIS_REG 0 TIS_REG_DID_VID) w).1 ≠ 0 ∧
          (readl hw (TIS_REG 0 TIS_REG_DID_VID) w).1 ≠ 0xffffffff then 1 else 0,
        (readl hw (TIS_REG 0 TIS_REG_DID_VID) w).2) := by
  unfold tis_probe
  dsimp only
  split_ifs <;> rfl

theorem is_tpm_present_found (hw : Chip σ) (w : World σ) (h : (tis_probe hw w).1 ≠ 0) :
    is_tpm_present hw w =
      (1, { (tis_init hw (tis_probe hw w).2).2 with
        tcpa_state := { (tis_init hw (tis_probe hw w).2).2.tcpa_state with
          tpm_driver_to_use := TIS_DRIVER_IDX % 16 } }) := by
  unfold is_tpm_present
  dsimp only
  rw [if_pos h]

theorem is_tpm_present_absent (hw : Chip σ) (w : World σ) (h : (tis_probe hw w).1 = 0) :
    is_tpm_present hw w = (0, (tis_probe hw w).2) := by
  unfold is_tpm_present
  dsimp only
  rw [if_neg (not_not.mpr h)]

theorem vtpm4hvm_setup_of_unprobed (hw : Chip σ) (w : World σ)
    (h : w.tcpa_state.tpm_probed = false) :
    vtpm4hvm_setup hw w =
      (if (is_tpm_present hw
            { w with tcpa_state := { w.tcpa_state with tpm_probed := true } }).1 ≠ 0 then 1 else 0,
        { (is_tpm_present hw
            { w with tcpa_state := { w.tcpa_state with tpm_probed := true } }).2 with
          tcpa_state := { (is_tpm_present hw
            { w with tcpa_state := { w.tcpa_state with tpm_probed := true } }).2.tcpa_state with
            tpm_found := decide ((is_tpm_present hw
              { w with tcpa_state := { w.tcpa_state with tpm_probed := true } }).1 ≠ 0),
            tpm_working := true } }) := by
  unfold vtpm4hvm_setup
  simp only [h, if_true]
  split_ifs <;> simp_all

/-- C8: from the initial session state the first call of `vtpm4hvm_setup`
returns 1 exactly when the DID_VID read is neither 0 nor 0xFFFFFFFF. In that
case the accesses made are that read followed by the write of 0 to INT_ENABLE
of locality 0 (one run of `tis_init`), both records of the driver are set, the
selected driver is 0 and `tpm_found` is set. Otherwise the only access is the
read, the driver entry and the memory stay as they were, the selected driver
stays invalid and `tpm_found` is clear. Either way `tpm_probed` and
`tpm_working` are set. -/
theorem vtpm4hvm_setup_first (hw : Chip σ) (w : World σ)
    (h0 : w.tcpa_state =
      { tpm_probed := false, tpm_found := false, tpm_working := false, if_shutdown := false,
        tpm_driver_to_use := TPM_INVALID_DRIVER }) :
    ((vtpm4hvm_setup hw w).1 = 1 ↔
      ((readl hw (TIS_REG 0 TIS_REG_DID_VID) w).1 ≠ 0 ∧
        (readl hw (TIS_REG 0 TIS_REG_DID_VID) w).1 ≠ 0xffffffff)) ∧
    (((readl hw (TIS_REG 0 TIS_REG_DID_VID) w).1 ≠ 0 ∧
        (readl hw (TIS_REG 0 TIS_REG_DID_VID) w).1 ≠ 0xffffffff) →
      (vtpm4hvm_setup hw w).2.trace =
        w.trace ++ [Event.readl (TIS_REG 0 TIS_REG_DID_VID)
            (readl hw (TIS_REG 0 TIS_REG_DID_VID) w).1,
          Event.writeb (TIS_REG 0 TIS_REG_INT_ENABLE) 0] ∧
      (vtpm4hvm_setup hw w).2.tpm_drivers.timeouts ≠ Ptr.null ∧
      (vtpm4hvm_setup hw w).2.tpm_drivers.durations ≠ Ptr.null ∧
      (vtpm4hvm_setup hw w).2.tcpa_state.tpm_driver_to_use = TIS_DRIVER_IDX ∧
      (vtpm4hvm_setup hw w).2.tcpa_state.tpm_found = true) ∧
    (¬ ((readl hw (TIS_REG 0 TIS_REG_DID_VID) w).1 ≠ 0 ∧
        (readl hw (TIS_REG 0 TIS_REG_DID_VID) w).1 ≠ 0xffffffff) →
      (vtpm4hvm_setup hw w).1 = 0 ∧
      (vtpm4hvm_setup hw w).2.trace =
        w.trace ++ [Event.readl (TIS_REG 0 TIS_REG_DID_VID)
            (readl hw (TIS_REG 0 TIS_REG_DID_VID) w).1] ∧
      (vtpm4hvm_setup hw w).2.tpm_drivers = w.tpm_drivers ∧
      (vtpm4hvm_setup hw w).2.low = w.low ∧
      (vtpm4hvm_setup hw w).2.low_next = w.low_next ∧
      (vtpm4hvm_setup hw w).2.zone_low = w.zone_low ∧
      (vtpm4hvm_setup hw w).2.tis_default_timeouts = w.tis_default_timeouts ∧
      (vtpm4hvm_setup hw w).2.tpm_default_durations = w.tpm_default_durations ∧
      (vtpm4hvm_setup hw w).2.tcpa_state.tpm_driver_to_use = TPM_INVALID_DRIVER ∧
      (vtpm4hvm_setup hw w).2.tcpa_state.tpm_found = false) ∧
    (vtpm4hvm_setup hw w).2.tcpa_state.tpm_probed = true ∧
    (vtpm4hvm_setup hw w).2.tcpa_state.tpm_working = true := by
  have hp : w.tcpa_state.tpm_probed = false := by rw [h0]
  have hr : (readl hw (TIS_REG 0 TIS_REG_DID_VID)
      { w with tcpa_state := { w.tcpa_state with tpm_probed := true } }).1 =
        (readl hw (TIS_REG 0 TIS_REG_DID_VID) w).1 := rfl
  rw [vtpm4hvm_setup_of_unprobed hw w hp]
  by_cases hv : (readl hw (TIS_REG 0 TIS_REG_DID_VID) w).1 ≠ 0 ∧
      (readl hw (TIS_REG 0 TIS_REG_DID_VID) w).1 ≠ 0xffffffff
  · have h1 : (tis_probe hw
        { w with tcpa_state := { w.tcpa_state with tpm_probed := true } }).1 ≠ 0 := by
      rw [tis_probe_eq, hr]
      simp [hv]
    rw [is_tpm_present_found hw _ h1]
    refine ⟨by simp [hv], fun _ => ⟨?_, ?_, ?_, rfl, by simp⟩, fun h => absurd hv h, ?_, rfl⟩
    · simp [tis_init_trace, tis_probe_eq, readl]
    · exact tis_init_timeouts_ne_null _ _
    · exact tis_init_durations_ne_null _ _
    · simp
  · have h1 : (tis_probe hw
        { w with tcpa_state := { w.tcpa_state with tpm_probed := true } }).1 = 0 := by
      rw [tis_probe_eq, hr]
      simp [hv]
    rw [is_tpm_present_absent hw _ h1]
    refine ⟨by simp [hv], fun h => absurd h hv, fun _ => ?_, ?_, rfl⟩
    · simp [tis_probe_eq, readl, h0]
    · simp

/-- C8 at a chip whose DID_VID reads 0x15D11014, from the boot state. -/
theorem vtpm4hvm_setup_first_witness :
    (World.boot (([], [0x15D11014]) : List Nat × List Nat) [true, true]).tcpa_state =
      { tpm_probed := false, tpm_found := false, tpm_working := false, if_shutdown := false,
        tpm_driver_to_use := TPM_INVALID_DRIVER } ∧
    (vtpm4hvm_setup replay (World.boot ([], [0x15D11014]) [true, true])).1 = 1 ∧
    (vtpm4hvm_setup replay (World.boot ([], [0x15D11014]) [true, true])).2.tcpa_state.tpm_probed
      = true :=
  ⟨rfl,
    (vtpm4hvm_setup_first replay (World.boot ([], [0x15D11014]) [true, true]) rfl).1.mpr
      (by decide),
    (vtpm4hvm_setup_first replay (World.boot ([], [0x15D11014]) [true, true]) rfl).2.2.2.1⟩

/-- C9: if the two static tables hold their compiled-in values, `tis_init` on
a driver whose records are both unset leaves the timeouts reading 7500, 20000,
7500, 7500 and the durations reading 20000, 200000, 600000, whatever the
outcome of the two allocations; and `tis_init` on a driver whose records are
both set changes neither the driver entry nor any array in memory. -/
theorem tis_init_records (hw : Chip σ) (w : World σ)
    (ht : w.tis_default_timeouts =
      [TIS_DEFAULT_TIMEOUT_A, TIS_DEFAULT_TIMEOUT_B, TIS_DEFAULT_TIMEOUT_C, TIS_DEFAULT_TIMEOUT_D])
    (hd : w.tpm_default_durations =
      [TPM_DEFAULT_DURATION_SHORT, TPM_DEFAULT_DURATION_MEDIUM, TPM_DEFAULT_DURATION_LONG]) :
    (w.tpm_drivers.timeouts = Ptr.null ∧ w.tpm_drivers.durations = Ptr.null →
      deref (tis_init hw w).2 (tis_init hw w).2.tpm_drivers.timeouts
        = some [7500, 20000, 7500, 7500] ∧
      deref (tis_init hw w).2 (tis_init hw w).2.tpm_drivers.durations
        = some [20000, 200000, 600000]) ∧
    (w.tpm_drivers.timeouts ≠ Ptr.null ∧ w.tpm_drivers.durations ≠ Ptr.null →
      (tis_init hw w).2.tpm_drivers = w.tpm_drivers ∧
      ∀ p, deref (tis_init hw w).2 p = deref w p) := by
  constructor
  · rintro ⟨h1, h2⟩
    rcases hz : w.zone_low with _ | ⟨a, _ | ⟨b, rest⟩⟩ <;> try cases a <;> try cases b
    all_goals
      simp [tis_init, writeb, malloc_low, memcpy, deref, h1, h2, hz, ht, hd,
        TIS_DEFAULT_TIMEOUT_A, TIS_DEFAULT_TIMEOUT_B, TIS_DEFAULT_TIMEOUT_C,
        TIS_DEFAULT_TIMEOUT_D, TPM_DEFAULT_DURATION_SHORT, TPM_DEFAULT_DURATION_MEDIUM,
        TPM_DEFAULT_DURATION_LONG, SCALER]
  · rintro ⟨h1, h2⟩
    have e : (tis_init hw w).2 = writeb hw (TIS_REG 0 TIS_REG_INT_ENABLE) 0 w := by
      simp [tis_init, writeb, h1, h2]
    rw [e]
    refine ⟨rfl, fun p => ?_⟩
    cases p <;> rfl

/-- C9 at the boot state, with the first allocation failing and the second
succeeding, and again on the state that call leaves. -/
theorem tis_init_records_witness :
    (World.boot (([], []) : List Nat × List Nat) [false, true]).tis_default_timeouts =
      [TIS_DEFAULT_TIMEOUT_A, TIS_DEFAULT_TIMEOUT_B, TIS_DEFAULT_TIMEOUT_C,
        TIS_DEFAULT_TIMEOUT_D] ∧
    (World.boot (([], []) : List Nat × List Nat) [false, true]).tpm_default_durations =
      [TPM_DEFAULT_DURATION_SHORT, TPM_DEFAULT_DURATION_MEDIUM, TPM_DEFAULT_DURATION_LONG] ∧
    (deref (tis_init replay (World.boot ([], []) [false, true])).2
        (tis_init replay (World.boot ([], []) [false, true])).2.tpm_drivers.timeouts
        = some [7500, 20000, 7500, 7500] ∧
      deref (tis_init replay (World.boot ([], []) [false, true])).2
        (tis_init replay (World.boot ([], []) [false, true])).2.tpm_drivers.durations
        = some [20000, 200000, 600000]) ∧
    (tis_init replay (tis_init replay (World.boot ([], []) [false, true])).2).2.tpm_drivers =
      (tis_init replay (World.boot ([], []) [false, true])).2.tpm_drivers :=
  ⟨rfl, rfl,
    (tis_init_records replay (World.boot ([], []) [false, true]) rfl rfl).1 ⟨rfl, rfl⟩,
    ((tis_init_records replay (tis_init replay (World.boot ([], []) [false, true])).2
      rfl rfl).2 ⟨by decide, by decide⟩).1⟩

/-! ### `set_timeouts` -/

/-- One call of `set_timeouts` on a driver whose two records are distinct
blocks of low memory of 4 and 3 words. -/
theorem set_timeouts_low (w : World σ) (bt bd : Nat) (t d : Option (List Nat))
    (hpt : w.tpm_drivers.timeouts = Ptr.low bt) (hpd : w.tpm_drivers.durations = Ptr.low bd)
    (hne : bt ≠ bd) (hlt : (w.low bt).length = 4) (hld : (w.low bd).length = 3)
    (ht : ∀ a, t = some a → a.length = 4) (hd : ∀ a, d = some a → a.length = 3) :
    (set_timeouts t d w).low bt = t.getD (w.low bt) ∧
    (set_timeouts t d w).low bd = d.getD (w.low bd) ∧
    (∀ b, b ≠ bt → b ≠ bd → (set_timeouts t d w).low b = w.low b) ∧
    (set_timeouts t d w).tpm_drivers = w.tpm_drivers ∧
    (set_timeouts t d w).tis_default_timeouts = w.tis_default_timeouts ∧
    (set_timeouts t d w).tpm_default_durations = w.tpm_default_durations ∧
    (set_timeouts t d w).low_next = w.low_next ∧
    (set_timeouts t d w).zone_low = w.zone_low ∧
    (set_timeouts t d w).chip = w.chip ∧
    (set_timeouts t d w).trace = w.trace ∧
    (set_timeouts t d w).tcpa_state = w.tcpa_state := by
  have hne2 : bd ≠ bt := fun h => hne h.symm
  rcases t with _ | t <;> rcases d with _ | d
  · simp [set_timeouts]
  · have := hd d rfl
    simp [set_timeouts, memcpy, hpd, Function.update_noteq hne, ← this]
    refine ⟨by omega, fun b _ h2 => Function.update_noteq h2 _ _⟩
  · have := ht t rfl
    simp [set_timeouts, memcpy, hpt, Function.update_noteq hne2, ← this]
    refine ⟨by omega, fun b h1 _ => Function.update_noteq h1 _ _⟩
  · have h1 := ht t rfl
    have h2 := hd d rfl
    simp [set_timeouts, memcpy, hpt, hpd, Function.update_noteq hne, Function.update_noteq hne2,
      ← h1, ← h2]
    refine ⟨by omega, by omega, fun b h3 h4 => ?_⟩
    rw [Function.update_noteq h4, Function.update_noteq h3]

/-- C10: on a driver whose timeout and duration records are its own buffers
(two distinct blocks of low memory, of 4 and 3 words), `set_timeouts t d` makes
the timeouts equal to `t` when `t` is supplied and leaves them as they are when
it is null, and likewise and independently for the durations and `d`; nothing
else changes (driver entry, static tables, other blocks, chip, register log,
session flags); and a second call `set_timeouts t2 d2` applies in the same
way on top of the first. -/
theorem set_timeouts_applies (w : World σ) (bt bd : Nat) (t d t2 d2 : Option (List Nat))
    (hpt : w.tpm_drivers.timeouts = Ptr.low bt) (hpd : w.tpm_drivers.durations = Ptr.low bd)
    (hne : bt ≠ bd) (hlt : (w.low bt).length = 4) (hld : (w.low bd).length = 3)
    (ht : ∀ a, t = some a → a.length = 4) (hd : ∀ a, d = some a → a.length = 3)
    (ht2 : ∀ a, t2 = some a → a.length = 4) (hd2 : ∀ a, d2 = some a → a.length = 3) :
    (deref (set_timeouts t d w) (set_timeouts t d w).tpm_drivers.timeouts
        = some (t.getD (w.low bt)) ∧
      deref (set_timeouts t d w) (set_timeouts t d w).tpm_drivers.durations
        = some (d.getD (w.low bd)) ∧
      (∀ b, b ≠ bt → b ≠ bd → (set_timeouts t d w).low b = w.low b) ∧
      (set_timeouts t d w).tpm_drivers = w.tpm_drivers ∧
      (set_timeouts t d w).tis_default_timeouts = w.tis_default_timeouts ∧
      (set_timeouts t d w).tpm_default_durations = w.tpm_default_durations ∧
      (set_timeouts t d w).low_next = w.low_next ∧
      (set_timeouts t d w).zone_low = w.zone_low ∧
      (set_timeouts t d w).chip = w.chip ∧
      (set_timeouts t d w).trace = w.trace ∧
      (set_timeouts t d w).tcpa_state = w.tcpa_state) ∧
    (deref (set_timeouts t2 d2 (set_timeouts t d w))
        (set_timeouts t2 d2 (set_timeouts t d w)).tpm_drivers.timeouts
        = some (t2.getD (t.getD (w.low bt))) ∧
      deref (set_timeouts t2 d2 (set_timeouts t d w))
        (set_timeouts t2 d2 (set_timeouts t d w)).tpm_drivers.durations
        = some (d2.getD (d.getD (w.low bd))) ∧
      (set_timeouts t2 d2 (set_timeouts t d w)).tpm_drivers = w.tpm_drivers) := by
  obtain ⟨a1, a2, a3, a4, a5, a6, a7, a8, a9, a10, a11⟩ :=
    set_timeouts_low w bt bd t d hpt hpd hne hlt hld ht hd
  have hlt1 : ((set_timeouts t d w).low bt).length = 4 := by
    rw [a1]
    cases t with
    | none => exact hlt
    | some a => exact ht a rfl
  have hld1 : ((set_timeouts t d w).low bd).length = 3 := by
    rw [a2]
    cases d with
    | none => exact hld
    | some a => exact hd a rfl
  obtain ⟨b1, b2, _, b4, _⟩ :=
    set_timeouts_low (set_timeouts t d w) bt bd t2 d2 (by rw [a4, hpt]) (by rw [a4, hpd]) hne
      hlt1 hld1 ht2 hd2
  refine ⟨⟨?_, ?_, a3, a4, a5, a6, a7, a8, a9, a10, a11⟩, ?_, ?_, ?_⟩
  · rw [a4, hpt]; simp only [deref, a1]
  · rw [a4, hpd]; simp only [deref, a2]
  · rw [b4, a4, hpt]; simp only [deref, b1, a1]
  · rw [b4, a4, hpd]; simp only [deref, b2, a2]
  · rw [b4, a4]

/-- C10 on the driver as `tis_init` leaves it from boot when both allocations
succeed: new timeouts and no durations first, then new durations only. -/
theorem set_timeouts_applies_witness :
    deref (set_timeouts (some [1, 2, 3, 4]) none
        (tis_init replay (World.boot ([], []) [true, true])).2)
      (set_timeouts (some [1, 2, 3, 4]) none
        (tis_init replay (World.boot ([], []) [true, true])).2).tpm_drivers.timeouts
      = some [1, 2, 3, 4] ∧
    deref (set_timeouts (some [1, 2, 3, 4]) none
        (tis_init replay (World.boot ([], []) [true, true])).2)
      (set_timeouts (some [1, 2, 3, 4]) none
        (tis_init replay (World.boot ([], []) [true, true])).2).tpm_drivers.durations
      = some [20000, 200000, 600000] ∧
    deref (set_timeouts none (some [5, 6, 7]) (set_timeouts (some [1, 2, 3, 4]) none
        (tis_init replay (World.boot ([], []) [true, true])).2))
      (set_timeouts none (some [5, 6, 7]) (set_timeouts (some [1, 2, 3, 4]) none
        (tis_init replay (World.boot ([], []) [true, true])).2)).tpm_drivers.timeouts
      = some [1, 2, 3, 4] ∧
    deref (set_timeouts none (some [5, 6, 7]) (set_timeouts (some [1, 2, 3, 4]) none
        (tis_init replay (World.boot ([], []) [true, true])).2))
      (set_timeouts none (some [5, 6, 7]) (set_timeouts (some [1, 2, 3, 4]) none
        (tis_init replay (World.boot ([], []) [true, true])).2)).tpm_drivers.durations
      = some [5, 6, 7] :=
  have h := set_timeouts_applies (tis_init replay (World.boot ([], []) [true, true])).2 1 0
    (some [1, 2, 3, 4]) none none (some [5, 6, 7]) rfl rfl (by decide) rfl rfl
    (fun _ e => Option.some.inj e ▸ rfl) (fun _ e => nomatch e)
    (fun _ e => nomatch e) (fun _ e => Option.some.inj e ▸ rfl)
  ⟨h.1.1, h.1.2.1, h.2.1, h.2.2.1⟩

/-! ### Register addresses -/

theorem addrReg_TIS_REG (l r : Nat) (h : r < 4096) : addrReg (TIS_REG l r) = r := by
  unfold addrReg TIS_REG
  rw [Nat.shiftLeft_eq]
  omega

theorem addrLocty_TIS_REG (l r : Nat) (h : r < 4096) : addrLocty (TIS_REG l r) = l := by
  unfold addrLocty TIS_REG
  rw [Nat.shiftLeft_eq, Nat.shiftRight_eq_div_pow]
  omega

/-! ### Steps that touch neither the memory nor a DATA_FIFO register -/

theorem Quiet.refl (w : World σ) : Quiet w w := ⟨rfl, rfl⟩

theorem Quiet.trans {w x y : World σ} (h1 : Quiet w x) (h2 : Quiet x y) : Quiet w y :=
  ⟨h2.1.trans h1.1, h2.2.trans h1.2⟩

theorem quiet_readb (hw : Chip σ) (a : Nat) (w : World σ) : Quiet w (readb hw a w).2 := by
  refine ⟨rfl, ?_⟩
  simp [readb, fifoWrites, List.filterMap_append]

theorem quiet_readl (hw : Chip σ) (a : Nat) (w : World σ) : Quiet w (readl hw a w).2 := by
  refine ⟨rfl, ?_⟩
  simp [readl, fifoWrites, List.filterMap_append]

theorem quiet_msleep (hw : Chip σ) (n : Nat) (w : World σ) : Quiet w (msleep hw n w) := by
  refine ⟨rfl, ?_⟩
  simp [msleep, fifoWrites, List.filterMap_append]

theorem quiet_writeb (hw : Chip σ) (a v : Nat) (w : World σ)
    (h : addrReg a ≠ TIS_REG_DATA_FIFO) : Quiet w (writeb hw a v w) := by
  refine ⟨rfl, ?_⟩
  simp [writeb, fifoWrites, List.filterMap_append, h]

theorem quiet_writeb_access (hw : Chip σ) (l v : Nat) (w : World σ) :
    Quiet w (writeb hw (TIS_REG l TIS_REG_ACCESS) v w) :=
  quiet_writeb hw _ v w (by rw [addrReg_TIS_REG l _ (by decide)]; decide)

theorem quiet_writeb_sts (hw : Chip σ) (l v : Nat) (w : World σ) :
    Quiet w (writeb hw (TIS_REG l TIS_REG_STS) v w) :=
  quiet_writeb hw _ v w (by rw [addrReg_TIS_REG l _ (by decide)]; decide)

theorem fifoWrites_writeb_fifo (hw : Chip σ) (l v : Nat) (w : World σ) :
    fifoWrites (writeb hw (TIS_REG l TIS_REG_DATA_FIFO) v w).trace =
      fifoWrites w.trace ++ [(TIS_REG l TIS_REG_DATA_FIFO, v % 256)] := by
  simp [writeb, fifoWrites, List.filterMap_append, addrReg_TIS_REG l _ (by decide : TIS_REG_DATA_FIFO < 4096)]

theorem quiet_tis_wait_sts (hw : Chip σ) (locty time mask expect : Nat) (w : World σ) :
    Quiet w (tis_wait_sts hw locty time mask expect w).2 := by
  induction time generalizing w with
  | zero => exact Quiet.refl w
  | succ n ih =>
    rw [tis_wait_sts]
    dsimp only
    split_ifs
    · exact quiet_readb hw _ w
    · exact (quiet_readb hw _ w).trans ((quiet_msleep hw 1 _).trans (ih _))

theorem load_of_memOf {w x : World σ} (h : memOf x = memOf w) (p : Ptr) (i : Nat) :
    load x p i = load w p i := by
  simp only [memOf, Prod.mk.injEq] at h
  obtain ⟨h1, h2, h3, -⟩ := h
  cases p <;> simp [load, deref, h1, h2, h3]

theorem tpm_drivers_of_memOf {w x : World σ} (h : memOf x = memOf w) :
    x.tpm_drivers = w.tpm_drivers := by
  simp only [memOf, Prod.mk.injEq] at h
  exact h.2.2.2.2.2.1

theorem quiet_tis_activate (hw : Chip σ) (locty : Nat) (w x : World σ) (r : Nat)
    (h : tis_activate hw locty w = some (r, x)) : Quiet w x := by
  unfold tis_activate at h
  split at h
  · exact absurd h (by simp)
  · dsimp only at h
    have q1 := quiet_readb hw (TIS_REG locty TIS_REG_ACCESS) w
    obtain ⟨w2, hw2⟩ : ∃ w2, w2 = (if (readb hw (TIS_REG locty TIS_REG_ACCESS) w).1 &&&
        TIS_ACCESS_ACTIVE_LOCALITY = 0 then
          [4, 3, 2, 1, 0].foldl
            (fun x l => writeb hw (TIS_REG l TIS_REG_ACCESS) TIS_ACCESS_ACTIVE_LOCALITY x)
            (readb hw (TIS_REG locty TIS_REG_ACCESS) w).2
        else (readb hw (TIS_REG locty TIS_REG_ACCESS) w).2) := ⟨_, rfl⟩
    rw [← hw2] at h
    have q2 : Quiet w w2 := by
      rw [hw2]
      split_ifs
      · simp only [List.foldl]
        exact q1.trans ((quiet_writeb_access hw _ _ _).trans ((quiet_writeb_access hw _ _ _).trans
          ((quiet_writeb_access hw _ _ _).trans ((quiet_writeb_access hw _ _ _).trans
            (quiet_writeb_access hw _ _ _)))))
      · exact q1
    have q3 := q2.trans (quiet_writeb_access hw locty TIS_ACCESS_REQUEST_USE _)
    have q4 := q3.trans (quiet_readb hw (TIS_REG locty TIS_REG_ACCESS) _)
    split_ifs at h
    · simp only [Option.some.injEq] at h
      have hx := congrArg Prod.snd h
      simp only at hx
      rw [← hx]
      exact (q4.trans (quiet_writeb_sts hw locty TIS_STS_COMMAND_READY _)).trans
        (quiet_tis_wait_sts hw locty _ TIS_STS_COMMAND_READY TIS_STS_COMMAND_READY _)
    · simp only [Option.some.injEq, Prod.mk.injEq] at h
      rw [← h.2]
      exact q4

theorem quiet_find_active_scan (hw : Chip σ) (n locty : Nat) (w : World σ) :
    Quiet w (find_active_scan hw n locty w).2 := by
  induction n generalizing locty w with
  | zero => exact Quiet.refl w
  | succ n ih =>
    rw [find_active_scan]
    dsimp only
    split_ifs
    · exact quiet_readb hw _ w
    · exact (quiet_readb hw _ w).trans (ih _ _)

/-- A locality found by the scan is one of those it looked at. -/
theorem find_active_scan_lt (hw : Chip σ) (n locty l : Nat) (w : World σ)
    (h : (find_active_scan hw n locty w).1 = some l) : locty ≤ l ∧ l < locty + n := by
  induction n generalizing locty w with
  | zero => simp [find_active_scan] at h
  | succ n ih =>
    rw [find_active_scan] at h
    dsimp only at h
    split_ifs at h
    · simp only [Option.some.injEq] at h
      omega
    · have := ih _ _ h
      omega

/-- Resolving the active locality changes no memory, writes to no DATA_FIFO
and yields one of the localities 0 to 4. -/
theorem quiet_tis_find_active_locality (hw : Chip σ) (w x : World σ) (l : Nat)
    (h : tis_find_active_locality hw w = some (l, x)) : Quiet w x ∧ l ≤ 4 := by
  unfold tis_find_active_locality at h
  split at h
  · rename_i locty w1 heq
    simp only [Option.some.injEq, Prod.mk.injEq] at h
    have h1 := find_active_scan_lt hw 5 0 locty w (by rw [heq])
    have h2 := quiet_find_active_scan hw 5 0 w
    rw [heq] at h2
    rw [← h.1, ← h.2]
    exact ⟨h2, by omega⟩
  · rename_i w1 heq
    have h2 := quiet_find_active_scan hw 5 0 w
    rw [heq] at h2
    split at h
    · exact absurd h (by simp)
    · rename_i r w2 hact
      simp only [Option.some.injEq, Prod.mk.injEq] at h
      rw [← h.1, ← h.2]
      exact ⟨h2.trans (quiet_tis_activate hw 0 w1 w2 r hact), by omega⟩

/-! ### `tis_senddata`: the poll loop -/

theorem senddata_poll_step_zero (hw : Chip σ) (locty : Nat) (n ctr : Nat) (w : World σ)
    (h : burstOf (readl hw (TIS_REG locty TIS_REG_STS) w).1 = 0) :
    senddata_poll hw locty (n + 1) ctr w =
      senddata_poll hw locty n (ctr + 1)
        (msleep hw 1 (readl hw (TIS_REG locty TIS_REG_STS) w).2) := by
  rw [senddata_poll]
  dsimp only
  rw [if_pos (show (readl hw (TIS_REG locty TIS_REG_STS) w).1 >>> 8 % 65536 = 0 from h)]

theorem senddata_poll_step_nonzero (hw : Chip σ) (locty : Nat) (n ctr : Nat) (w : World σ)
    (h : burstOf (readl hw (TIS_REG locty TIS_REG_STS) w).1 ≠ 0) :
    senddata_poll hw locty (n + 1) ctr w =
      (burstOf (readl hw (TIS_REG locty TIS_REG_STS) w).1, ctr,
        (readl hw (TIS_REG locty TIS_REG_STS) w).2) := by
  rw [senddata_poll]
  dsimp only
  rw [if_neg (show ¬ (readl hw (TIS_REG locty TIS_REG_STS) w).1 >>> 8 % 65536 = 0 from h)]
  rfl

/-- Polls that all see a burst count of 0 use up the whole budget. -/
theorem senddata_poll_all_zero (hw : Chip σ) (locty : Nat) (n ctr : Nat) (w : World σ)
    (h : pollsZero hw locty n w.chip = true) :
    ∃ x, senddata_poll hw locty n ctr w = (0, ctr + n, x) ∧
      x.trace = w.trace ++ zeroPollEvents hw locty n w.chip ∧ Quiet w x := by
  induction n generalizing ctr w with
  | zero => exact ⟨w, rfl, by simp [zeroPollEvents], Quiet.refl w⟩
  | succ n ih =>
    simp only [pollsZero, Bool.and_eq_true, decide_eq_true_eq] at h
    have hz : burstOf (readl hw (TIS_REG locty TIS_REG_STS) w).1 = 0 := h.1
    obtain ⟨x, h1, h2, h3⟩ :=
      ih (ctr + 1) (msleep hw 1 (readl hw (TIS_REG locty TIS_REG_STS) w).2) h.2
    refine ⟨x, ?_, ?_, ?_⟩
    · rw [senddata_poll_step_zero hw locty n ctr w hz, h1]
      congr 2
      omega
    · rw [h2]
      simp [msleep, readl, zeroPollEvents]
    · exact (quiet_readl hw _ w).trans ((quiet_msleep hw 1 _).trans h3)

/-- C2: if the chip answers every one of the timeout-D polls of the burst count
with 0, `tis_senddata` returns TCG_RESPONSE_TIMEOUT, which is 0x0C and differs
from 0 and from TCG_NO_RESPONSE; what it adds to the log after resolving the
locality is those polls and their sleeps, and the log holds no more write to a
DATA_FIFO register than before the call. This holds for every payload, the
empty one included, and every timeout-D value. -/
theorem tis_senddata_timeout (hw : Chip σ) (w w1 : World σ) (data : Nat → Nat)
    (len locty timeout_d : Nat)
    (hfind : tis_find_active_locality hw w = some (locty, w1))
    (hD : load w w.tpm_drivers.timeouts TIS_TIMEOUT_TYPE_D = some timeout_d)
    (hzero : pollsZero hw locty timeout_d w1.chip = true) :
    ∃ x, tis_senddata hw data len w = some (TCG_RESPONSE_TIMEOUT, x) ∧
      TCG_RESPONSE_TIMEOUT = 0x0C ∧ TCG_RESPONSE_TIMEOUT ≠ 0 ∧
      TCG_RESPONSE_TIMEOUT ≠ TCG_NO_RESPONSE ∧
      x.trace = w1.trace ++ zeroPollEvents hw locty timeout_d w1.chip ∧
      fifoWrites x.trace = fifoWrites w.trace := by
  obtain ⟨q, -⟩ := quiet_tis_find_active_locality hw w w1 locty hfind
  have hD1 : load w1 w1.tpm_drivers.timeouts TIS_TIMEOUT_TYPE_D = some timeout_d := by
    rw [tpm_drivers_of_memOf q.1, load_of_memOf q.1, hD]
  obtain ⟨x, h1, h2, h3⟩ := senddata_poll_all_zero hw locty timeout_d 0 w1 hzero
  refine ⟨x, ?_, by decide, by decide, by decide, h2, (q.trans h3).2⟩
  unfold tis_senddata
  simp only [hfind, hD1]
  rw [show (2 : Nat) ^ 32 = 4294967295 + 1 from rfl, senddata_loop]
  simp [h1]

/-! ### `tis_senddata`: the write loop -/

theorem chunkEvents_zero (locty : Nat) (data : Nat → Nat) (offset : Nat) :
    chunkEvents locty data offset 0 = [] := rfl

theorem chunkEvents_succ (locty : Nat) (data : Nat → Nat) (offset k : Nat) :
    chunkEvents locty data offset (k + 1) =
      Event.writeb (TIS_REG locty TIS_REG_DATA_FIFO) (data offset % 256) ::
        chunkEvents locty data (offset + 1) k := by
  unfold chunkEvents
  rw [List.range_succ_eq_map]
  simp only [List.map_cons, List.map_map, Nat.add_zero]
  congr 1
  apply List.map_congr_left
  intro i _
  simp only [Function.comp_apply]
  congr 3
  omega

/-- One run of the write loop: entered with a burst count of at least 1 and at
least one byte to go, it writes `min burst (len - offset)` bytes. -/
theorem senddata_burst_spec (hw : Chip σ) (locty : Nat) (data : Nat → Nat) (len : Nat)
    (hlen : len < 2 ^ 32) (b offset : Nat) (w : World σ) (hb : 1 ≤ b) (ho : offset < len) :
    ∃ x, senddata_burst hw locty data len b offset w =
        (b - min b (len - offset), offset + min b (len - offset), x) ∧
      x.chip = feed hw locty data (min b (len - offset)) offset w.chip ∧
      x.trace = w.trace ++ chunkEvents locty data offset (min b (len - offset)) ∧
      memOf x = memOf w := by
  induction b generalizing offset w with
  | zero => omega
  | succ b ih =>
    have hmod : (offset + 1) % 2 ^ 32 = offset + 1 := Nat.mod_eq_of_lt (by omega)
    rw [senddata_burst]
    rw [hmod]
    by_cases hc : b = 0 ∨ offset + 1 = len
    · rw [if_pos hc]
      have hk : min (b + 1) (len - offset) = 1 := by omega
      rw [hk]
      refine ⟨_, rfl, ?_, ?_, rfl⟩
      · simp [feed, writeb]
      · simp [chunkEvents_succ, chunkEvents_zero, writeb]
    · rw [if_neg hc]
      have hb1 : 1 ≤ b := by omega
      have ho1 : offset + 1 < len := by omega
      obtain ⟨x, h1, h2, h3, h4⟩ :=
        ih (offset + 1) (writeb hw (TIS_REG locty TIS_REG_DATA_FIFO) (data offset) w) hb1 ho1
      have hk : min (b + 1) (len - offset) = min b (len - (offset + 1)) + 1 := by omega
      refine ⟨x, ?_, ?_, ?_, ?_⟩
      · rw [h1, hk]
        congr 1
        · omega
        · congr 1
          omega
      · rw [h2, hk]
        simp [feed, writeb]
      · rw [h3, hk, chunkEvents_succ]
        simp [writeb]
      · rw [h4]
        rfl

/-! ### What the primitives add to the log -/

theorem readb_trace (hw : Chip σ) (a : Nat) (w : World σ) :
    (readb hw a w).2.trace = w.trace ++ [Event.readb a (readb hw a w).1] := rfl

theorem readl_trace (hw : Chip σ) (a : Nat) (w : World σ) :
    (readl hw a w).2.trace = w.trace ++ [Event.readl a (readl hw a w).1] := rfl

theorem writeb_trace (hw : Chip σ) (a v : Nat) (w : World σ) :
    (writeb hw a v w).trace = w.trace ++ [Event.writeb a (v % 256)] := rfl

theorem msleep_trace (hw : Chip σ) (n : Nat) (w : World σ) :
    (msleep hw n w).trace = w.trace ++ [Event.msleep n] := rfl

/-! ### `tis_senddata`: the outer loop -/

/-- A round that begins with a poll answered by a zero burst count goes on as
the same round with one more tick on the counter. -/
theorem senddata_loop_step_zero (hw : Chip σ) (locty : Nat) (data : Nat → Nat)
    (len timeout_d fuel offset ctr : Nat) (w : World σ) (hc : ctr < timeout_d)
    (h : burstOf (readl hw (TIS_REG locty TIS_REG_STS) w).1 = 0) :
    senddata_loop hw locty data len timeout_d (fuel + 1) 0 offset ctr w =
      senddata_loop hw locty data len timeout_d (fuel + 1) 0 offset (ctr + 1)
        (msleep hw 1 (readl hw (TIS_REG locty TIS_REG_STS) w).2) := by
  obtain ⟨m, hm⟩ : ∃ m, timeout_d - ctr = m + 1 := ⟨timeout_d - ctr - 1, by omega⟩
  have hm1 : timeout_d - (ctr + 1) = m := by omega
  rw [senddata_loop, senddata_loop]
  simp only [if_true]
  rw [hm, hm1, senddata_poll_step_zero hw locty m ctr w h]

/-- A round that begins with a poll answered by a non-zero burst count writes
a chunk and either ends the send or starts the next round. -/
theorem senddata_loop_step_nonzero (hw : Chip σ) (locty : Nat) (data : Nat → Nat)
    (len timeout_d fuel offset ctr : Nat) (w : World σ) (hc : ctr < timeout_d)
    (h : burstOf (readl hw (TIS_REG locty TIS_REG_STS) w).1 ≠ 0) :
    senddata_loop hw locty data len timeout_d (fuel + 1) 0 offset ctr w =
      if (senddata_burst hw locty data len (burstOf (readl hw (TIS_REG locty TIS_REG_STS) w).1)
          offset (readl hw (TIS_REG locty TIS_REG_STS) w).2).2.1 = len then
        some (0, (senddata_burst hw locty data len
          (burstOf (readl hw (TIS_REG locty TIS_REG_STS) w).1)
          offset (readl hw (TIS_REG locty TIS_REG_STS) w).2).2.2)
      else
        senddata_loop hw locty data len timeout_d fuel
          (senddata_burst hw locty data len (burstOf (readl hw (TIS_REG locty TIS_REG_STS) w).1)
            offset (readl hw (TIS_REG locty TIS_REG_STS) w).2).1
          (senddata_burst hw locty data len (burstOf (readl hw (TIS_REG locty TIS_REG_STS) w).1)
            offset (readl hw (TIS_REG locty TIS_REG_STS) w).2).2.1
          ctr
          (senddata_burst hw locty data len (burstOf (readl hw (TIS_REG locty TIS_REG_STS) w).1)
            offset (readl hw (TIS_REG locty TIS_REG_STS) w).2).2.2 := by
  obtain ⟨m, hm⟩ : ∃ m, timeout_d - ctr = m + 1 := ⟨timeout_d - ctr - 1, by omega⟩
  rw [senddata_loop]
  simp only [if_true]
  rw [hm, senddata_poll_step_nonzero hw locty m ctr w h]
  simp only [h, if_false]

/-- The send against a chip that offers room for the whole payload before the
poll budget is used up. -/
theorem senddata_loop_offers (hw : Chip σ) (locty : Nat) (data : Nat → Nat)
    (len timeout_d : Nat) (hlen : len < 2 ^ 32) (vs : List Nat) :
    ∀ (offset ctr fuel : Nat) (w : World σ), offset < len →
      offers hw locty data len vs offset w.chip = true →
      vs.countP (fun v => decide (burstOf v = 0)) + ctr < timeout_d →
      len - offset ≤ fuel →
      ∃ x, senddata_loop hw locty data len timeout_d fuel 0 offset ctr w = some (0, x) ∧
        x.trace = w.trace ++ sendEvents locty data len vs offset ∧ memOf x = memOf w := by
  induction vs with
  | nil =>
    intro offset ctr fuel w ho hoff _ _
    simp only [offers, decide_eq_true_eq] at hoff
    omega
  | cons v vs ih =>
    intro offset ctr fuel w ho hoff hz hf
    obtain ⟨f, rfl⟩ : ∃ f, fuel = f + 1 := ⟨fuel - 1, by omega⟩
    simp only [offers, Bool.and_eq_true, decide_eq_true_eq] at hoff
    obtain ⟨⟨hv, -⟩, hrest⟩ := hoff
    have hv1 : (readl hw (TIS_REG locty TIS_REG_STS) w).1 = v := hv
    by_cases hb : burstOf v = 0
    · rw [if_pos hb] at hrest
      have hcnt : (v :: vs).countP (fun v => decide (burstOf v = 0)) =
          vs.countP (fun v => decide (burstOf v = 0)) + 1 := by
        rw [List.countP_cons_of_pos]
        simpa using hb
      rw [hcnt] at hz
      rw [senddata_loop_step_zero hw locty data len timeout_d f offset ctr w (by omega)
        (by rw [hv1]; exact hb)]
      obtain ⟨x, h1, h2, h3⟩ := ih offset (ctr + 1) (f + 1)
        (msleep hw 1 (readl hw (TIS_REG locty TIS_REG_STS) w).2) ho hrest (by omega) hf
      refine ⟨x, h1, ?_, h3⟩
      rw [h2, msleep_trace, readl_trace, hv1]
      simp [sendEvents, hb]
    · rw [if_neg hb] at hrest
      have hcnt : (v :: vs).countP (fun v => decide (burstOf v = 0)) =
          vs.countP (fun v => decide (burstOf v = 0)) := by
        rw [List.countP_cons_of_neg]
        simpa using hb
      rw [hcnt] at hz
      rw [senddata_loop_step_nonzero hw locty data len timeout_d f offset ctr w (by omega)
        (by rw [hv1]; exact hb), hv1]
      obtain ⟨y, e1, e2, e3, e4⟩ := senddata_burst_spec hw locty data len hlen (burstOf v) offset
        (readl hw (TIS_REG locty TIS_REG_STS) w).2 (by omega) ho
      have e2a : y.chip = feed hw locty data (min (burstOf v) (len - offset)) offset
          (hw.readl w.chip (TIS_REG locty TIS_REG_STS)).2 := e2
      have e3a : y.trace = w.trace ++ Event.readl (TIS_REG locty TIS_REG_STS) v ::
          chunkEvents locty data offset (min (burstOf v) (len - offset)) := by
        rw [e3, readl_trace, hv1]
        simp
      rw [e1]
      dsimp only
      by_cases hend : offset + min (burstOf v) (len - offset) = len
      · rw [if_pos hend]
        rw [hend] at hrest
        have hnil : vs = [] := by
          cases vs with
          | nil => rfl
          | cons a t =>
            simp only [offers, Bool.and_eq_true, decide_eq_true_eq] at hrest
            omega
        refine ⟨y, rfl, ?_, e4⟩
        rw [e3a, hnil]
        simp [sendEvents, hb]
      · rw [if_neg hend]
        have hk : min (burstOf v) (len - offset) = burstOf v := by omega
        have hzero : burstOf v - min (burstOf v) (len - offset) = 0 := by omega
        rw [hzero]
        rw [← e2a] at hrest
        obtain ⟨x, h1, h2, h3⟩ := ih (offset + min (burstOf v) (len - offset)) ctr f y
          (by omega) hrest hz (by omega)
        refine ⟨x, h1, ?_, h3.trans e4⟩
        rw [h2, e3a]
        simp [sendEvents, hb]

theorem fifoWrites_append (a b : List Event) :
    fifoWrites (a ++ b) = fifoWrites a ++ fifoWrites b := by
  simp [fifoWrites, List.filterMap_append]

theorem fifoWrites_chunkEvents (locty : Nat) (data : Nat → Nat) (offset k : Nat) :
    fifoWrites (chunkEvents locty data offset k) =
      (List.range k).map fun i => (TIS_REG locty TIS_REG_DATA_FIFO, data (offset + i) % 256) := by
  induction k generalizing offset with
  | zero => rfl
  | succ k ih =>
    rw [chunkEvents_succ, List.range_succ_eq_map]
    have hreg : addrReg (TIS_REG locty TIS_REG_DATA_FIFO) = TIS_REG_DATA_FIFO :=
      addrReg_TIS_REG locty _ (by decide)
    have e : fifoWrites (Event.writeb (TIS_REG locty TIS_REG_DATA_FIFO) (data offset % 256) ::
        chunkEvents locty data (offset + 1) k) =
          (TIS_REG locty TIS_REG_DATA_FIFO, data offset % 256) ::
            fifoWrites (chunkEvents locty data (offset + 1) k) := by
      simp [fifoWrites, hreg]
    rw [e, ih]
    simp only [List.map_cons, List.map_map, Nat.add_zero]
    refine congrArg (List.cons _) ?_
    apply List.map_congr_left
    intro i _
    simp only [Function.comp_apply]
    rw [show offset + 1 + i = offset + (i + 1) by omega]

/-- The writes to DATA_FIFO in the log of a send that the chip gave room for
are the rest of the payload, in order. -/
theorem fifoWrites_sendEvents (hw : Chip σ) (locty : Nat) (data : Nat → Nat) (len : Nat)
    (vs : List Nat) :
    ∀ (offset : Nat) (c : σ), offers hw locty data len vs offset c = true →
      fifoWrites (sendEvents locty data len vs offset) =
        (List.range (len - offset)).map fun i =>
          (TIS_REG locty TIS_REG_DATA_FIFO, data (offset + i) % 256) := by
  induction vs with
  | nil =>
    intro offset c h
    simp only [offers, decide_eq_true_eq] at h
    simp [sendEvents, fifoWrites, h]
  | cons v vs ih =>
    intro offset c h
    simp only [offers, Bool.and_eq_true, decide_eq_true_eq] at h
    obtain ⟨⟨-, ho⟩, hrest⟩ := h
    by_cases hb : burstOf v = 0
    · rw [if_pos hb] at hrest
      have e : fifoWrites (sendEvents locty data len (v :: vs) offset) =
          fifoWrites (sendEvents locty data len vs offset) := by
        simp [sendEvents, hb, fifoWrites]
      rw [e, ih offset _ hrest]
    · rw [if_neg hb] at hrest
      have e : fifoWrites (sendEvents locty data len (v :: vs) offset) =
          fifoWrites (chunkEvents locty data offset (min (burstOf v) (len - offset))) ++
            fifoWrites (sendEvents locty data len vs
              (offset + min (burstOf v) (len - offset))) := by
        rw [← fifoWrites_append]
        simp [sendEvents, hb, fifoWrites]
      rw [e, ih _ _ hrest, fifoWrites_chunkEvents]
      have hsplit : len - offset = min (burstOf v) (len - offset) +
          (len - (offset + min (burstOf v) (len - offset))) := by omega
      conv_rhs => rw [hsplit, List.range_add, List.map_append, List.map_map]
      refine congrArg (List.append _) ?_
      apply List.map_congr_left
      intro i _
      simp only [Function.comp_apply]
      rw [Nat.add_assoc]

/-- C1: for a payload of `n` bytes, `1 ≤ n`, and a chip that answers the
successive burst-count reads of the send with the values `vs`, giving room for
the whole payload while fewer than timeout-D of those reads show a burst count
of 0, `tis_senddata` returns 0. What it adds to the log after resolving the
locality is, for each read of STS, a sleep if the burst count is 0 and else a
chunk of `min burst remaining` writes to DATA_FIFO of the active locality; the
writes to DATA_FIFO are the `n` payload bytes in payload order. -/
theorem tis_senddata_chunks (hw : Chip σ) (w w1 : World σ) (data : Nat → Nat)
    (n locty timeout_d : Nat) (vs : List Nat) (hn : 1 ≤ n) (hn32 : n < 2 ^ 32)
    (hfind : tis_find_active_locality hw w = some (locty, w1))
    (hD : load w w.tpm_drivers.timeouts TIS_TIMEOUT_TYPE_D = some timeout_d)
    (hoff : offers hw locty data n vs 0 w1.chip = true)
    (hz : vs.countP (fun v => decide (burstOf v = 0)) < timeout_d) :
    ∃ x, tis_senddata hw data n w = some (0, x) ∧
      x.trace = w1.trace ++ sendEvents locty data n vs 0 ∧
      fifoWrites x.trace = fifoWrites w.trace ++
        (List.range n).map fun i => (TIS_REG locty TIS_REG_DATA_FIFO, data i % 256) := by
  obtain ⟨q, -⟩ := quiet_tis_find_active_locality hw w w1 locty hfind
  have hD1 : load w1 w1.tpm_drivers.timeouts TIS_TIMEOUT_TYPE_D = some timeout_d := by
    rw [tpm_drivers_of_memOf q.1, load_of_memOf q.1, hD]
  obtain ⟨x, h1, h2, -⟩ := senddata_loop_offers hw locty data n timeout_d hn32 vs 0 0 (2 ^ 32) w1
    (by omega) hoff (by omega) (by omega)
  refine ⟨x, ?_, h2, ?_⟩
  · unfold tis_senddata
    simp only [hfind, hD1]
    exact h1
  · rw [h2, fifoWrites_append, q.2, fifoWrites_sendEvents hw locty data n vs 0 w1.chip hoff]
    simp

/-- C1 at a chip whose locality 0 is active and whose burst counts read 4, 4
and 2, with a payload of 10 bytes: three chunks of 4, 4 and 2 writes. -/
theorem tis_senddata_chunks_witness :
    ∃ x, tis_senddata replay samplePayload 10
        (readyWorld ([0xA0], [0x400, 0x400, 0x200]) [2, 2, 2, 2]) = some (0, x) ∧
      writeBursts 0 x.trace 0 = [4, 4, 2] ∧
      fifoWrites x.trace =
        (List.range 10).map fun i => (TIS_REG 0 TIS_REG_DATA_FIFO, samplePayload i) := by
  obtain ⟨x, h1, h2, h3⟩ := tis_senddata_chunks replay
    (readyWorld ([0xA0], [0x400, 0x400, 0x200]) [2, 2, 2, 2])
    (readb replay (TIS_REG 0 TIS_REG_ACCESS)
      (readyWorld ([0xA0], [0x400, 0x400, 0x200]) [2, 2, 2, 2])).2
    samplePayload 10 0 2 [0x400, 0x400, 0x200] (by decide) (by decide) rfl rfl rfl (by decide)
  refine ⟨x, h1, ?_, ?_⟩
  · rw [h2]
    decide
  · rw [h3]
    decide

/-- C2 at a chip whose locality 0 is active and whose burst count reads 0 at
each of the 2 polls that timeout D allows. -/
theorem tis_senddata_timeout_witness :
    ∃ x, tis_senddata replay samplePayload 10 (readyWorld ([0xA0], [0x80, 0x80]) [2, 2, 2, 2])
        = some (TCG_RESPONSE_TIMEOUT, x) ∧
      fifoWrites x.trace = [] := by
  obtain ⟨x, h1, -, -, -, -, h3⟩ := tis_senddata_timeout replay
    (readyWorld ([0xA0], [0x80, 0x80]) [2, 2, 2, 2])
    (readb replay (TIS_REG 0 TIS_REG_ACCESS) (readyWorld ([0xA0], [0x80, 0x80]) [2, 2, 2, 2])).2
    samplePayload 10 0 2 rfl rfl rfl
  exact ⟨x, h1, h3.trans (by decide)⟩

/-! ### `tis_readresp` -/

theorem respByte_succ (hw : Chip σ) (locty : Nat) (c : σ) (i : Nat) :
    respByte hw locty c (i + 1) = respByte hw locty (respRound hw locty c) i := rfl

theorem respSts_succ (hw : Chip σ) (locty : Nat) (c : σ) (i : Nat) :
    respSts hw locty c (i + 1) = respSts hw locty (respRound hw locty c) i := rfl

theorem respEvents_succ (hw : Chip σ) (locty : Nat) (c : σ) (n : Nat) :
    respEvents hw locty c (n + 1) =
      Event.readb (TIS_REG locty TIS_REG_DATA_FIFO) (respByte hw locty c 0) ::
        Event.readb (TIS_REG locty TIS_REG_STS) (respSts hw locty c 0) ::
          respEvents hw locty (respRound hw locty c) n := by
  unfold respEvents
  rw [List.range_succ_eq_map]
  simp [List.flatMap_map, respByte_succ, respSts_succ, Function.comp_def]

/-- The receive loop with room for `n` more bytes, against a chip that clears
data-available after byte `k` of what is left and not before. -/
theorem readresp_loop_spec (hw : Chip σ) (locty : Nat) (n : Nat) :
    ∀ (k offset : Nat) (buffer : Nat → Nat) (w : World σ), 1 ≤ k →
      (∀ i, i + 1 < k → i + 1 < n →
        respSts hw locty w.chip i &&& TIS_STS_DATA_AVAILABLE ≠ 0) →
      (k ≤ n → respSts hw locty w.chip (k - 1) &&& TIS_STS_DATA_AVAILABLE = 0) →
      ∃ buffer1 x, readresp_loop hw locty n offset buffer w = (offset + min k n, buffer1, x) ∧
        (∀ j, buffer1 j =
          if offset ≤ j ∧ j < offset + min k n then respByte hw locty w.chip (j - offset)
          else buffer j) ∧
        x.trace = w.trace ++ respEvents hw locty w.chip (min k n) ∧ Quiet w x := by
  induction n with
  | zero =>
    intro k offset buffer w _ _ _
    refine ⟨buffer, w, ?_, fun j => ?_, by simp [respEvents], Quiet.refl w⟩
    · rw [readresp_loop, Nat.min_zero, Nat.add_zero]
    · rw [if_neg (by omega)]
  | succ n ih =>
    intro k offset buffer w hk hset hclr
    have hb : (readb hw (TIS_REG locty TIS_REG_DATA_FIFO) w).1 = respByte hw locty w.chip 0 := rfl
    have hs : (readb hw (TIS_REG locty TIS_REG_STS)
        (readb hw (TIS_REG locty TIS_REG_DATA_FIFO) w).2).1 = respSts hw locty w.chip 0 := rfl
    have hc : (readb hw (TIS_REG locty TIS_REG_STS)
        (readb hw (TIS_REG locty TIS_REG_DATA_FIFO) w).2).2.chip = respRound hw locty w.chip := rfl
    have hq : Quiet w (readb hw (TIS_REG locty TIS_REG_STS)
        (readb hw (TIS_REG locty TIS_REG_DATA_FIFO) w).2).2 :=
      (quiet_readb hw _ w).trans (quiet_readb hw _ _)
    have ht : (readb hw (TIS_REG locty TIS_REG_STS)
        (readb hw (TIS_REG locty TIS_REG_DATA_FIFO) w).2).2.trace = w.trace ++
          [Event.readb (TIS_REG locty TIS_REG_DATA_FIFO) (respByte hw locty w.chip 0),
            Event.readb (TIS_REG locty TIS_REG_STS) (respSts hw locty w.chip 0)] := by
      rw [readb_trace, readb_trace, hb, hs]
      simp
    rw [readresp_loop]
    dsimp only
    rw [hb, hs]
    by_cases hda : respSts hw locty w.chip 0 &&& TIS_STS_DATA_AVAILABLE = 0
    · rw [if_pos hda]
      have hmin : min k (n + 1) = 1 := by
        by_contra hne
        exact hset 0 (by omega) (by omega) hda
      rw [hmin]
      refine ⟨_, _, rfl, fun j => ?_, ?_, hq⟩
      · by_cases hj : j = offset
        · subst hj
          simp
        · rw [Function.update_noteq hj, if_neg (by omega)]
      · rw [ht]
        rfl
    · rw [if_neg hda]
      have hk2 : 2 ≤ k := by
        by_contra hne
        have hk1 : k = 1 := by omega
        exact hda (by simpa [hk1] using hclr (by omega))
      obtain ⟨buffer1, x, h1, h2, h3, h4⟩ := ih (k - 1) (offset + 1)
        (Function.update buffer offset (respByte hw locty w.chip 0))
        (readb hw (TIS_REG locty TIS_REG_STS)
          (readb hw (TIS_REG locty TIS_REG_DATA_FIFO) w).2).2 (by omega)
        (fun i hi1 hi2 => by
          rw [hc, ← respSts_succ]
          exact hset (i + 1) (by omega) (by omega))
        (fun hle => by
          rw [hc, ← respSts_succ]
          have := hclr (by omega)
          rwa [show k - 1 - 1 + 1 = k - 1 by omega])
      have hmin : min k (n + 1) = min (k - 1) n + 1 := by omega
      refine ⟨buffer1, x, ?_, fun j => ?_, ?_, hq.trans h4⟩
      · rw [h1, hmin]
        congr 1
        omega
      · rw [h2 j, hc, hmin]
        by_cases hj : j = offset
        · subst hj
          rw [if_neg (by omega), if_pos (by omega)]
          simp
        · rw [Function.update_noteq hj]
          by_cases hr : offset + 1 ≤ j ∧ j < offset + 1 + min (k - 1) n
          · rw [if_pos hr, if_pos (by omega), ← respByte_succ]
            congr 1
            omega
          · rw [if_neg hr, if_neg (by omega)]
      · rw [h3, ht, hc, hmin, respEvents_succ]
        simp

/-- C3: let `k ≥ 1` be the first byte after which the chip shows
data-available clear: the STS reads after bytes 1 to `k - 1` have the bit set
and the one after byte `k` has it clear (only the reads a receive of at most
`max_len` bytes gets to make are constrained). Then `tis_readresp` returns
code 0 and length `min k max_len`, which is 0 when `max_len` is 0; the first
`min k max_len` bytes of the buffer are the bytes read from DATA_FIFO in order
and every later byte of the buffer is unchanged; what is added to the log
after resolving the locality is `min k max_len` rounds of reading DATA_FIFO
and then STS. -/
theorem tis_readresp_length (hw : Chip σ) (w w1 : World σ) (buffer : Nat → Nat)
    (max_len locty k : Nat)
    (hfind : tis_find_active_locality hw w = some (locty, w1)) (hk : 1 ≤ k)
    (hset : ∀ i, i + 1 < k → i + 1 < max_len →
      respSts hw locty w1.chip i &&& TIS_STS_DATA_AVAILABLE ≠ 0)
    (hclr : k ≤ max_len → respSts hw locty w1.chip (k - 1) &&& TIS_STS_DATA_AVAILABLE = 0) :
    ∃ buffer1 x, tis_readresp hw buffer max_len w = some (0, buffer1, min k max_len, x) ∧
      (∀ j, j < min k max_len → buffer1 j = respByte hw locty w1.chip j) ∧
      (∀ j, min k max_len ≤ j → buffer1 j = buffer j) ∧
      x.trace = w1.trace ++ respEvents hw locty w1.chip (min k max_len) := by
  obtain ⟨buffer1, x, h1, h2, h3, -⟩ :=
    readresp_loop_spec hw locty max_len k 0 buffer w1 hk hset hclr
  refine ⟨buffer1, x, ?_, fun j hj => ?_, fun j hj => ?_, h3⟩
  · unfold tis_readresp
    simp only [hfind, h1, Nat.zero_add]
  · rw [h2 j, if_pos (by omega), Nat.sub_zero]
  · rw [h2 j, if_neg (by omega)]

/-- C3 at a chip whose locality 0 is active and which delivers the five bytes
0x11 to 0x55, clearing data-available after the fifth, with room for 20 bytes
in a buffer filled with 0xEE. -/
theorem tis_readresp_length_witness :
    ∃ buffer1 x, tis_readresp replay (fun _ => 0xEE) 20
        (readyWorld ([0xA0, 0x11, 0x90, 0x22, 0x90, 0x33, 0x90, 0x44, 0x90, 0x55, 0x80], [])
          [2, 2, 2, 2]) = some (0, buffer1, 5, x) ∧
      (List.range 8).map buffer1 = [0x11, 0x22, 0x33, 0x44, 0x55, 0xEE, 0xEE, 0xEE] := by
  obtain ⟨buffer1, x, h1, h2, h3, -⟩ := tis_readresp_length replay
    (readyWorld ([0xA0, 0x11, 0x90, 0x22, 0x90, 0x33, 0x90, 0x44, 0x90, 0x55, 0x80], [])
      [2, 2, 2, 2])
    (readb replay (TIS_REG 0 TIS_REG_ACCESS)
      (readyWorld ([0xA0, 0x11, 0x90, 0x22, 0x90, 0x33, 0x90, 0x44, 0x90, 0x55, 0x80], [])
        [2, 2, 2, 2])).2
    (fun _ => 0xEE) 20 0 5 rfl (by decide)
    (fun i hi _ => by
      have h4 : i < 4 := by omega
      interval_cases i <;> decide)
    (fun _ => by decide)
  refine ⟨buffer1, x, h1, ?_⟩
  have e0 := h2 0 (by decide)
  have e1 := h2 1 (by decide)
  have e2 := h2 2 (by decide)
  have e3 := h2 3 (by decide)
  have e4 := h2 4 (by decide)
  have e5 := h3 5 (by decide)
  have e6 := h3 6 (by decide)
  have e7 := h3 7 (by decide)
  simp only [List.range, List.range.loop, List.map, e0, e1, e2, e3, e4, e5, e6, e7]
  decide

/-! ### The chip behind the primitives -/

theorem readb_chip (hw : Chip σ) (a : Nat) (w : World σ) :
    (readb hw a w).2.chip = (hw.readb w.chip a).2 := rfl

theorem readb_fst (hw : Chip σ) (a : Nat) (w : World σ) :
    (readb hw a w).1 = (hw.readb w.chip a).1 % 256 := rfl

theorem writeb_chip (hw : Chip σ) (a v : Nat) (w : World σ) :
    (writeb hw a v w).chip = hw.writeb w.chip a (v % 256) := rfl

theorem msleep_chip (hw : Chip σ) (n : Nat) (w : World σ) :
    (msleep hw n w).chip = hw.msleep w.chip n := rfl

/-! ### Activation on a chip that honours the protocol -/

theorem tis_activate_some (hw : Chip σ) (l ta : Nat) (w : World σ)
    (hA : load w w.tpm_drivers.timeouts TIS_TIMEOUT_TYPE_A = some ta) :
    ∃ rc x, tis_activate hw l w = some (rc, x) := by
  unfold tis_activate
  rw [hA]
  dsimp only
  split_ifs <;> exact ⟨_, _, rfl⟩

theorem owner_tis_wait_sts (hw : Chip σ) (owner : σ → Option Nat)
    (hp : HonorsProtocol hw owner) (l m e t : Nat) (w : World σ) :
    owner (tis_wait_sts hw l t m e w).2.chip = owner w.chip := by
  induction t generalizing w with
  | zero => rfl
  | succ n ih =>
    rw [tis_wait_sts]
    dsimp only
    split_ifs
    · rw [readb_chip, hp.readb_owner]
    · rw [ih, msleep_chip, hp.msleep_owner, readb_chip, hp.readb_owner]

/-- The releases from 4 down to 0 leave the chip free. -/
theorem owner_released (hw : Chip σ) (owner : σ → Option Nat)
    (hp : HonorsProtocol hw owner) (c : σ) :
    owner (hw.writeb (hw.writeb (hw.writeb (hw.writeb (hw.writeb c
      (TIS_REG 4 TIS_REG_ACCESS) TIS_ACCESS_ACTIVE_LOCALITY)
      (TIS_REG 3 TIS_REG_ACCESS) TIS_ACCESS_ACTIVE_LOCALITY)
      (TIS_REG 2 TIS_REG_ACCESS) TIS_ACCESS_ACTIVE_LOCALITY)
      (TIS_REG 1 TIS_REG_ACCESS) TIS_ACCESS_ACTIVE_LOCALITY)
      (TIS_REG 0 TIS_REG_ACCESS) TIS_ACCESS_ACTIVE_LOCALITY) = none := by
  rw [hp.release _ 0 (by decide), hp.release _ 1 (by decide), hp.release _ 2 (by decide),
    hp.release _ 3 (by decide), hp.release _ 4 (by decide)]
  rcases ho : owner c with _ | a
  · simp
  · have := hp.owner_le c a ho
    interval_cases a <;> simp

/-- On a chip that honours the protocol, `tis_activate` of one of the
localities 0 to 4 leaves that locality the owner, whatever the state before. -/
theorem owner_tis_activate (hw : Chip σ) (owner : σ → Option Nat)
    (hp : HonorsProtocol hw owner) (l : Nat) (hl : l ≤ 4) (w x : World σ) (rc : Nat)
    (h : tis_activate hw l w = some (rc, x)) : owner x.chip = some l := by
  have e1 : TIS_ACCESS_ACTIVE_LOCALITY % 256 = TIS_ACCESS_ACTIVE_LOCALITY := by decide
  have e2 : TIS_ACCESS_REQUEST_USE % 256 = TIS_ACCESS_REQUEST_USE := by decide
  unfold tis_activate at h
  split at h
  · exact absurd h (by simp)
  · dsimp only at h
    split_ifs at h with hP hG
    · obtain rfl : _ = x := (Prod.mk.inj (Option.some.inj h)).2
      simp only [owner_tis_wait_sts hw owner hp, writeb_chip, readb_chip, List.foldl,
        hp.sts_write _ _ _ hl, hp.readb_owner, e1, e2, hp.request _ _ hl,
        owner_released hw owner hp, if_true]
    · obtain rfl : _ = x := (Prod.mk.inj (Option.some.inj h)).2
      simp only [writeb_chip, readb_chip, List.foldl, hp.readb_owner, e1, e2,
        hp.request _ _ hl, owner_released hw owner hp, if_true]
    · obtain rfl : _ = x := (Prod.mk.inj (Option.some.inj h)).2
      have ho : owner w.chip = some l := by
        rw [readb_fst] at hP
        exact (hp.access_read w.chip l hl).mp hP
      simp only [owner_tis_wait_sts hw owner hp, writeb_chip, readb_chip,
        hp.sts_write _ _ _ hl, hp.readb_owner, e2, hp.request _ _ hl, ho]
      simp
    · obtain rfl : _ = x := (Prod.mk.inj (Option.some.inj h)).2
      have ho : owner w.chip = some l := by
        rw [readb_fst] at hP
        exact (hp.access_read w.chip l hl).mp hP
      simp only [writeb_chip, readb_chip, hp.readb_owner, e2, hp.request _ _ hl, ho]
      simp

/-- On a chip that honours the protocol, the scan finds the owner if it is
among the localities still to look at. -/
theorem owner_find_active_scan (hw : Chip σ) (owner : σ → Option Nat)
    (hp : HonorsProtocol hw owner) (n : Nat) :
    ∀ (l0 l : Nat) (w : World σ), owner w.chip = some l → l0 ≤ l → l < l0 + n →
      (find_active_scan hw n l0 w).1 = some l := by
  induction n with
  | zero => intro l0 l w _ h1 h2; omega
  | succ n ih =>
    intro l0 l w ho h1 h2
    have hl4 : l ≤ 4 := hp.owner_le _ _ ho
    rw [find_active_scan]
    dsimp only
    by_cases hl : l = l0
    · subst hl
      have hbit := (hp.access_read w.chip l hl4).mpr ho
      rw [← readb_fst] at hbit
      rw [if_pos hbit]
    · have hbit : ¬ ((hw.readb w.chip (TIS_REG l0 TIS_REG_ACCESS)).1 % 256 &&&
          TIS_ACCESS_ACTIVE_LOCALITY ≠ 0) := by
        rw [hp.access_read w.chip l0 (by omega), ho]
        simpa using hl
      rw [← readb_fst] at hbit
      rw [if_neg hbit]
      apply ih (l0 + 1) l _ _ (by omega) (by omega)
      rw [readb_chip, hp.readb_owner, ho]

/-- C4: on every chip that honours the request/active protocol, in every state,
for every locality `l` from 0 to 4, `tis_activate l` returns and
`tis_find_active_locality` called right after it returns `l`. -/
theorem activate_then_find (hw : Chip σ) (owner : σ → Option Nat)
    (hp : HonorsProtocol hw owner) (l : Nat) (hl : l ≤ 4) (w : World σ) (ta : Nat)
    (hA : load w w.tpm_drivers.timeouts TIS_TIMEOUT_TYPE_A = some ta) :
    ∃ rc w1 w2, tis_activate hw l w = some (rc, w1) ∧
      tis_find_active_locality hw w1 = some (l, w2) := by
  obtain ⟨rc, w1, h1⟩ := tis_activate_some hw l ta w hA
  have ho := owner_tis_activate hw owner hp l hl w w1 rc h1
  have hs := owner_find_active_scan hw owner hp 5 0 l w1 ho (by omega) (by omega)
  refine ⟨rc, w1, (find_active_scan hw 5 0 w1).2, h1, ?_⟩
  unfold tis_find_active_locality
  have e : find_active_scan hw 5 0 w1 = (some l, (find_active_scan hw 5 0 w1).2) := by
    rw [← hs]
  rw [e]

/-! ### The simulated register file honours the protocol -/

theorem regfile_readb_snd (s : RegFile) (a : Nat) : (regfile.readb s a).2 = s := by
  unfold regfile
  dsimp only
  split_ifs <;> rfl

theorem regfile_readb_access (s : RegFile) (l : Nat) :
    (regfile.readb s (TIS_REG l TIS_REG_ACCESS)).1 =
      if s.active.map Fin.val = some l then 0xA0 else 0x80 := by
  have h1 : addrReg (TIS_REG l TIS_REG_ACCESS) = TIS_REG_ACCESS := addrReg_TIS_REG l _ (by decide)
  have h2 : addrLocty (TIS_REG l TIS_REG_ACCESS) = l := addrLocty_TIS_REG l _ (by decide)
  have h3 : (0x80 ||| TIS_ACCESS_ACTIVE_LOCALITY) = 0xA0 := by decide
  unfold regfile
  dsimp only
  rw [if_pos h1, h2, h3]

theorem regfile_writeb_release (s : RegFile) (l : Nat) :
    regfile.writeb s (TIS_REG l TIS_REG_ACCESS) TIS_ACCESS_ACTIVE_LOCALITY =
      if s.active.map Fin.val = some l then { active := none, ready := false } else s := by
  have h1 : addrReg (TIS_REG l TIS_REG_ACCESS) = TIS_REG_ACCESS := addrReg_TIS_REG l _ (by decide)
  have h2 : addrLocty (TIS_REG l TIS_REG_ACCESS) = l := addrLocty_TIS_REG l _ (by decide)
  have h3 : TIS_ACCESS_ACTIVE_LOCALITY &&& TIS_ACCESS_ACTIVE_LOCALITY ≠ 0 := by decide
  unfold regfile
  dsimp only
  rw [if_pos h1, if_pos h3, h2]

theorem regfile_writeb_request (s : RegFile) (l : Nat) :
    regfile.writeb s (TIS_REG l TIS_REG_ACCESS) TIS_ACCESS_REQUEST_USE =
      if h : s.active = none ∧ l < 5 then { active := some ⟨l, h.2⟩, ready := false } else s := by
  have h1 : addrReg (TIS_REG l TIS_REG_ACCESS) = TIS_REG_ACCESS := addrReg_TIS_REG l _ (by decide)
  have h2 : addrLocty (TIS_REG l TIS_REG_ACCESS) = l := addrLocty_TIS_REG l _ (by decide)
  have h3 : ¬ (TIS_ACCESS_REQUEST_USE &&& TIS_ACCESS_ACTIVE_LOCALITY ≠ 0) := by decide
  have h4 : TIS_ACCESS_REQUEST_USE &&& TIS_ACCESS_REQUEST_USE ≠ 0 := by decide
  unfold regfile
  dsimp only
  rw [if_pos h1, if_neg h3, if_pos h4]
  simp only [h2]

theorem regfile_writeb_sts_active (s : RegFile) (l v : Nat) :
    (regfile.writeb s (TIS_REG l TIS_REG_STS) v).active = s.active := by
  have h1 : addrReg (TIS_REG l TIS_REG_STS) = TIS_REG_STS := addrReg_TIS_REG l _ (by decide)
  have h2 : ¬ (TIS_REG_STS = TIS_REG_ACCESS) := by decide
  unfold regfile
  dsimp only
  rw [h1, if_neg h2, if_pos rfl]
  split_ifs <;> rfl

theorem regfile_honors : HonorsProtocol regfile (fun s => s.active.map Fin.val) where
  owner_le := by
    intro c l h
    rcases hc : c.active with _ | a
    · rw [hc] at h
      exact absurd h (by simp)
    · rw [hc] at h
      simp only [Option.map_some', Option.some.injEq] at h
      omega
  access_read := by
    intro c l _
    rw [regfile_readb_access]
    split_ifs with h
    · exact ⟨fun _ => h, fun _ => by decide⟩
    · exact ⟨fun hb => absurd hb (by decide), fun hc => absurd hc h⟩
  readb_owner := by
    intro c a
    rw [regfile_readb_snd]
  msleep_owner := fun _ _ => rfl
  release := by
    intro c l _
    rw [regfile_writeb_release]
    split_ifs <;> rfl
  request := by
    intro c l hl
    rw [regfile_writeb_request]
    rcases hc : c.active with _ | a
    · rw [dif_pos ⟨rfl, by omega⟩]
      simp
    · rw [dif_neg (by simp)]
      simp [hc]
  sts_write := by
    intro c l v _
    rw [regfile_writeb_sts_active]

/-- C4 on the simulated register file with locality 1 the owner: activating
locality 3 and then looking for the active locality gives 3. -/
theorem activate_then_find_witness :
    ∃ rc w1 w2,
      tis_activate regfile 3
          (tis_init regfile (World.boot { active := some 1, ready := false } [true, true])).2
        = some (rc, w1) ∧
      tis_find_active_locality regfile w1 = some (3, w2) :=
  activate_then_find regfile (fun s => s.active.map Fin.val) regfile_honors 3 (by decide)
    (tis_init regfile (World.boot { active := some 1, ready := false } [true, true])).2
    7500 rfl

/-- C5, the failing input: on a chip whose ACCESS registers always read 0, so
that the read-back after the request-use write lacks the active-locality bit,
`tis_activate 0` makes the five release writes, the request-use write and the
read-back, writes nothing to STS and polls nothing, and returns 0. -/
theorem tis_activate_ungranted :
    (tis_activate replay 0 (readyWorld ([], []) [2, 2, 2, 2])).map
        (fun r => (r.1, r.2.trace)) =
      some (0,
        [Event.writeb (TIS_REG 0 TIS_REG_INT_ENABLE) 0,
          Event.readb (TIS_REG 0 TIS_REG_ACCESS) 0,
          Event.writeb (TIS_REG 4 TIS_REG_ACCESS) TIS_ACCESS_ACTIVE_LOCALITY,
          Event.writeb (TIS_REG 3 TIS_REG_ACCESS) TIS_ACCESS_ACTIVE_LOCALITY,
          Event.writeb (TIS_REG 2 TIS_REG_ACCESS) TIS_ACCESS_ACTIVE_LOCALITY,
          Event.writeb (TIS_REG 1 TIS_REG_ACCESS) TIS_ACCESS_ACTIVE_LOCALITY,
          Event.writeb (TIS_REG 0 TIS_REG_ACCESS) TIS_ACCESS_ACTIVE_LOCALITY,
          Event.writeb (TIS_REG 0 TIS_REG_ACCESS) TIS_ACCESS_REQUEST_USE,
          Event.readb (TIS_REG 0 TIS_REG_ACCESS) 0]) := by
  decide

/-! ### Locality resolution returns -/

/-- With a timeout record that can be read, resolving the active locality
returns. -/
theorem tis_find_active_locality_some (hw : Chip σ) (w : World σ) (ta : Nat)
    (hA : load w w.tpm_drivers.timeouts TIS_TIMEOUT_TYPE_A = some ta) :
    ∃ l x, tis_find_active_locality hw w = some (l, x) := by
  unfold tis_find_active_locality
  split
  · exact ⟨_, _, rfl⟩
  · rename_i w1 heq
    have q := quiet_find_active_scan hw 5 0 w
    rw [heq] at q
    have hA1 : load w1 w1.tpm_drivers.timeouts TIS_TIMEOUT_TYPE_A = some ta := by
      rw [tpm_drivers_of_memOf q.1, load_of_memOf q.1, hA]
    obtain ⟨rc, x, h⟩ := tis_activate_some hw 0 ta w1 hA1
    rw [h]
    exact ⟨_, _, rfl⟩

/-! ### `tis_wait_sts` -/

theorem pollSts_succ (hw : Chip σ) (locty : Nat) (c : σ) (i : Nat) :
    pollSts hw locty c (i + 1) = pollSts hw locty (pollRound hw locty c) i := rfl

theorem waitEvents_succ (hw : Chip σ) (locty : Nat) (c : σ) (n : Nat) :
    waitEvents hw locty c (n + 1) =
      Event.readb (TIS_REG locty TIS_REG_STS) (pollSts hw locty c 0) :: Event.msleep 1 ::
        waitEvents hw locty (pollRound hw locty c) n := by
  unfold waitEvents
  rw [List.range_succ_eq_map]
  simp [List.flatMap_map, pollSts_succ, Function.comp_def]

/-- The wait, poll by poll: it stops at the first poll `m` below `time` that
reads a matching value, after `m` polls each followed by one sleep, and it
uses up the budget if there is none. -/
theorem tis_wait_sts_spec (hw : Chip σ) (locty mask expect : Nat) (time : Nat) :
    ∀ w : World σ, ∃ m, m ≤ time ∧
      (∀ i, i < m → pollSts hw locty w.chip i &&& mask ≠ expect) ∧
      ((m < time ∧ pollSts hw locty w.chip m &&& mask = expect ∧
          (tis_wait_sts hw locty time mask expect w).1 = 0 ∧
          (tis_wait_sts hw locty time mask expect w).2.trace =
            w.trace ++ waitEvents hw locty w.chip m ++
              [Event.readb (TIS_REG locty TIS_REG_STS) (pollSts hw locty w.chip m)]) ∨
        (m = time ∧ (tis_wait_sts hw locty time mask expect w).1 = 1 ∧
          (tis_wait_sts hw locty time mask expect w).2.trace =
            w.trace ++ waitEvents hw locty w.chip m)) := by
  induction time with
  | zero =>
    intro w
    exact ⟨0, le_refl _, fun i hi => absurd hi (by omega),
      Or.inr ⟨rfl, rfl, by simp [waitEvents, tis_wait_sts]⟩⟩
  | succ n ih =>
    intro w
    have hs : (readb hw (TIS_REG locty TIS_REG_STS) w).1 = pollSts hw locty w.chip 0 := rfl
    rw [tis_wait_sts]
    dsimp only
    rw [hs]
    by_cases hm : pollSts hw locty w.chip 0 &&& mask = expect
    · rw [if_pos hm]
      refine ⟨0, by omega, fun i hi => absurd hi (by omega), Or.inl ⟨by omega, hm, rfl, ?_⟩⟩
      rw [readb_trace, hs]
      simp [waitEvents]
    · rw [if_neg hm]
      obtain ⟨m, h1, h2, h3⟩ := ih (msleep hw 1 (readb hw (TIS_REG locty TIS_REG_STS) w).2)
      have hc : (msleep hw 1 (readb hw (TIS_REG locty TIS_REG_STS) w).2).chip =
          pollRound hw locty w.chip := rfl
      have ht : (msleep hw 1 (readb hw (TIS_REG locty TIS_REG_STS) w).2).trace =
          w.trace ++ [Event.readb (TIS_REG locty TIS_REG_STS) (pollSts hw locty w.chip 0),
            Event.msleep 1] := by
        rw [msleep_trace, readb_trace, hs]
        simp
      rw [hc] at h2 h3
      rw [ht] at h3
      refine ⟨m + 1, by omega, fun i hi => ?_, ?_⟩
      · cases i with
        | zero => exact hm
        | succ j =>
          rw [pollSts_succ]
          exact h2 j (by omega)
      · rcases h3 with ⟨a1, a2, a3, a4⟩ | ⟨a1, a3, a4⟩
        · refine Or.inl ⟨by omega, by rw [pollSts_succ]; exact a2, a3, ?_⟩
          rw [a4, waitEvents_succ, pollSts_succ]
          simp
        · refine Or.inr ⟨by omega, a3, ?_⟩
          rw [a4, waitEvents_succ]
          simp

/-- C19: for every chip, locality, budget `time`, mask and expected value,
`tis_wait_sts` returns after `m` non-matching reads of STS, each followed by
exactly one sleep of 1 ms, and, when it returns 0, one more read, the first
matching one, after which nothing is read or slept; the reads number at most
`time`; it returns 0 if and only if one of the first `time` reads matches and
1 otherwise; with `time = 0` it returns 1 and touches nothing. -/
theorem tis_wait_sts_budget (hw : Chip σ) (locty time mask expect : Nat) (w : World σ) :
    (∃ m, m ≤ time ∧
      (∀ i, i < m → pollSts hw locty w.chip i &&& mask ≠ expect) ∧
      (tis_wait_sts hw locty time mask expect w).2.trace =
        w.trace ++ waitEvents hw locty w.chip m ++
          (if (tis_wait_sts hw locty time mask expect w).1 = 0
            then [Event.readb (TIS_REG locty TIS_REG_STS) (pollSts hw locty w.chip m)]
            else []) ∧
      m + (if (tis_wait_sts hw locty time mask expect w).1 = 0 then 1 else 0) ≤ time ∧
      ((tis_wait_sts hw locty time mask expect w).1 = 0 ↔
        m < time ∧ pollSts hw locty w.chip m &&& mask = expect) ∧
      ((tis_wait_sts hw locty time mask expect w).1 ≠ 0 → m = time)) ∧
    ((tis_wait_sts hw locty time mask expect w).1 = 0 ∨
      (tis_wait_sts hw locty time mask expect w).1 = 1) ∧
    ((tis_wait_sts hw locty time mask expect w).1 = 0 ↔
      ∃ i, i < time ∧ pollSts hw locty w.chip i &&& mask = expect) ∧
    tis_wait_sts hw locty 0 mask expect w = (1, w) := by
  obtain ⟨m, h1, h2, h3⟩ := tis_wait_sts_spec hw locty mask expect time w
  rcases h3 with ⟨a1, a2, a3, a4⟩ | ⟨a1, a3, a4⟩
  · refine ⟨⟨m, h1, h2, ?_, ?_, ?_, ?_⟩, Or.inl a3, ?_, rfl⟩
    · rw [a4, if_pos a3]
    · rw [if_pos a3]
      omega
    · exact ⟨fun _ => ⟨a1, a2⟩, fun _ => a3⟩
    · intro h
      exact absurd a3 h
    · exact ⟨fun _ => ⟨m, a1, a2⟩, fun _ => a3⟩
  · have hne : ¬ (tis_wait_sts hw locty time mask expect w).1 = 0 := by
      rw [a3]
      decide
    refine ⟨⟨m, h1, h2, ?_, ?_, ?_, ?_⟩, Or.inr a3, ?_, rfl⟩
    · rw [a4, if_neg hne]
      simp
    · rw [if_neg hne]
      omega
    · exact ⟨fun h => absurd h hne, fun h => by omega⟩
    · intro _
      exact a1
    · refine ⟨fun h => absurd h hne, fun h => ?_⟩
      obtain ⟨i, hi, hmatch⟩ := h
      exact absurd hmatch (h2 i (by omega))

/-! ### `tis_find_active_locality` -/

theorem scanAccess_succ (hw : Chip σ) (l0 : Nat) (c : σ) (i : Nat) :
    scanAccess hw l0 c (i + 1) =
      scanAccess hw (l0 + 1) (hw.readb c (TIS_REG l0 TIS_REG_ACCESS)).2 i := by
  unfold scanAccess
  rw [scanChip, show l0 + (i + 1) = l0 + 1 + i by omega]

theorem scanEvents_succ (hw : Chip σ) (l0 : Nat) (c : σ) (n : Nat) :
    scanEvents hw l0 c (n + 1) =
      Event.readb (TIS_REG l0 TIS_REG_ACCESS) (scanAccess hw l0 c 0) ::
        scanEvents hw (l0 + 1) (hw.readb c (TIS_REG l0 TIS_REG_ACCESS)).2 n := by
  unfold scanEvents
  rw [List.range_succ_eq_map]
  simp only [List.map_cons, List.map_map, Nat.add_zero]
  refine congrArg (List.cons _) ?_
  apply List.map_congr_left
  intro i _
  simp only [Function.comp_apply]
  rw [scanAccess_succ, show l0 + (i + 1) = l0 + 1 + i by omega]

/-- The scan, read by read: it stops at the first locality whose ACCESS shows
the active-locality bit and makes nothing but reads. -/
theorem find_active_scan_spec (hw : Chip σ) (n : Nat) :
    ∀ (l0 : Nat) (w : World σ), ∃ m, m ≤ n ∧
      (∀ i, i < m → scanAccess hw l0 w.chip i &&& TIS_ACCESS_ACTIVE_LOCALITY = 0) ∧
      ((m < n ∧ scanAccess hw l0 w.chip m &&& TIS_ACCESS_ACTIVE_LOCALITY ≠ 0 ∧
          (find_active_scan hw n l0 w).1 = some (l0 + m) ∧
          (find_active_scan hw n l0 w).2.trace = w.trace ++ scanEvents hw l0 w.chip (m + 1)) ∨
        (m = n ∧ (find_active_scan hw n l0 w).1 = none ∧
          (find_active_scan hw n l0 w).2.trace = w.trace ++ scanEvents hw l0 w.chip n)) := by
  induction n with
  | zero =>
    intro l0 w
    exact ⟨0, le_refl _, fun i hi => absurd hi (by omega),
      Or.inr ⟨rfl, rfl, by simp [scanEvents, find_active_scan]⟩⟩
  | succ n ih =>
    intro l0 w
    have hs : (readb hw (TIS_REG l0 TIS_REG_ACCESS) w).1 = scanAccess hw l0 w.chip 0 := rfl
    rw [find_active_scan]
    dsimp only
    rw [hs]
    by_cases hb : scanAccess hw l0 w.chip 0 &&& TIS_ACCESS_ACTIVE_LOCALITY ≠ 0
    · rw [if_pos hb]
      refine ⟨0, by omega, fun i hi => absurd hi (by omega), Or.inl ⟨by omega, hb, rfl, ?_⟩⟩
      rw [readb_trace, hs]
      rfl
    · rw [if_neg hb]
      obtain ⟨m, h1, h2, h3⟩ := ih (l0 + 1) (readb hw (TIS_REG l0 TIS_REG_ACCESS) w).2
      rw [readb_chip, readb_trace, hs] at h3
      rw [readb_chip] at h2
      refine ⟨m + 1, by omega, fun i hi => ?_, ?_⟩
      · cases i with
        | zero => exact not_not.mp hb
        | succ j =>
          rw [scanAccess_succ]
          exact h2 j (by omega)
      · rcases h3 with ⟨a1, a2, a3, a4⟩ | ⟨a1, a3, a4⟩
        · refine Or.inl ⟨by omega, by rw [scanAccess_succ]; exact a2, ?_, ?_⟩
          · rw [a3]
            congr 1
            omega
          · rw [a4, scanEvents_succ hw l0 w.chip (m + 1)]
            simp
        · refine Or.inr ⟨by omega, a3, ?_⟩
          rw [a4, scanEvents_succ hw l0 w.chip n]
          simp

/-- C13: with a timeout record that can be read, `tis_find_active_locality`
returns a locality from 0 to 4. Either it is the lowest-numbered locality whose
ACCESS register shows the active-locality bit in the scan from 0 up, and the
call has made nothing but the reads of ACCESS up to that locality (no write);
or none of the five shows the bit, the call has run `tis_activate 0` after the
five reads and it returns 0 whatever code that activation returned. -/
theorem tis_find_active_locality_result (hw : Chip σ) (w : World σ) (ta : Nat)
    (hA : load w w.tpm_drivers.timeouts TIS_TIMEOUT_TYPE_A = some ta) :
    ∃ l x, tis_find_active_locality hw w = some (l, x) ∧ l ≤ 4 ∧
      ((scanAccess hw 0 w.chip l &&& TIS_ACCESS_ACTIVE_LOCALITY ≠ 0 ∧
          (∀ i, i < l → scanAccess hw 0 w.chip i &&& TIS_ACCESS_ACTIVE_LOCALITY = 0) ∧
          x.trace = w.trace ++ scanEvents hw 0 w.chip (l + 1)) ∨
        ((∀ i, i < 5 → scanAccess hw 0 w.chip i &&& TIS_ACCESS_ACTIVE_LOCALITY = 0) ∧
          l = 0 ∧
          (find_active_scan hw 5 0 w).2.trace = w.trace ++ scanEvents hw 0 w.chip 5 ∧
          ∃ rc, tis_activate hw 0 (find_active_scan hw 5 0 w).2 = some (rc, x))) := by
  obtain ⟨m, h1, h2, h3⟩ := find_active_scan_spec hw 5 0 w
  rcases h3 with ⟨a1, a2, a3, a4⟩ | ⟨a1, a3, a4⟩
  · refine ⟨m, (find_active_scan hw 5 0 w).2, ?_, by omega, Or.inl ⟨a2, h2, a4⟩⟩
    unfold tis_find_active_locality
    have e : find_active_scan hw 5 0 w = (some m, (find_active_scan hw 5 0 w).2) := by
      rw [← show (find_active_scan hw 5 0 w).1 = some m by rw [a3, Nat.zero_add]]
    rw [e]
  · have q := quiet_find_active_scan hw 5 0 w
    have hA1 : load (find_active_scan hw 5 0 w).2 (find_active_scan hw 5 0 w).2.tpm_drivers.timeouts
        TIS_TIMEOUT_TYPE_A = some ta := by
      rw [tpm_drivers_of_memOf q.1, load_of_memOf q.1, hA]
    obtain ⟨rc, x, hx⟩ := tis_activate_some hw 0 ta _ hA1
    refine ⟨0, x, ?_, by omega, Or.inr ⟨by rw [← a1]; exact h2, rfl, a4, rc, hx⟩⟩
    unfold tis_find_active_locality
    have e : find_active_scan hw 5 0 w = (none, (find_active_scan hw 5 0 w).2) := by
      rw [← a3]
    rw [e]
    simp only [hx]

/-- C13 at a chip whose localities 0 and 1 are not active and whose locality 2
is: the call returns 2. -/
theorem tis_find_active_locality_result_witness :
    (tis_find_active_locality replay (readyWorld ([0x80, 0x80, 0xA0], []) [2, 2, 2, 2])).map
        Prod.fst = some 2 ∧
    ∃ l x, tis_find_active_locality replay (readyWorld ([0x80, 0x80, 0xA0], []) [2, 2, 2, 2])
        = some (l, x) ∧ l ≤ 4 := by
  refine ⟨by decide, ?_⟩
  obtain ⟨l, x, h, hl, -⟩ := tis_find_active_locality_result replay
    (readyWorld ([0x80, 0x80, 0xA0], []) [2, 2, 2, 2]) 2 rfl
  exact ⟨l, x, h, hl⟩

/-! ### `tis_waitrespready` and `tis_waitdatavalid` -/

/-- C12, as amended: once the active locality is resolved, `tis_waitrespready`
for the duration class `to_t` writes TPM-GO (0x20) to the STS register of that
locality, once and before any of its polls, then polls STS at most
`durations[to_t]` times, sleeping 1 ms after each poll without data-available;
it returns 0 if and only if one of these polls shows data-available (0x10) set
and TCG_NO_RESPONSE (3) otherwise. The budget is the entry of the durations
record for `to_t`. -/
theorem tis_waitrespready_budget (hw : Chip σ) (w w1 : World σ) (to_t : tpmDurationType)
    (locty budget : Nat)
    (hfind : tis_find_active_locality hw w = some (locty, w1))
    (hdur : load w w.tpm_drivers.durations to_t.toNat = some budget) :
    ∃ rc x m, tis_waitrespready hw to_t w = some (rc, x) ∧
      x.trace = w1.trace ++
        Event.writeb (TIS_REG locty TIS_REG_STS) TIS_STS_TPM_GO ::
          (waitEvents hw locty
              (hw.writeb w1.chip (TIS_REG locty TIS_REG_STS) TIS_STS_TPM_GO) m ++
            (if rc = 0 then
              [Event.readb (TIS_REG locty TIS_REG_STS)
                (pollSts hw locty
                  (hw.writeb w1.chip (TIS_REG locty TIS_REG_STS) TIS_STS_TPM_GO) m)]
            else [])) ∧
      m + (if rc = 0 then 1 else 0) ≤ budget ∧
      (∀ i, i < m → pollSts hw locty
        (hw.writeb w1.chip (TIS_REG locty TIS_REG_STS) TIS_STS_TPM_GO) i &&&
          TIS_STS_DATA_AVAILABLE ≠ TIS_STS_DATA_AVAILABLE) ∧
      (rc = 0 ↔ ∃ i, i < budget ∧ pollSts hw locty
        (hw.writeb w1.chip (TIS_REG locty TIS_REG_STS) TIS_STS_TPM_GO) i &&&
          TIS_STS_DATA_AVAILABLE = TIS_STS_DATA_AVAILABLE) ∧
      (rc ≠ 0 → rc = TCG_NO_RESPONSE ∧ m = budget) ∧ TCG_NO_RESPONSE = 3 := by
  obtain ⟨q, -⟩ := quiet_tis_find_active_locality hw w w1 locty hfind
  have hdur1 : load w1 w1.tpm_drivers.durations to_t.toNat = some budget := by
    rw [tpm_drivers_of_memOf q.1, load_of_memOf q.1, hdur]
  have e : TIS_STS_TPM_GO % 256 = TIS_STS_TPM_GO := by decide
  have hc : (writeb hw (TIS_REG locty TIS_REG_STS) TIS_STS_TPM_GO w1).chip =
      hw.writeb w1.chip (TIS_REG locty TIS_REG_STS) TIS_STS_TPM_GO := by
    rw [writeb_chip, e]
  have ht : (writeb hw (TIS_REG locty TIS_REG_STS) TIS_STS_TPM_GO w1).trace =
      w1.trace ++ [Event.writeb (TIS_REG locty TIS_REG_STS) TIS_STS_TPM_GO] := by
    rw [writeb_trace, e]
  obtain ⟨m, h1, h2, h3⟩ := tis_wait_sts_spec hw locty TIS_STS_DATA_AVAILABLE
    TIS_STS_DATA_AVAILABLE budget (writeb hw (TIS_REG locty TIS_REG_STS) TIS_STS_TPM_GO w1)
  rw [hc] at h2 h3
  rw [ht] at h3
  have hrun : tis_waitrespready hw to_t w =
      (if (tis_wait_sts hw locty budget TIS_STS_DATA_AVAILABLE TIS_STS_DATA_AVAILABLE
          (writeb hw (TIS_REG locty TIS_REG_STS) TIS_STS_TPM_GO w1)).1 ≠ 0 then
        some (TCG_NO_RESPONSE, (tis_wait_sts hw locty budget TIS_STS_DATA_AVAILABLE
          TIS_STS_DATA_AVAILABLE (writeb hw (TIS_REG locty TIS_REG_STS) TIS_STS_TPM_GO w1)).2)
      else some (0, (tis_wait_sts hw locty budget TIS_STS_DATA_AVAILABLE
          TIS_STS_DATA_AVAILABLE
          (writeb hw (TIS_REG locty TIS_REG_STS) TIS_STS_TPM_GO w1)).2)) := by
    unfold tis_waitrespready
    simp only [hfind, hdur1]
  rw [hrun]
  rcases h3 with ⟨a1, a2, a3, a4⟩ | ⟨a1, a3, a4⟩
  · rw [a3, if_neg (by decide)]
    refine ⟨0, _, m, rfl, ?_, ?_, h2, ?_, ?_, rfl⟩
    · rw [a4, if_pos rfl]
      simp
    · rw [if_pos rfl]
      omega
    · exact ⟨fun _ => ⟨m, a1, a2⟩, fun _ => rfl⟩
    · intro h
      exact absurd rfl h
  · rw [a3, if_pos (by decide)]
    have hne : ¬ (TCG_NO_RESPONSE = 0) := by decide
    refine ⟨TCG_NO_RESPONSE, _, m, rfl, ?_, ?_, h2, ?_, ?_, rfl⟩
    · rw [a4, if_neg hne]
      simp
    · rw [if_neg hne]
      omega
    · refine ⟨fun h => absurd h hne, fun h => ?_⟩
      obtain ⟨i, hi, hmatch⟩ := h
      exact absurd hmatch (h2 i (by omega))
    · intro _
      exact ⟨rfl, a1⟩

/-- C12 at a chip whose locality 0 is active and which shows data-available at
the second poll, with a budget of 3 polls for the short class. -/
theorem tis_waitrespready_budget_witness :
    (tis_waitrespready replay tpmDurationType.TPM_DURATION_TYPE_SHORT
        (tunedWorld ([0xA0, 0x00, 0x10], []) [2, 2, 2, 2] [3, 3, 3])).map Prod.fst = some 0 ∧
    ∃ rc x m, tis_waitrespready replay tpmDurationType.TPM_DURATION_TYPE_SHORT
        (tunedWorld ([0xA0, 0x00, 0x10], []) [2, 2, 2, 2] [3, 3, 3]) = some (rc, x) ∧
      m + (if rc = 0 then 1 else 0) ≤ 3 := by
  refine ⟨by decide, ?_⟩
  obtain ⟨rc, x, m, h1, -, h3, -⟩ := tis_waitrespready_budget replay
    (tunedWorld ([0xA0, 0x00, 0x10], []) [2, 2, 2, 2] [3, 3, 3])
    (readb replay (TIS_REG 0 TIS_REG_ACCESS)
      (tunedWorld ([0xA0, 0x00, 0x10], []) [2, 2, 2, 2] [3, 3, 3])).2
    tpmDurationType.TPM_DURATION_TYPE_SHORT 0 3 rfl rfl
  exact ⟨rc, x, m, h1, h3⟩

/-- C12, the claim as stated fails: on a chip none of whose localities is
active, which grants locality 0 on request and echoes command-ready at the
second poll, `tis_waitrespready` for the short class with a budget of 1 resolves
the locality through `tis_activate 0`, so that STS is polled twice before
TPM-GO is written, and STS is polled 3 times in all. -/
theorem tis_waitrespready_polls_before_go :
    load (tunedWorld ([0x80, 0x80, 0x80, 0x80, 0x80, 0x80, 0xA0, 0x00, 0x40, 0x10], [])
        [2, 2, 2, 2] [1, 1, 1])
      (tunedWorld ([0x80, 0x80, 0x80, 0x80, 0x80, 0x80, 0xA0, 0x00, 0x40, 0x10], [])
        [2, 2, 2, 2] [1, 1, 1]).tpm_drivers.durations
      tpmDurationType.TPM_DURATION_TYPE_SHORT.toNat = some 1 ∧
    (tis_waitrespready replay tpmDurationType.TPM_DURATION_TYPE_SHORT
        (tunedWorld ([0x80, 0x80, 0x80, 0x80, 0x80, 0x80, 0xA0, 0x00, 0x40, 0x10], [])
          [2, 2, 2, 2] [1, 1, 1])).map
        (fun r => (r.1, r.2.trace.drop 1, stsPolls 0 (r.2.trace.drop 1))) =
      some (0,
        [Event.readb (TIS_REG 0 TIS_REG_ACCESS) 0x80,
          Event.readb (TIS_REG 1 TIS_REG_ACCESS) 0x80,
          Event.readb (TIS_REG 2 TIS_REG_ACCESS) 0x80,
          Event.readb (TIS_REG 3 TIS_REG_ACCESS) 0x80,
          Event.readb (TIS_REG 4 TIS_REG_ACCESS) 0x80,
          Event.readb (TIS_REG 0 TIS_REG_ACCESS) 0x80,
          Event.writeb (TIS_REG 4 TIS_REG_ACCESS) TIS_ACCESS_ACTIVE_LOCALITY,
          Event.writeb (TIS_REG 3 TIS_REG_ACCESS) TIS_ACCESS_ACTIVE_LOCALITY,
          Event.writeb (TIS_REG 2 TIS_REG_ACCESS) TIS_ACCESS_ACTIVE_LOCALITY,
          Event.writeb (TIS_REG 1 TIS_REG_ACCESS) TIS_ACCESS_ACTIVE_LOCALITY,
          Event.writeb (TIS_REG 0 TIS_REG_ACCESS) TIS_ACCESS_ACTIVE_LOCALITY,
          Event.writeb (TIS_REG 0 TIS_REG_ACCESS) TIS_ACCESS_REQUEST_USE,
          Event.readb (TIS_REG 0 TIS_REG_ACCESS) 0xA0,
          Event.writeb (TIS_REG 0 TIS_REG_STS) TIS_STS_COMMAND_READY,
          Event.readb (TIS_REG 0 TIS_REG_STS) 0x00,
          Event.msleep 1,
          Event.readb (TIS_REG 0 TIS_REG_STS) 0x40,
          Event.writeb (TIS_REG 0 TIS_REG_STS) TIS_STS_TPM_GO,
          Event.readb (TIS_REG 0 TIS_REG_STS) 0x10],
        3) := by
  decide

/-- On a timeout record that is the driver's own block, supplied timeouts are
stored whatever is done with the durations, if these are another array. -/
theorem set_timeouts_own_block (w : World σ) (bt : Nat) (t : List Nat) (d : Option (List Nat))
    (hpt : w.tpm_drivers.timeouts = Ptr.low bt) (hpd : w.tpm_drivers.durations ≠ Ptr.low bt)
    (hlt : (w.low bt).length = 4) (ht : t.length = 4) :
    (set_timeouts (some t) d w).low bt = t ∧
    (set_timeouts (some t) d w).tpm_drivers = w.tpm_drivers := by
  have e1 : List.take 4 t = t := List.take_of_length_le (by omega)
  have e2 : List.drop 4 (w.low bt) = [] := List.drop_of_length_le (by omega)
  rcases d with _ | d
  · simp [set_timeouts, memcpy, hpt, e1, e2]
  · rcases hd : w.tpm_drivers.durations with _ | _ | _ | bd
    · simp [set_timeouts, memcpy, hpt, hd, e1, e2]
    · simp [set_timeouts, memcpy, hpt, hd, e1, e2]
    · simp [set_timeouts, memcpy, hpt, hd, e1, e2]
    · have hne : bt ≠ bd := by
        intro h
        rw [hd, h] at hpd
        exact hpd rfl
      simp [set_timeouts, memcpy, hpt, hd, e1, e2, Function.update_noteq hne]

/-- The wait for data-valid is `tis_wait_sts` on the resolved locality with the
budget read from entry C of the timeout record. -/
theorem tis_waitdatavalid_eq (hw : Chip σ) (w w1 : World σ) (locty tc : Nat)
    (hfind : tis_find_active_locality hw w = some (locty, w1))
    (hC : load w w.tpm_drivers.timeouts TIS_TIMEOUT_TYPE_C = some tc) :
    tis_waitdatavalid hw w =
      (if (tis_wait_sts hw locty tc TIS_STS_VALID TIS_STS_VALID w1).1 ≠ 0 then
        some (TCG_NO_RESPONSE, (tis_wait_sts hw locty tc TIS_STS_VALID TIS_STS_VALID w1).2)
      else some (0, (tis_wait_sts hw locty tc TIS_STS_VALID TIS_STS_VALID w1).2)) := by
  obtain ⟨q, -⟩ := quiet_tis_find_active_locality hw w w1 locty hfind
  have hC1 : load w1 w1.tpm_drivers.timeouts TIS_TIMEOUT_TYPE_C = some tc := by
    rw [tpm_drivers_of_memOf q.1, load_of_memOf q.1, hC]
  unfold tis_waitdatavalid
  simp only [hfind, hC1]

/-- On a driver whose timeout record is its own buffer (a block of low memory
of 4 words, not shared with the durations), after `set_timeouts t d` with `t`
supplied, `tis_waitdatavalid` uses `t[C]` as its budget: once the locality is
resolved it polls STS at most `t[C]` times, and against a chip that never shows
the valid bit in these polls it polls exactly `t[C]` times, each poll followed
by one sleep, and returns TCG_NO_RESPONSE. -/
theorem waitdatavalid_after_set_timeouts (hw : Chip σ) (w w1 : World σ) (bt : Nat) (t : List Nat)
    (d : Option (List Nat)) (locty tc : Nat)
    (hpt : w.tpm_drivers.timeouts = Ptr.low bt) (hpd : w.tpm_drivers.durations ≠ Ptr.low bt)
    (hlt : (w.low bt).length = 4) (ht : t.length = 4)
    (htc : t[TIS_TIMEOUT_TYPE_C]? = some tc)
    (hfind : tis_find_active_locality hw (set_timeouts (some t) d w) = some (locty, w1)) :
    (∃ rc x m, tis_waitdatavalid hw (set_timeouts (some t) d w) = some (rc, x) ∧
      m + (if rc = 0 then 1 else 0) ≤ tc ∧
      x.trace = w1.trace ++ waitEvents hw locty w1.chip m ++
        (if rc = 0 then [Event.readb (TIS_REG locty TIS_REG_STS) (pollSts hw locty w1.chip m)]
          else []) ∧
      (rc = 0 ↔ ∃ i, i < tc ∧ pollSts hw locty w1.chip i &&& TIS_STS_VALID = TIS_STS_VALID) ∧
      (rc ≠ 0 → rc = TCG_NO_RESPONSE ∧ m = tc)) ∧
    ((∀ i, i < tc → pollSts hw locty w1.chip i &&& TIS_STS_VALID ≠ TIS_STS_VALID) →
      ∃ x, tis_waitdatavalid hw (set_timeouts (some t) d w) = some (TCG_NO_RESPONSE, x) ∧
        x.trace = w1.trace ++ waitEvents hw locty w1.chip tc) := by
  obtain ⟨s1, s2⟩ := set_timeouts_own_block w bt t d hpt hpd hlt ht
  have hC : load (set_timeouts (some t) d w) (set_timeouts (some t) d w).tpm_drivers.timeouts
      TIS_TIMEOUT_TYPE_C = some tc := by
    rw [s2, hpt]
    simp only [load, deref, s1]
    exact htc
  have hrun := tis_waitdatavalid_eq hw _ w1 locty tc hfind hC
  obtain ⟨m, h1, h2, h3⟩ := tis_wait_sts_spec hw locty TIS_STS_VALID TIS_STS_VALID tc w1
  rw [hrun]
  have hne : ¬ (TCG_NO_RESPONSE = 0) := by decide
  rcases h3 with ⟨a1, a2, a3, a4⟩ | ⟨a1, a3, a4⟩
  · rw [a3, if_neg (by decide)]
    refine ⟨⟨0, _, m, rfl, ?_, ?_, ?_, ?_⟩, ?_⟩
    · rw [if_pos rfl]
      omega
    · rw [a4, if_pos rfl]
    · exact ⟨fun _ => ⟨m, a1, a2⟩, fun _ => rfl⟩
    · intro h
      exact absurd rfl h
    · intro hnever
      exact absurd a2 (hnever m a1)
  · rw [a3, if_pos (by decide)]
    refine ⟨⟨TCG_NO_RESPONSE, _, m, rfl, ?_, ?_, ?_, ?_⟩, ?_⟩
    · rw [if_neg hne]
      omega
    · rw [a4, if_neg hne]
      simp
    · refine ⟨fun h => absurd h hne, fun h => ?_⟩
      obtain ⟨i, hi, hmatch⟩ := h
      exact absurd hmatch (h2 i (by omega))
    · intro _
      exact ⟨rfl, a1⟩
    · intro _
      refine ⟨_, rfl, ?_⟩
      rw [a4, a1]

theorem stsPolls_append (l : Nat) (a b : List Event) :
    stsPolls l (a ++ b) = stsPolls l a + stsPolls l b := by
  simp [stsPolls, List.countP_append]

theorem stsPolls_waitEvents (hw : Chip σ) (l : Nat) (n : Nat) :
    ∀ c : σ, stsPolls l (waitEvents hw l c n) = n := by
  induction n with
  | zero => intro c; rfl
  | succ n ih =>
    intro c
    rw [waitEvents_succ]
    have e : stsPolls l (Event.readb (TIS_REG l TIS_REG_STS) (pollSts hw l c 0) ::
        Event.msleep 1 :: waitEvents hw l (pollRound hw l c) n) =
          stsPolls l (waitEvents hw l (pollRound hw l c) n) + 1 := by
      simp [stsPolls]
    rw [e, ih]

theorem pollChip_replay_nil (l : Nat) (r : List Nat) (i : Nat) :
    pollChip replay l i ([], r) = ([], r) := by
  induction i with
  | zero => rfl
  | succ i ih =>
    rw [pollChip]
    exact ih

theorem pollSts_replay_nil (l : Nat) (r : List Nat) (i : Nat) :
    pollSts replay l ([], r) i = 0 := by
  unfold pollSts
  rw [pollChip_replay_nil]
  rfl

/-- C11, the claim as stated fails in the two states it names. After an init
both of whose allocations failed, the timeout record is the default table,
`set_timeouts` with 2, 2, 2, 2 changes nothing and the budget of the wait
stays 7500: a chip that shows the valid bit at the third poll gets that third
poll and the wait succeeds, and a chip that never shows it is polled 7500
times. Before init the record is null, `set_timeouts` stores nothing and the
wait has no defined result. -/
theorem set_timeouts_ignored :
    (set_timeouts (some [2, 2, 2, 2]) none
      (tis_init replay (World.boot ([0xA0, 0x00, 0x00, 0x80], []) [false, false])).2
      ).tpm_drivers.timeouts = Ptr.tis_default_timeouts ∧
    load (set_timeouts (some [2, 2, 2, 2]) none
        (tis_init replay (World.boot ([0xA0, 0x00, 0x00, 0x80], []) [false, false])).2)
      Ptr.tis_default_timeouts TIS_TIMEOUT_TYPE_C = some 7500 ∧
    (tis_waitdatavalid replay
        (set_timeouts (some [2, 2, 2, 2]) none
          (tis_init replay (World.boot ([0xA0, 0x00, 0x00, 0x80], []) [false, false])).2)).map
        (fun r => (r.1, stsPolls 0 r.2.trace)) = some (0, 3) ∧
    (tis_waitdatavalid replay
        (set_timeouts (some [2, 2, 2, 2]) none
          (tis_init replay (World.boot ([0xA0], []) [false, false])).2)).map
        (fun r => (r.1, stsPolls 0 r.2.trace)) = some (TCG_NO_RESPONSE, 7500) ∧
    (set_timeouts (some [2, 2, 2, 2]) none
      (World.boot (([0xA0], []) : List Nat × List Nat) [])).tpm_drivers.timeouts = Ptr.null ∧
    (tis_waitdatavalid replay
      (set_timeouts (some [2, 2, 2, 2]) none (World.boot ([0xA0], []) []))).isNone = true := by
  refine ⟨by decide, by decide, by decide, ?_, by decide, by decide⟩
  have hrun := tis_waitdatavalid_eq replay
    (set_timeouts (some [2, 2, 2, 2]) none
      (tis_init replay (World.boot ([0xA0], []) [false, false])).2)
    (readb replay (TIS_REG 0 TIS_REG_ACCESS)
      (set_timeouts (some [2, 2, 2, 2]) none
        (tis_init replay (World.boot ([0xA0], []) [false, false])).2)).2
    0 7500 rfl rfl
  obtain ⟨m, h1, h2, h3⟩ := tis_wait_sts_spec replay 0 TIS_STS_VALID TIS_STS_VALID 7500
    (readb replay (TIS_REG 0 TIS_REG_ACCESS)
      (set_timeouts (some [2, 2, 2, 2]) none
        (tis_init replay (World.boot ([0xA0], []) [false, false])).2)).2
  have hchip : (readb replay (TIS_REG 0 TIS_REG_ACCESS)
      (set_timeouts (some [2, 2, 2, 2]) none
        (tis_init replay (World.boot ([0xA0], []) [false, false])).2)).2.chip = ([], []) := rfl
  rw [hchip] at h2 h3
  rcases h3 with ⟨a1, a2, -, -⟩ | ⟨a1, a3, a4⟩
  · rw [pollSts_replay_nil] at a2
    exact absurd a2 (by decide)
  · rw [hrun, a3, if_pos (by decide)]
    simp only [Option.map_some', a4, stsPolls_append, stsPolls_waitEvents, a1]
    rfl

/-! ### The ACCESS writes of `tis_activate` -/

theorem accessWrites_readb (hw : Chip σ) (a : Nat) (w : World σ) :
    accessWrites (readb hw a w).2.trace = accessWrites w.trace := by
  simp [readb, accessWrites, List.filterMap_append]

theorem accessWrites_msleep (hw : Chip σ) (n : Nat) (w : World σ) :
    accessWrites (msleep hw n w).trace = accessWrites w.trace := by
  simp [msleep, accessWrites, List.filterMap_append]

theorem accessWrites_writeb_sts (hw : Chip σ) (l v : Nat) (w : World σ) :
    accessWrites (writeb hw (TIS_REG l TIS_REG_STS) v w).trace = accessWrites w.trace := by
  have h1 : addrReg (TIS_REG l TIS_REG_STS) = TIS_REG_STS := addrReg_TIS_REG l _ (by decide)
  have h2 : ¬ (TIS_REG_STS = TIS_REG_ACCESS) := by decide
  simp [writeb, accessWrites, List.filterMap_append, h1, h2]

theorem accessWrites_writeb_access (hw : Chip σ) (l v : Nat) (w : World σ) :
    accessWrites (writeb hw (TIS_REG l TIS_REG_ACCESS) v w).trace =
      accessWrites w.trace ++ [(TIS_REG l TIS_REG_ACCESS, v % 256)] := by
  have h1 : addrReg (TIS_REG l TIS_REG_ACCESS) = TIS_REG_ACCESS := addrReg_TIS_REG l _ (by decide)
  simp [writeb, accessWrites, List.filterMap_append, h1]

theorem accessWrites_tis_wait_sts (hw : Chip σ) (locty time mask expect : Nat) (w : World σ) :
    accessWrites (tis_wait_sts hw locty time mask expect w).2.trace = accessWrites w.trace := by
  induction time generalizing w with
  | zero => rfl
  | succ n ih =>
    rw [tis_wait_sts]
    dsimp only
    split_ifs
    · exact accessWrites_readb hw _ w
    · rw [ih, accessWrites_msleep, accessWrites_readb]

/-- C16, as amended: `tis_activate l` writes the active-locality bit (0x20) to
the ACCESS registers of localities 4, 3, 2, 1, 0, in that order and before the
request-use write (0x02) to locality `l`, exactly when the ACCESS register of
locality `l` itself, read at entry, lacks the active-locality bit; otherwise
the request-use write is its only write to an ACCESS register. -/
theorem tis_activate_access_writes (hw : Chip σ) (l ta : Nat) (w : World σ)
    (hA : load w w.tpm_drivers.timeouts TIS_TIMEOUT_TYPE_A = some ta) :
    ∃ rc x, tis_activate hw l w = some (rc, x) ∧
      accessWrites x.trace = accessWrites w.trace ++
        (if (readb hw (TIS_REG l TIS_REG_ACCESS) w).1 &&& TIS_ACCESS_ACTIVE_LOCALITY = 0 then
          [(TIS_REG 4 TIS_REG_ACCESS, TIS_ACCESS_ACTIVE_LOCALITY),
            (TIS_REG 3 TIS_REG_ACCESS, TIS_ACCESS_ACTIVE_LOCALITY),
            (TIS_REG 2 TIS_REG_ACCESS, TIS_ACCESS_ACTIVE_LOCALITY),
            (TIS_REG 1 TIS_REG_ACCESS, TIS_ACCESS_ACTIVE_LOCALITY),
            (TIS_REG 0 TIS_REG_ACCESS, TIS_ACCESS_ACTIVE_LOCALITY)]
        else []) ++
        [(TIS_REG l TIS_REG_ACCESS, TIS_ACCESS_REQUEST_USE)] := by
  have e1 : TIS_ACCESS_ACTIVE_LOCALITY % 256 = TIS_ACCESS_ACTIVE_LOCALITY := by decide
  have e2 : TIS_ACCESS_REQUEST_USE % 256 = TIS_ACCESS_REQUEST_USE := by decide
  unfold tis_activate
  rw [hA]
  dsimp only
  by_cases hP : (readb hw (TIS_REG l TIS_REG_ACCESS) w).1 &&& TIS_ACCESS_ACTIVE_LOCALITY = 0
  · simp only [hP, if_true, List.foldl]
    split_ifs
    · refine ⟨_, _, rfl, ?_⟩
      simp only [accessWrites_tis_wait_sts, accessWrites_writeb_sts, accessWrites_readb,
        accessWrites_writeb_access, e1, e2, List.append_assoc, List.cons_append,
        List.nil_append]
    · refine ⟨_, _, rfl, ?_⟩
      simp only [accessWrites_readb, accessWrites_writeb_access, e1, e2, List.append_assoc,
        List.cons_append, List.nil_append]
  · simp only [hP, if_false]
    split_ifs
    · refine ⟨_, _, rfl, ?_⟩
      simp only [accessWrites_tis_wait_sts, accessWrites_writeb_sts, accessWrites_readb,
        accessWrites_writeb_access, e2, List.append_nil]
    · refine ⟨_, _, rfl, ?_⟩
      simp only [accessWrites_readb, accessWrites_writeb_access, e2, List.append_nil]

/-- C16 on the simulated register file with locality 1 the owner, for the
activation of locality 3. -/
theorem tis_activate_access_writes_witness :
    ∃ rc x,
      tis_activate regfile 3
          (tis_init regfile (World.boot { active := some 1, ready := false } [true, true])).2
        = some (rc, x) ∧
      accessWrites x.trace =
        [(TIS_REG 4 TIS_REG_ACCESS, TIS_ACCESS_ACTIVE_LOCALITY),
          (TIS_REG 3 TIS_REG_ACCESS, TIS_ACCESS_ACTIVE_LOCALITY),
          (TIS_REG 2 TIS_REG_ACCESS, TIS_ACCESS_ACTIVE_LOCALITY),
          (TIS_REG 1 TIS_REG_ACCESS, TIS_ACCESS_ACTIVE_LOCALITY),
          (TIS_REG 0 TIS_REG_ACCESS, TIS_ACCESS_ACTIVE_LOCALITY),
          (TIS_REG 3 TIS_REG_ACCESS, TIS_ACCESS_REQUEST_USE)] := by
  obtain ⟨rc, x, h1, h2⟩ := tis_activate_access_writes regfile 3 7500
    (tis_init regfile (World.boot { active := some 1, ready := false } [true, true])).2 rfl
  refine ⟨rc, x, h1, ?_⟩
  rw [h2]
  decide

/-- C16, the claim as stated fails: on the simulated register file with
locality 1 active at entry (its ACCESS register shows the active-locality bit),
`tis_activate 3` makes the five release writes before its request. -/
theorem tis_activate_releases_other :
    (regfile.readb { active := some 1, ready := false } (TIS_REG 1 TIS_REG_ACCESS)).1 &&&
      TIS_ACCESS_ACTIVE_LOCALITY ≠ 0 ∧
    (tis_activate regfile 3
        (tis_init regfile (World.boot { active := some 1, ready := false } [true, true])).2).map
        (fun r => (r.1, r.2.trace.drop 1)) =
      some (0,
        [Event.readb (TIS_REG 3 TIS_REG_ACCESS) 0x80,
          Event.writeb (TIS_REG 4 TIS_REG_ACCESS) TIS_ACCESS_ACTIVE_LOCALITY,
          Event.writeb (TIS_REG 3 TIS_REG_ACCESS) TIS_ACCESS_ACTIVE_LOCALITY,
          Event.writeb (TIS_REG 2 TIS_REG_ACCESS) TIS_ACCESS_ACTIVE_LOCALITY,
          Event.writeb (TIS_REG 1 TIS_REG_ACCESS) TIS_ACCESS_ACTIVE_LOCALITY,
          Event.writeb (TIS_REG 0 TIS_REG_ACCESS) TIS_ACCESS_ACTIVE_LOCALITY,
          Event.writeb (TIS_REG 3 TIS_REG_ACCESS) TIS_ACCESS_REQUEST_USE,
          Event.readb (TIS_REG 3 TIS_REG_ACCESS) 0xA0,
          Event.writeb (TIS_REG 3 TIS_REG_STS) TIS_STS_COMMAND_READY,
          Event.readb (TIS_REG 3 TIS_REG_STS) 0xC0]) := by
  decide

/-! ### `tis_senddata` on any chip -/

theorem gateRun_append (locty : Nat) (a b : List Event) :
    ∀ s, gateRun locty (a ++ b) s = (gateRun locty a s).bind (gateRun locty b) := by
  induction a with
  | nil => intro s; rfl
  | cons e a ih =>
    intro s
    cases e with
    | readb x y =>
      simp only [List.cons_append, gateRun]
      exact ih _
    | msleep x =>
      simp only [List.cons_append, gateRun]
      exact ih _
    | readl x y =>
      simp only [List.cons_append, gateRun]
      split_ifs <;> exact ih _
    | writeb x y =>
      simp only [List.cons_append, gateRun]
      split_ifs
      · exact ih _
      · rfl
      · exact ih _

theorem sleeps_append (a b : List Event) : sleeps (a ++ b) = sleeps a + sleeps b := by
  simp [sleeps, List.countP_append]

/-- The poll loop on any chip: it ends on a non-zero burst count before the
budget is used up, or with the budget used up and a burst count of 0. -/
theorem senddata_poll_run (hw : Chip σ) (locty : Nat) (n : Nat) :
    ∀ (ctr : Nat) (w : World σ), ∃ b z x evs,
      senddata_poll hw locty n ctr w = (b, ctr + z, x) ∧ z ≤ n ∧
      (b = 0 → z = n) ∧ (b ≠ 0 → z < n) ∧
      x.trace = w.trace ++ evs ∧ memOf x = memOf w ∧
      sleeps evs = z ∧ fifoWrites evs = [] ∧ gateRun locty evs 0 = some b := by
  induction n with
  | zero =>
    intro ctr w
    exact ⟨0, 0, w, [], rfl, le_refl _, fun _ => rfl, fun h => absurd rfl h, by simp, rfl,
      rfl, rfl, rfl⟩
  | succ n ih =>
    intro ctr w
    by_cases hb : burstOf (readl hw (TIS_REG locty TIS_REG_STS) w).1 = 0
    · obtain ⟨b, z, x, evs, h1, h2, h3, h4, h5, h6, h7, h8, h9⟩ :=
        ih (ctr + 1) (msleep hw 1 (readl hw (TIS_REG locty TIS_REG_STS) w).2)
      refine ⟨b, z + 1, x,
        Event.readl (TIS_REG locty TIS_REG_STS) (readl hw (TIS_REG locty TIS_REG_STS) w).1 ::
          Event.msleep 1 :: evs, ?_, by omega, fun h => by rw [h3 h], fun h => ?_, ?_, ?_, ?_,
        ?_, ?_⟩
      · rw [senddata_poll_step_zero hw locty n ctr w hb, h1]
        congr 2
        omega
      · have := h4 h
        omega
      · rw [h5, msleep_trace, readl_trace]
        simp
      · rw [h6]
        rfl
      · have e : sleeps (Event.readl (TIS_REG locty TIS_REG_STS)
            (readl hw (TIS_REG locty TIS_REG_STS) w).1 :: Event.msleep 1 :: evs) =
              sleeps evs + 1 := by
          simp [sleeps]
        rw [e, h7]
      · have e : fifoWrites (Event.readl (TIS_REG locty TIS_REG_STS)
            (readl hw (TIS_REG locty TIS_REG_STS) w).1 :: Event.msleep 1 :: evs) =
              fifoWrites evs := by
          simp [fifoWrites]
        rw [e, h8]
      · simp only [gateRun, if_true, hb]
        exact h9
    · refine ⟨burstOf (readl hw (TIS_REG locty TIS_REG_STS) w).1, 0,
        (readl hw (TIS_REG locty TIS_REG_STS) w).2,
        [Event.readl (TIS_REG locty TIS_REG_STS) (readl hw (TIS_REG locty TIS_REG_STS) w).1],
        ?_, by omega, fun h => absurd h hb, fun _ => by omega, ?_, rfl, rfl, rfl, ?_⟩
      · rw [senddata_poll_step_nonzero hw locty n ctr w hb]
        rfl
      · rw [readl_trace]
      · simp only [gateRun, if_true]

theorem sendDist_pos (offset len : Nat) (ho : offset < 2 ^ 32) : 1 ≤ sendDist offset len := by
  unfold sendDist
  split_ifs <;> omega

/-- The write loop on any chip: entered with a burst count of at least 1, it
writes `k` bytes, at least 1 and no more than the burst count, and it stops
short of the burst count only when `offset` has reached `len`. -/
theorem senddata_burst_run (hw : Chip σ) (locty : Nat) (data : Nat → Nat) (len : Nat)
    (hlen : len < 2 ^ 32) (b : Nat) :
    ∀ (offset : Nat) (w : World σ), 1 ≤ b → offset < 2 ^ 32 → ∃ k x evs,
      senddata_burst hw locty data len b offset w = (b - k, (offset + k) % 2 ^ 32, x) ∧
      1 ≤ k ∧ k ≤ b ∧ k ≤ sendDist offset len ∧
      ((offset + k) % 2 ^ 32 = len ↔ k = sendDist offset len) ∧
      (k < b → k = sendDist offset len) ∧
      x.trace = w.trace ++ evs ∧ memOf x = memOf w ∧
      sleeps evs = 0 ∧ (fifoWrites evs).length = k ∧
      gateRun locty evs b = some (b - k) := by
  induction b with
  | zero => intro offset w hb; omega
  | succ b ih =>
    intro offset w _ ho
    have hreg : addrReg (TIS_REG locty TIS_REG_DATA_FIFO) = TIS_REG_DATA_FIFO :=
      addrReg_TIS_REG locty _ (by decide)
    have hd1 : ((offset + 1) % 2 ^ 32 = len ↔ 1 = sendDist offset len) := by
      unfold sendDist
      split_ifs <;> omega
    rw [senddata_burst]
    by_cases hc : b = 0 ∨ (offset + 1) % 2 ^ 32 = len
    · rw [if_pos hc]
      refine ⟨1, _, [Event.writeb (TIS_REG locty TIS_REG_DATA_FIFO) (data offset % 256)],
        rfl, le_refl _, by omega, sendDist_pos offset len ho, hd1, fun h => ?_, ?_, rfl, rfl,
        ?_, ?_⟩
      · rcases hc with hc | hc
        · omega
        · exact hd1.mp hc
      · rw [writeb_trace]
      · simp [fifoWrites, hreg]
      · simp only [gateRun, hreg, if_true]
        rw [if_pos ⟨trivial, Nat.succ_pos b⟩]
    · rw [if_neg hc]
      have hb1 : 1 ≤ b := by omega
      have ho1 : (offset + 1) % 2 ^ 32 < 2 ^ 32 := Nat.mod_lt _ (by decide)
      have hne : ¬ (1 = sendDist offset len) := fun h => hc (Or.inr (hd1.mpr h))
      have hpos := sendDist_pos offset len ho
      have hd2 : sendDist ((offset + 1) % 2 ^ 32) len = sendDist offset len - 1 := by
        unfold sendDist at *
        split_ifs at * <;> omega
      obtain ⟨k, x, evs, h1, h2, h3, h4, h5, h6, h7, h8, h9, h10, h11⟩ :=
        ih ((offset + 1) % 2 ^ 32)
          (writeb hw (TIS_REG locty TIS_REG_DATA_FIFO) (data offset) w) hb1 ho1
      have hoff : ((offset + 1) % 2 ^ 32 + k) % 2 ^ 32 = (offset + (k + 1)) % 2 ^ 32 := by
        omega
      refine ⟨k + 1, x,
        Event.writeb (TIS_REG locty TIS_REG_DATA_FIFO) (data offset % 256) :: evs,
        ?_, by omega, by omega, by omega, ?_, fun h => ?_, ?_, ?_, ?_, ?_, ?_⟩
      · rw [h1, hoff, show b + 1 - (k + 1) = b - k by omega]
      · rw [← hoff, h5, hd2]
        omega
      · have := h6 (by omega)
        omega
      · rw [h7, writeb_trace]
        simp
      · rw [h8]
        rfl
      · have e : sleeps (Event.writeb (TIS_REG locty TIS_REG_DATA_FIFO) (data offset % 256) ::
            evs) = sleeps evs := by
          simp [sleeps]
        rw [e, h9]
      · have e : fifoWrites (Event.writeb (TIS_REG locty TIS_REG_DATA_FIFO)
            (data offset % 256) :: evs) =
              (TIS_REG locty TIS_REG_DATA_FIFO, data offset % 256) :: fifoWrites evs := by
          simp [fifoWrites, hreg]
        rw [e, List.length_cons, h10]
      · simp only [gateRun, hreg, if_true]
        rw [if_pos ⟨trivial, Nat.succ_pos b⟩, Nat.add_sub_cancel, h11,
          show b + 1 - (k + 1) = b - k by omega]

theorem fifoWrites_length_append (a b : List Event) :
    (fifoWrites (a ++ b)).length = (fifoWrites a).length + (fifoWrites b).length := by
  rw [fifoWrites_append, List.length_append]

/-- The send loop on any chip, entered with a burst count of 0: it returns,
within the rounds allowed; no byte is written without allowance from the last
burst count read; it returns 0 when `offset` has reached `len`, with the poll
counter still below timeout D, and TCG_RESPONSE_TIMEOUT before that, with the
poll counter at timeout D. -/
theorem senddata_loop_run (hw : Chip σ) (locty : Nat) (data : Nat → Nat)
    (len timeout_d : Nat) (hlen : len < 2 ^ 32) (fuel : Nat) :
    ∀ (offset ctr : Nat) (w : World σ), offset < 2 ^ 32 → sendDist offset len ≤ fuel →
      ctr ≤ timeout_d →
      ∃ rc x evs, senddata_loop hw locty data len timeout_d fuel 0 offset ctr w = some (rc, x) ∧
        x.trace = w.trace ++ evs ∧ memOf x = memOf w ∧
        (gateRun locty evs 0).isSome = true ∧
        ((rc = 0 ∧ (fifoWrites evs).length = sendDist offset len ∧
            sleeps evs + ctr < timeout_d) ∨
          (rc = TCG_RESPONSE_TIMEOUT ∧ (fifoWrites evs).length < sendDist offset len ∧
            sleeps evs + ctr = timeout_d)) := by
  induction fuel with
  | zero =>
    intro offset ctr w ho hf _
    have := sendDist_pos offset len ho
    omega
  | succ fuel ih =>
    intro offset ctr w ho hf hc
    have hpos := sendDist_pos offset len ho
    obtain ⟨b, z, x1, pevs, p1, p2, p3, p4, p5, p6, p7, p8, p9⟩ :=
      senddata_poll_run hw locty (timeout_d - ctr) ctr w
    rw [senddata_loop]
    simp only [if_true]
    rw [p1]
    dsimp only
    by_cases hb : b = 0
    · rw [if_pos hb]
      refine ⟨TCG_RESPONSE_TIMEOUT, x1, pevs, rfl, p5, p6, by rw [p9]; rfl,
        Or.inr ⟨rfl, ?_, ?_⟩⟩
      · rw [p8]
        exact hpos
      · rw [p7, p3 hb]
        omega
    · rw [if_neg hb]
      obtain ⟨k, x2, wevs, b1, b2, b3, b4, b5, b6, b7, b8, b9, b10, b11⟩ :=
        senddata_burst_run hw locty data len hlen b offset x1 (by omega) ho
      rw [b1]
      dsimp only
      have hz := p4 hb
      have hgate : gateRun locty (pevs ++ wevs) 0 = some (b - k) := by
        rw [gateRun_append, p9]
        exact b11
      by_cases hend : (offset + k) % 2 ^ 32 = len
      · rw [if_pos hend]
        refine ⟨0, x2, pevs ++ wevs, rfl, ?_, b8.trans p6, by rw [hgate]; rfl,
          Or.inl ⟨rfl, ?_, ?_⟩⟩
        · rw [b7, p5, List.append_assoc]
        · rw [fifoWrites_length_append, p8, b10, List.length_nil, Nat.zero_add]
          exact b5.mp hend
        · rw [sleeps_append, p7, b9]
          omega
      · rw [if_neg hend]
        have hk : k < sendDist offset len := by
          rcases Nat.lt_or_ge k (sendDist offset len) with h | h
          · exact h
          · exact absurd (b5.mpr (by omega)) hend
        have hkb : b - k = 0 := by
          rcases Nat.lt_or_ge k b with h | h
          · have := b6 h
            omega
          · omega
        have hd2 : sendDist ((offset + k) % 2 ^ 32) len = sendDist offset len - k := by
          unfold sendDist at *
          split_ifs at * <;> omega
        rw [hkb]
        obtain ⟨rc, x, evs, r1, r2, r3, r4, r5⟩ := ih ((offset + k) % 2 ^ 32) (ctr + z) x2
          (Nat.mod_lt _ (by decide)) (by omega) (by omega)
        refine ⟨rc, x, pevs ++ wevs ++ evs, r1, ?_, r3.trans (b8.trans p6), ?_, ?_⟩
        · rw [r2, b7, p5, List.append_assoc, List.append_assoc, List.append_assoc]
        · rw [gateRun_append, hgate, hkb]
          exact r4
        · have hw1 : (fifoWrites (pevs ++ wevs ++ evs)).length = k + (fifoWrites evs).length := by
            rw [fifoWrites_length_append, fifoWrites_length_append, p8, b10, List.length_nil,
              Nat.zero_add]
          have hs1 : sleeps (pevs ++ wevs ++ evs) = z + sleeps evs := by
            rw [sleeps_append, sleeps_append, p7, b9, Nat.add_zero]
          rw [hw1, hs1]
          rcases r5 with ⟨c1, c2, c3⟩ | ⟨c1, c2, c3⟩
          · exact Or.inl ⟨c1, by omega, by omega⟩
          · exact Or.inr ⟨c1, by omega, by omega⟩

/-- C14: in every run of `tis_senddata` (any chip, any payload length and
timeout D), with the burst count of a 32-bit read of STS taken as bits 8 to 23
of the value, every write to DATA_FIFO goes to the active locality and is
covered by the burst count of the last read of STS before it: the writes since
that read never outnumber its burst count, and none comes before a read with a
non-zero burst count; resolving the locality writes nothing to DATA_FIFO. -/
theorem tis_senddata_gated (hw : Chip σ) (w w1 : World σ) (data : Nat → Nat)
    (len locty timeout_d : Nat) (hlen : len < 2 ^ 32)
    (hfind : tis_find_active_locality hw w = some (locty, w1))
    (hD : load w w.tpm_drivers.timeouts TIS_TIMEOUT_TYPE_D = some timeout_d) :
    (∃ rc x evs, tis_senddata hw data len w = some (rc, x) ∧
      x.trace = w1.trace ++ evs ∧ fifoWrites w1.trace = fifoWrites w.trace ∧
      (gateRun locty evs 0).isSome = true) ∧
    ∀ v, burstOf v = v / 2 ^ 8 % 2 ^ 16 := by
  obtain ⟨q, -⟩ := quiet_tis_find_active_locality hw w w1 locty hfind
  have hD1 : load w1 w1.tpm_drivers.timeouts TIS_TIMEOUT_TYPE_D = some timeout_d := by
    rw [tpm_drivers_of_memOf q.1, load_of_memOf q.1, hD]
  obtain ⟨rc, x, evs, h1, h2, -, h4, -⟩ :=
    senddata_loop_run hw locty data len timeout_d hlen (2 ^ 32) 0 0 w1 (by decide)
      (by unfold sendDist; split_ifs <;> omega) (Nat.zero_le _)
  refine ⟨⟨rc, x, evs, ?_, h2, q.2, h4⟩, fun v => ?_⟩
  · unfold tis_senddata
    simp only [hfind, hD1]
    exact h1
  · unfold burstOf
    rw [Nat.shiftRight_eq_div_pow]
    rfl

/-- C14 at a chip whose locality 0 is active and whose burst counts read 4, 0,
4 and 2, with a payload of 10 bytes. -/
theorem tis_senddata_gated_witness :
    ∃ rc x evs, tis_senddata replay samplePayload 10
        (readyWorld ([0xA0], [0x400, 0x000, 0x400, 0x200]) [2, 2, 2, 2]) = some (rc, x) ∧
      x.trace = (readb replay (TIS_REG 0 TIS_REG_ACCESS)
        (readyWorld ([0xA0], [0x400, 0x000, 0x400, 0x200]) [2, 2, 2, 2])).2.trace ++ evs ∧
      (gateRun 0 evs 0).isSome = true := by
  obtain ⟨rc, x, evs, h1, h2, -, h4⟩ := (tis_senddata_gated replay
    (readyWorld ([0xA0], [0x400, 0x000, 0x400, 0x200]) [2, 2, 2, 2])
    (readb replay (TIS_REG 0 TIS_REG_ACCESS)
      (readyWorld ([0xA0], [0x400, 0x000, 0x400, 0x200]) [2, 2, 2, 2])).2
    samplePayload 10 0 2 (by decide) rfl rfl).1
  exact ⟨rc, x, evs, h1, h2, h4⟩

/-- C15, the failing input: with `len = 0`, on a chip whose locality 0 is
active and which offers a burst count of 1 at the first poll and 0 afterwards,
`tis_senddata` writes one byte to DATA_FIFO, the byte at `data[0]`, and then
runs into the timeout. -/
theorem tis_senddata_empty_writes :
    (tis_senddata replay samplePayload 0 (readyWorld ([0xA0], [0x100]) [2, 2, 2, 2])).map
        (fun r => (r.1, r.2.trace.drop 1)) =
      some (TCG_RESPONSE_TIMEOUT,
        [Event.readb (TIS_REG 0 TIS_REG_ACCESS) 0xA0,
          Event.readl (TIS_REG 0 TIS_REG_STS) 0x100,
          Event.writeb (TIS_REG 0 TIS_REG_DATA_FIFO) (samplePayload 0),
          Event.readl (TIS_REG 0 TIS_REG_STS) 0,
          Event.msleep 1,
          Event.readl (TIS_REG 0 TIS_REG_STS) 0,
          Event.msleep 1]) := by
  decide

/-- C20, as amended: for a payload of `n` bytes, `1 ≤ n`, any timeout D and any
chip, `tis_senddata` returns, with at most `n` writes to DATA_FIFO in the whole
call and, after the locality is resolved, at most timeout-D sleeps, all of 1
ms: it returns 0 after exactly `n` writes and fewer than timeout-D sleeps, or
TCG_RESPONSE_TIMEOUT after fewer than `n` writes and exactly timeout-D sleeps.
The poll counter runs through all the rounds of the send: a round entered with
the counter at timeout D returns TCG_RESPONSE_TIMEOUT at once, with no access
to the chip. -/
theorem tis_senddata_bounds (hw : Chip σ) (w w1 : World σ) (data : Nat → Nat)
    (n locty timeout_d : Nat) (hn : 1 ≤ n) (hn32 : n < 2 ^ 32)
    (hfind : tis_find_active_locality hw w = some (locty, w1))
    (hD : load w w.tpm_drivers.timeouts TIS_TIMEOUT_TYPE_D = some timeout_d) :
    (∃ rc x evs, tis_senddata hw data n w = some (rc, x) ∧
      x.trace = w1.trace ++ evs ∧
      (fifoWrites x.trace).length ≤ (fifoWrites w.trace).length + n ∧
      sleeps evs ≤ timeout_d ∧
      ((rc = 0 ∧ (fifoWrites evs).length = n ∧ sleeps evs < timeout_d) ∨
        (rc = TCG_RESPONSE_TIMEOUT ∧ (fifoWrites evs).length < n ∧
          sleeps evs = timeout_d))) ∧
    (∀ (fuel offset : Nat) (y : World σ),
      senddata_loop hw locty data n timeout_d (fuel + 1) 0 offset timeout_d y =
        some (TCG_RESPONSE_TIMEOUT, y)) := by
  obtain ⟨q, -⟩ := quiet_tis_find_active_locality hw w w1 locty hfind
  have hD1 : load w1 w1.tpm_drivers.timeouts TIS_TIMEOUT_TYPE_D = some timeout_d := by
    rw [tpm_drivers_of_memOf q.1, load_of_memOf q.1, hD]
  have hd : sendDist 0 n = n := by
    unfold sendDist
    rw [if_pos (by omega), Nat.sub_zero]
  obtain ⟨rc, x, evs, h1, h2, -, -, h5⟩ :=
    senddata_loop_run hw locty data n timeout_d hn32 (2 ^ 32) 0 0 w1 (by decide)
      (by rw [hd]; omega) (Nat.zero_le _)
  rw [hd] at h5
  refine ⟨⟨rc, x, evs, ?_, h2, ?_, ?_, ?_⟩, fun fuel offset y => ?_⟩
  · unfold tis_senddata
    simp only [hfind, hD1]
    exact h1
  · rw [h2, fifoWrites_length_append, q.2]
    rcases h5 with ⟨-, c2, -⟩ | ⟨-, c2, -⟩ <;> omega
  · rcases h5 with ⟨-, -, c3⟩ | ⟨-, -, c3⟩ <;> omega
  · rcases h5 with ⟨c1, c2, c3⟩ | ⟨c1, c2, c3⟩
    · exact Or.inl ⟨c1, c2, by omega⟩
    · exact Or.inr ⟨c1, c2, by omega⟩
  · rw [senddata_loop]
    simp only [if_true, Nat.sub_self, senddata_poll]

/-- C20, as amended, at a chip whose locality 0 is active and whose burst counts
read 4, 0, 4 and 2, with a payload of 10 bytes and timeout D of 2 ms. -/
theorem tis_senddata_bounds_witness :
    ∃ rc x evs, tis_senddata replay samplePayload 10
        (readyWorld ([0xA0], [0x400, 0x000, 0x400, 0x200]) [2, 2, 2, 2]) = some (rc, x) ∧
      (fifoWrites x.trace).length ≤ 10 ∧ sleeps evs ≤ 2 ∧
      ((rc = 0 ∧ (fifoWrites evs).length = 10 ∧ sleeps evs < 2) ∨
        (rc = TCG_RESPONSE_TIMEOUT ∧ (fifoWrites evs).length < 10 ∧ sleeps evs = 2)) := by
  obtain ⟨rc, x, evs, h1, -, h3, h4, h5⟩ := (tis_senddata_bounds replay
    (readyWorld ([0xA0], [0x400, 0x000, 0x400, 0x200]) [2, 2, 2, 2])
    (readb replay (TIS_REG 0 TIS_REG_ACCESS)
      (readyWorld ([0xA0], [0x400, 0x000, 0x400, 0x200]) [2, 2, 2, 2])).2
    samplePayload 10 0 2 (by decide) (by decide) rfl rfl).1
  exact ⟨rc, x, evs, h1, by simpa using h3, h4, h5⟩

/-- C20, counterexample to the bound on the sleeps of the whole call: with all
four timeouts set to 1 ms, on a chip with no active locality that grants
locality 0 on request and never offers a burst, `tis_senddata` of one byte
sleeps twice, once while `tis_activate` waits for command-ready and once while
it waits for a burst, although timeout D is 1. -/
theorem tis_senddata_sleeps_exceed :
    load (tunedWorld ([0x80, 0x80, 0x80, 0x80, 0x80, 0x80, 0xA0, 0x00], []) [1, 1, 1, 1] [1, 1, 1])
        (tunedWorld ([0x80, 0x80, 0x80, 0x80, 0x80, 0x80, 0xA0, 0x00], []) [1, 1, 1, 1]
          [1, 1, 1]).tpm_drivers.timeouts TIS_TIMEOUT_TYPE_D = some 1 ∧
      sleeps (tunedWorld ([0x80, 0x80, 0x80, 0x80, 0x80, 0x80, 0xA0, 0x00], []) [1, 1, 1, 1]
        [1, 1, 1]).trace = 0 ∧
      (tis_senddata replay samplePayload 1
        (tunedWorld ([0x80, 0x80, 0x80, 0x80, 0x80, 0x80, 0xA0, 0x00], []) [1, 1, 1, 1]
          [1, 1, 1])).map (fun r => (r.1, sleeps r.2.trace, r.2.trace.drop 1)) =
        some (TCG_RESPONSE_TIMEOUT, 2,
          [Event.readb (TIS_REG 0 TIS_REG_ACCESS) 0x80,
            Event.readb (TIS_REG 1 TIS_REG_ACCESS) 0x80,
            Event.readb (TIS_REG 2 TIS_REG_ACCESS) 0x80,
            Event.readb (TIS_REG 3 TIS_REG_ACCESS) 0x80,
            Event.readb (TIS_REG 4 TIS_REG_ACCESS) 0x80,
            Event.readb (TIS_REG 0 TIS_REG_ACCESS) 0x80,
            Event.writeb (TIS_REG 4 TIS_REG_ACCESS) TIS_ACCESS_ACTIVE_LOCALITY,
            Event.writeb (TIS_REG 3 TIS_REG_ACCESS) TIS_ACCESS_ACTIVE_LOCALITY,
            Event.writeb (TIS_REG 2 TIS_REG_ACCESS) TIS_ACCESS_ACTIVE_LOCALITY,
            Event.writeb (TIS_REG 1 TIS_REG_ACCESS) TIS_ACCESS_ACTIVE_LOCALITY,
            Event.writeb (TIS_REG 0 TIS_REG_ACCESS) TIS_ACCESS_ACTIVE_LOCALITY,
            Event.writeb (TIS_REG 0 TIS_REG_ACCESS) TIS_ACCESS_REQUEST_USE,
            Event.readb (TIS_REG 0 TIS_REG_ACCESS) 0xA0,
            Event.writeb (TIS_REG 0 TIS_REG_STS) TIS_STS_COMMAND_READY,
            Event.readb (TIS_REG 0 TIS_REG_STS) 0,
            Event.msleep 1,
            Event.readl (TIS_REG 0 TIS_REG_STS) 0,
            Event.msleep 1]) := by
  decide

/-! ### `set_timeouts` and the default tables -/

/-- C17, as amended: when the driver's timeout and duration records are the
compiled-in default tables (no buffer could be allocated at init),
`set_timeouts t d` changes nothing at all, whatever `t` and `d` are: the
default tables, and with them the driver's timeouts and durations, read
afterwards what they read before. -/
theorem set_timeouts_spares_defaults (w : World σ) (t d : Option (List Nat))
    (ht : w.tpm_drivers.timeouts = Ptr.tis_default_timeouts)
    (hd : w.tpm_drivers.durations = Ptr.tpm_default_durations) :
    set_timeouts t d w = w ∧
    (set_timeouts t d w).tis_default_timeouts = w.tis_default_timeouts ∧
    (set_timeouts t d w).tpm_default_durations = w.tpm_default_durations ∧
    deref (set_timeouts t d w) (set_timeouts t d w).tpm_drivers.timeouts =
      some w.tis_default_timeouts ∧
    deref (set_timeouts t d w) (set_timeouts t d w).tpm_drivers.durations =
      some w.tpm_default_durations := by
  have h : set_timeouts t d w = w := by
    unfold set_timeouts
    rcases t with _ | t <;> rcases d with _ | d <;> simp [ht, hd]
  rw [h, ht, hd]
  exact ⟨rfl, rfl, rfl, rfl, rfl⟩

/-- C17 as amended, after an init both of whose allocations failed. -/
theorem set_timeouts_spares_defaults_witness :
    (set_timeouts (some [1, 2, 3, 4]) (some [5, 6, 7])
        (tis_init replay (World.boot ([], []) [false, false])).2).tis_default_timeouts =
      (tis_init replay (World.boot ([], []) [false, false])).2.tis_default_timeouts ∧
    (set_timeouts (some [1, 2, 3, 4]) (some [5, 6, 7])
        (tis_init replay (World.boot ([], []) [false, false])).2).tpm_default_durations =
      (tis_init replay (World.boot ([], []) [false, false])).2.tpm_default_durations :=
  have h := set_timeouts_spares_defaults (tis_init replay (World.boot ([], []) [false, false])).2
    (some [1, 2, 3, 4]) (some [5, 6, 7]) rfl rfl
  ⟨h.2.1, h.2.2.1⟩

/-- C17, counterexample: after an init both of whose allocations failed, the
records of the driver are the default tables, and after `set_timeouts` with
1, 2, 3, 4 and 5, 6, 7 the default tables still read 7500, 20000, 7500, 7500
and 20000, 200000, 600000, not the values supplied. -/
theorem set_timeouts_defaults_unwritten :
    (tis_init replay (World.boot ([], []) [false, false])).2.tpm_drivers.timeouts =
      Ptr.tis_default_timeouts ∧
    (tis_init replay (World.boot ([], []) [false, false])).2.tpm_drivers.durations =
      Ptr.tpm_default_durations ∧
    (set_timeouts (some [1, 2, 3, 4]) (some [5, 6, 7])
        (tis_init replay (World.boot ([], []) [false, false])).2).tis_default_timeouts =
      [7500, 20000, 7500, 7500] ∧
    (set_timeouts (some [1, 2, 3, 4]) (some [5, 6, 7])
        (tis_init replay (World.boot ([], []) [false, false])).2).tpm_default_durations =
      [20000, 200000, 600000] ∧
    (set_timeouts (some [1, 2, 3, 4]) (some [5, 6, 7])
        (tis_init replay (World.boot ([], []) [false, false])).2).tis_default_timeouts ≠
      [1, 2, 3, 4] ∧
    (set_timeouts (some [1, 2, 3, 4]) (some [5, 6, 7])
        (tis_init replay (World.boot ([], []) [false, false])).2).tpm_default_durations ≠
      [5, 6, 7] := by
  decide

/-! ### Positive timeouts and durations -/

theorem recordsPositive_iff (w : World σ) :
    recordsPositive w = true ↔
      (∀ i, i < 4 → positiveAt w w.tpm_drivers.timeouts i = true) ∧
        (∀ i, i < 3 → positiveAt w w.tpm_drivers.durations i = true) := by
  simp [recordsPositive, List.all_eq_true]

theorem recordsPositive_congr {w x : World σ} (hd : x.tpm_drivers = w.tpm_drivers)
    (hl : ∀ p i, load x p i = load w p i) : recordsPositive x = recordsPositive w := by
  unfold recordsPositive positiveAt
  simp only [hd, hl]

theorem recordsPositive_of_memOf {w x : World σ} (h : memOf x = memOf w) :
    recordsPositive x = recordsPositive w :=
  recordsPositive_congr (tpm_drivers_of_memOf h) (load_of_memOf h)

theorem load_of_positiveAt {w : World σ} {p : Ptr} {i : Nat} (h : positiveAt w p i = true) :
    ∃ v, load w p i = some v := by
  unfold positiveAt at h
  cases hl : load w p i with
  | none => rw [hl] at h; exact absurd h (by simp)
  | some v => exact ⟨v, rfl⟩

theorem ne_null_of_positiveAt {w : World σ} {p : Ptr} {i : Nat} (h : positiveAt w p i = true) :
    p ≠ Ptr.null := by
  intro hp
  rw [hp] at h
  exact absurd h (by simp [positiveAt, load, deref])

/-- The words of an array after `n` words were copied over its beginning. -/
theorem getElem?_take_append_drop (src old : List Nat) (n i : Nat) (hn : src.length = n) :
    (src.take n ++ old.drop n)[i]? = if i < n then src[i]? else old[i]? := by
  subst hn
  rw [List.take_length]
  split_ifs with hi
  · exact List.getElem?_append_left hi
  · rw [List.getElem?_append_right (by omega), List.getElem?_drop]
    congr 1
    omega

theorem load_memcpy (dst : Ptr) (src : List Nat) (n : Nat) (w : World σ) (p : Ptr) (i : Nat)
    (hn : src.length = n) (hdst : dst ≠ Ptr.null) :
    load (memcpy dst src n w) p i = if p = dst ∧ i < n then src[i]? else load w p i := by
  have key := fun old => getElem?_take_append_drop src old n i hn
  rcases dst with _ | _ | _ | b
  · exact absurd rfl hdst
  · rcases p with _ | _ | _ | b2 <;> simp only [load, deref, memcpy, key] <;> simp
  · rcases p with _ | _ | _ | b2 <;> simp only [load, deref, memcpy, key] <;> simp
  · rcases p with _ | _ | _ | b2 <;> simp only [load, deref, memcpy, key] <;> try simp
    by_cases hb : b2 = b
    · subst hb
      simp [key]
    · simp [hb, Function.update_noteq hb]

theorem recordsPositive_memcpy (dst : Ptr) (src : List Nat) (n : Nat) (w : World σ)
    (hn : src.length = n) (hdst : dst ≠ Ptr.null) (hpos : ∀ v ∈ src, 0 < v)
    (h : recordsPositive w = true) : recordsPositive (memcpy dst src n w) = true := by
  have step : ∀ p i, positiveAt w p i = true → positiveAt (memcpy dst src n w) p i = true := by
    intro p i hp
    unfold positiveAt
    rw [load_memcpy dst src n w p i hn hdst]
    split_ifs with hc
    · have hi : i < src.length := by omega
      rw [List.getElem?_eq_getElem hi]
      exact decide_eq_true (hpos _ (List.getElem_mem hi))
    · exact hp
  rw [recordsPositive_iff] at h ⊢
  rw [memcpy_tpm_drivers]
  exact ⟨fun i hi => step _ i (h.1 i hi), fun i hi => step _ i (h.2 i hi)⟩

theorem recordsPositive_set_timeouts (w : World σ) (t d : Option (List Nat))
    (ht : ∀ a, t = some a → a.length = 4 ∧ ∀ v ∈ a, 0 < v)
    (hd : ∀ a, d = some a → a.length = 3 ∧ ∀ v ∈ a, 0 < v)
    (h : recordsPositive w = true) : recordsPositive (set_timeouts t d w) = true := by
  have h1 : recordsPositive (match t with
      | some t =>
        if w.tpm_drivers.timeouts ≠ Ptr.null ∧ w.tpm_drivers.timeouts ≠ Ptr.tis_default_timeouts
        then memcpy w.tpm_drivers.timeouts t 4 w else w
      | none => w) = true := by
    rcases t with _ | t
    · exact h
    · dsimp only
      split_ifs with hc
      · exact recordsPositive_memcpy _ t 4 w (ht t rfl).1 hc.1 (ht t rfl).2 h
      · exact h
  unfold set_timeouts
  dsimp only
  rcases d with _ | d
  · exact h1
  · dsimp only
    by_cases hc : w.tpm_drivers.durations ≠ Ptr.null ∧
        w.tpm_drivers.durations ≠ Ptr.tpm_default_durations
    · rw [if_pos hc]
      exact recordsPositive_memcpy _ d 3 _ (hd d rfl).1 hc.1 (hd d rfl).2 h1
    · rw [if_neg hc]
      exact h1

/-- On a driver whose two records are set, `tis_init` only disables the
interrupts. -/
theorem tis_init_of_set (hw : Chip σ) (w : World σ) (ht : w.tpm_drivers.timeouts ≠ Ptr.null)
    (hd : w.tpm_drivers.durations ≠ Ptr.null) :
    (tis_init hw w).2 = writeb hw (TIS_REG 0 TIS_REG_INT_ENABLE) 0 w := by
  have e : (writeb hw (TIS_REG 0 TIS_REG_INT_ENABLE) 0 w).tpm_drivers = w.tpm_drivers := rfl
  unfold tis_init
  simp only [e, if_neg ht, if_neg hd]

theorem recordsPositive_tis_init_boot (hw : Chip σ) (c : σ) (zone : List Bool) :
    recordsPositive (tis_init hw (World.boot c zone)).2 = true := by
  rcases zone with _ | ⟨b1, _ | ⟨b2, rest⟩⟩
  · rfl
  · cases b1 <;> rfl
  · cases b1 <;> cases b2 <;> rfl

theorem memOf_readresp_loop (hw : Chip σ) (locty : Nat) (n : Nat) :
    ∀ (offset : Nat) (buffer : Nat → Nat) (w : World σ),
      memOf (readresp_loop hw locty n offset buffer w).2.2 = memOf w := by
  induction n with
  | zero => intro offset buffer w; rfl
  | succ n ih =>
    intro offset buffer w
    rw [readresp_loop]
    dsimp only
    split_ifs
    · rfl
    · rw [ih]
      rfl

/-- With records that are positive, every operation on the chip returns and
leaves the memory as it was. -/
theorem memOf_operations (hw : Chip σ) (w : World σ) (h : recordsPositive w = true) :
    (∀ locty, ∃ r x, tis_activate hw locty w = some (r, x) ∧ memOf x = memOf w) ∧
    (∃ l x, tis_find_active_locality hw w = some (l, x) ∧ memOf x = memOf w) ∧
    (∃ r x, tis_ready hw w = some (r, x) ∧ memOf x = memOf w) ∧
    (∀ data len, len < 2 ^ 32 →
      ∃ r x, tis_senddata hw data len w = some (r, x) ∧ memOf x = memOf w) ∧
    (∀ buffer len, ∃ r b n x, tis_readresp hw buffer len w = some (r, b, n, x) ∧
      memOf x = memOf w) ∧
    (∃ r x, tis_waitdatavalid hw w = some (r, x) ∧ memOf x = memOf w) ∧
    (∀ to_t, ∃ r x, tis_waitrespready hw to_t w = some (r, x) ∧ memOf x = memOf w) := by
  rw [recordsPositive_iff] at h
  obtain ⟨ta, hA⟩ := load_of_positiveAt (h.1 TIS_TIMEOUT_TYPE_A (by decide))
  obtain ⟨tb, hB⟩ := load_of_positiveAt (h.1 TIS_TIMEOUT_TYPE_B (by decide))
  obtain ⟨tc, hC⟩ := load_of_positiveAt (h.1 TIS_TIMEOUT_TYPE_C (by decide))
  obtain ⟨td, hD⟩ := load_of_positiveAt (h.1 TIS_TIMEOUT_TYPE_D (by decide))
  obtain ⟨l, w1, hfind⟩ := tis_find_active_locality_some hw w ta hA
  obtain ⟨q, -⟩ := quiet_tis_find_active_locality hw w w1 l hfind
  have tr : ∀ p i, load w1 w1.tpm_drivers.timeouts i = load w w.tpm_drivers.timeouts i ∧
      load w1 p i = load w p i := fun p i => by
    rw [tpm_drivers_of_memOf q.1, load_of_memOf q.1, load_of_memOf q.1]
    exact ⟨rfl, rfl⟩
  refine ⟨fun locty => ?_, ⟨l, w1, hfind, q.1⟩, ?_, fun data len hlen => ?_,
    fun buffer len => ?_, ?_, fun to_t => ?_⟩
  · obtain ⟨r, x, hx⟩ := tis_activate_some hw locty ta w hA
    exact ⟨r, x, hx, (quiet_tis_activate hw locty w x r hx).1⟩
  · unfold tis_ready
    simp only [hfind, (tr Ptr.null _).1, hB]
    refine ⟨_, _, rfl, ?_⟩
    exact ((q.trans (quiet_writeb_sts hw l TIS_STS_COMMAND_READY w1)).trans
      (quiet_tis_wait_sts hw l tb _ _ _)).1
  · obtain ⟨rc, x, evs, h1, -, h3, -⟩ :=
      senddata_loop_run hw l data len td hlen (2 ^ 32) 0 0 w1 (by decide)
        (by unfold sendDist; split_ifs <;> omega) (Nat.zero_le _)
    refine ⟨rc, x, ?_, h3.trans q.1⟩
    unfold tis_senddata
    simp only [hfind, (tr Ptr.null _).1, hD]
    exact h1
  · unfold tis_readresp
    simp only [hfind]
    exact ⟨_, _, _, _, rfl, (memOf_readresp_loop hw l len 0 buffer w1).trans q.1⟩
  · unfold tis_waitdatavalid
    simp only [hfind, (tr Ptr.null _).1, hC]
    have q2 := (q.trans (quiet_tis_wait_sts hw l tc TIS_STS_VALID TIS_STS_VALID w1)).1
    split_ifs
    · exact ⟨_, _, rfl, q2⟩
    · exact ⟨_, _, rfl, q2⟩
  · obtain ⟨du, hdu⟩ := load_of_positiveAt
      (h.2 to_t.toNat (by cases to_t <;> decide))
    have hdu1 : load w1 w1.tpm_drivers.durations to_t.toNat = some du := by
      rw [tpm_drivers_of_memOf q.1, load_of_memOf q.1, hdu]
    unfold tis_waitrespready
    simp only [hfind, hdu1]
    have q2 := ((q.trans (quiet_writeb_sts hw l TIS_STS_TPM_GO w1)).trans
      (quiet_tis_wait_sts hw l du TIS_STS_DATA_AVAILABLE TIS_STS_DATA_AVAILABLE _)).1
    split_ifs
    · exact ⟨_, _, rfl, q2⟩
    · exact ⟨_, _, rfl, q2⟩

theorem recordsPositive_tis_init (hw : Chip σ) (w : World σ) (h : recordsPositive w = true) :
    recordsPositive (tis_init hw w).2 = true := by
  have h2 := (recordsPositive_iff w).1 h
  rw [tis_init_of_set hw w (ne_null_of_positiveAt (h2.1 0 (by decide)))
    (ne_null_of_positiveAt (h2.2 0 (by decide)))]
  exact h

theorem recordsPositive_is_tpm_present (hw : Chip σ) (w : World σ)
    (h : recordsPositive w = true) : recordsPositive (is_tpm_present hw w).2 = true := by
  have hp : recordsPositive (tis_probe hw w).2 = true := by
    rw [recordsPositive_of_memOf (show memOf (tis_probe hw w).2 = memOf w from by
      unfold tis_probe
      dsimp only
      split_ifs <;> rfl)]
    exact h
  unfold is_tpm_present
  dsimp only
  split_ifs
  · exact recordsPositive_tis_init hw _ hp
  · exact hp

/-- C18, as amended: the predicate "every one of the four timeouts and three
durations of the driver is above 0" holds after `tis_init` from the state at
boot, whatever the allocations yield, and on a driver on which it holds every
operation returns and keeps it: `tis_probe`, `tis_init`, `tis_wait_sts`,
`tis_activate`, `tis_find_active_locality`, `tis_ready`, `tis_senddata`,
`tis_readresp`, `tis_waitdatavalid`, `tis_waitrespready`, `is_tpm_present`,
`vtpm4hvm_setup`, and `set_timeouts` when every value of the arrays supplied
(of 4 and 3 words) is above 0. -/
theorem records_positive_kept (hw : Chip σ) (w : World σ) (h : recordsPositive w = true) :
    (∀ (c : σ) (zone : List Bool), recordsPositive (tis_init hw (World.boot c zone)).2 = true) ∧
    recordsPositive (tis_probe hw w).2 = true ∧
    recordsPositive (tis_init hw w).2 = true ∧
    (∀ t d : Option (List Nat), (∀ a, t = some a → a.length = 4 ∧ ∀ v ∈ a, 0 < v) →
      (∀ a, d = some a → a.length = 3 ∧ ∀ v ∈ a, 0 < v) →
      recordsPositive (set_timeouts t d w) = true) ∧
    (∀ locty time mask expect,
      recordsPositive (tis_wait_sts hw locty time mask expect w).2 = true) ∧
    (∀ locty, ∃ r x, tis_activate hw locty w = some (r, x) ∧ recordsPositive x = true) ∧
    (∃ l x, tis_find_active_locality hw w = some (l, x) ∧ recordsPositive x = true) ∧
    (∃ r x, tis_ready hw w = some (r, x) ∧ recordsPositive x = true) ∧
    (∀ data len, len < 2 ^ 32 →
      ∃ r x, tis_senddata hw data len w = some (r, x) ∧ recordsPositive x = true) ∧
    (∀ buffer len, ∃ r b n x, tis_readresp hw buffer len w = some (r, b, n, x) ∧
      recordsPositive x = true) ∧
    (∃ r x, tis_waitdatavalid hw w = some (r, x) ∧ recordsPositive x = true) ∧
    (∀ to_t, ∃ r x, tis_waitrespready hw to_t w = some (r, x) ∧ recordsPositive x = true) ∧
    recordsPositive (is_tpm_present hw w).2 = true ∧
    recordsPositive (vtpm4hvm_setup hw w).2 = true := by
  obtain ⟨m1, m2, m3, m4, m5, m6, m7⟩ := memOf_operations hw w h
  have keep : ∀ {x : World σ}, memOf x = memOf w → recordsPositive x = true := fun e => by
    rw [recordsPositive_of_memOf e]
    exact h
  refine ⟨recordsPositive_tis_init_boot hw, ?_, recordsPositive_tis_init hw w h,
    fun t d ht hd => recordsPositive_set_timeouts w t d ht hd h,
    fun locty time mask expect => keep (quiet_tis_wait_sts hw locty time mask expect w).1,
    fun locty => ?_, ?_, ?_, fun data len hlen => ?_, fun buffer len => ?_, ?_, fun to_t => ?_,
    recordsPositive_is_tpm_present hw w h, ?_⟩
  · refine keep ?_
    unfold tis_probe
    dsimp only
    split_ifs <;> rfl
  · obtain ⟨r, x, e1, e2⟩ := m1 locty
    exact ⟨r, x, e1, keep e2⟩
  · obtain ⟨r, x, e1, e2⟩ := m2
    exact ⟨r, x, e1, keep e2⟩
  · obtain ⟨r, x, e1, e2⟩ := m3
    exact ⟨r, x, e1, keep e2⟩
  · obtain ⟨r, x, e1, e2⟩ := m4 data len hlen
    exact ⟨r, x, e1, keep e2⟩
  · obtain ⟨r, b, n, x, e1, e2⟩ := m5 buffer len
    exact ⟨r, b, n, x, e1, keep e2⟩
  · obtain ⟨r, x, e1, e2⟩ := m6
    exact ⟨r, x, e1, keep e2⟩
  · obtain ⟨r, x, e1, e2⟩ := m7 to_t
    exact ⟨r, x, e1, keep e2⟩
  · unfold vtpm4hvm_setup
    dsimp only
    split_ifs
    all_goals first
      | exact h
      | exact recordsPositive_is_tpm_present hw
          { w with tcpa_state := { w.tcpa_state with tpm_probed := true } } h

/-- C18 as amended, on the driver as `tis_init` leaves it from boot when both
allocations succeed, with a chip whose locality 0 is active. -/
theorem records_positive_kept_witness :
    recordsPositive (tis_init replay (World.boot ([0xA0], []) [true, true])).2 = true ∧
    recordsPositive (set_timeouts (some [1, 2, 3, 4]) (some [5, 6, 7])
      (tis_init replay (World.boot ([0xA0], []) [true, true])).2) = true ∧
    ∃ r x, tis_waitdatavalid replay (tis_init replay (World.boot ([0xA0], []) [true, true])).2 =
      some (r, x) ∧ recordsPositive x = true :=
  have h := records_positive_kept replay (tis_init replay (World.boot ([0xA0], []) [true, true])).2
    (by decide)
  ⟨by decide,
    h.2.2.2.1 (some [1, 2, 3, 4]) (some [5, 6, 7])
      (fun _ e => Option.some.inj e ▸ ⟨rfl, by decide⟩)
      (fun _ e => Option.some.inj e ▸ ⟨rfl, by decide⟩),
    h.2.2.2.2.2.2.2.2.2.2.1⟩

/-- C18, counterexample: on the driver as `tis_init` leaves it from boot when
both allocations succeed the predicate holds; `set_timeouts` with the timeouts
0, 0, 0, 0 stores them as they are, the predicate no longer holds, and the
wait for data-valid then gives up without a single poll of STS. -/
theorem set_timeouts_stores_zero :
    recordsPositive (tis_init replay (World.boot ([0xA0], []) [true, true])).2 = true ∧
    recordsPositive (set_timeouts (some [0, 0, 0, 0]) none
      (tis_init replay (World.boot ([0xA0], []) [true, true])).2) = false ∧
    deref (set_timeouts (some [0, 0, 0, 0]) none
        (tis_init replay (World.boot ([0xA0], []) [true, true])).2)
      (set_timeouts (some [0, 0, 0, 0]) none
        (tis_init replay (World.boot ([0xA0], []) [true, true])).2).tpm_drivers.timeouts =
      some [0, 0, 0, 0] ∧
    (tis_waitdatavalid replay (set_timeouts (some [0, 0, 0, 0]) none
        (tis_init replay (World.boot ([0xA0], []) [true, true])).2)).map
      (fun r => (r.1, stsPolls 0 r.2.trace)) = some (TCG_NO_RESPONSE, 0) := by
  decide

/-! ### The budgets of the waits after `set_timeouts` -/

/-- One run of `tis_wait_sts`, its result and log against its budget. -/
theorem tis_wait_sts_run (hw : Chip σ) (locty mask expect time : Nat) (y : World σ) :
    ∃ m, m + (if (tis_wait_sts hw locty time mask expect y).1 = 0 then 1 else 0) ≤ time ∧
      (tis_wait_sts hw locty time mask expect y).2.trace =
        y.trace ++ waitEvents hw locty y.chip m ++
          (if (tis_wait_sts hw locty time mask expect y).1 = 0 then
            [Event.readb (TIS_REG locty TIS_REG_STS) (pollSts hw locty y.chip m)]
          else []) ∧
      ((tis_wait_sts hw locty time mask expect y).1 = 0 ↔
        ∃ i, i < time ∧ pollSts hw locty y.chip i &&& mask = expect) ∧
      ((tis_wait_sts hw locty time mask expect y).1 ≠ 0 →
        (tis_wait_sts hw locty time mask expect y).1 = 1 ∧ m = time) := by
  obtain ⟨m, h1, h2, h3⟩ := tis_wait_sts_spec hw locty mask expect time y
  have hne : ¬ ((1 : Nat) = 0) := by decide
  rcases h3 with ⟨a1, a2, a3, a4⟩ | ⟨a1, a3, a4⟩
  · refine ⟨m, ?_, ?_, ?_, ?_⟩
    · rw [a3, if_pos rfl]
      omega
    · rw [a4, a3, if_pos rfl]
    · rw [a3]
      exact ⟨fun _ => ⟨m, a1, a2⟩, fun _ => rfl⟩
    · rw [a3]
      intro h
      exact absurd rfl h
  · refine ⟨m, ?_, ?_, ?_, ?_⟩
    · rw [a3, if_neg hne]
      omega
    · rw [a4, a3, if_neg hne]
      simp
    · rw [a3]
      refine ⟨fun h => absurd h hne, fun h => ?_⟩
      obtain ⟨i, hi, hmatch⟩ := h
      exact absurd hmatch (h2 i (by omega))
    · rw [a3]
      intro _
      exact ⟨rfl, a1⟩

/-- The activation is its head, followed when the grant shows by the write of
command-ready and the wait for it with the budget of entry A. -/
theorem tis_activate_eq (hw : Chip σ) (l ta : Nat) (w : World σ)
    (hA : load w w.tpm_drivers.timeouts TIS_TIMEOUT_TYPE_A = some ta) :
    tis_activate hw l w =
      some (if (activateHead hw l w).1 &&& TIS_ACCESS_ACTIVE_LOCALITY ≠ 0 then
        tis_wait_sts hw l ta TIS_STS_COMMAND_READY TIS_STS_COMMAND_READY
          (writeb hw (TIS_REG l TIS_REG_STS) TIS_STS_COMMAND_READY (activateHead hw l w).2)
      else (0, (activateHead hw l w).2)) := by
  unfold tis_activate activateHead
  rw [hA]
  dsimp only
  split_ifs <;> rfl

/-- C11, as amended: on a driver whose timeout record is its own buffer (a
block of low memory of 4 words, not shared with the durations), after
`set_timeouts t d` with `t` supplied, every wait of the driver uses the entry of
`t` that belongs to it as its budget. `tis_waitdatavalid` uses `t[C]`: once the
locality is resolved it polls STS at most `t[C]` times, and against a chip that
never shows the valid bit in these polls it polls exactly `t[C]` times, each
poll followed by one sleep, and returns TCG_NO_RESPONSE. `tis_ready` uses
`t[B]` in the same way after its write of command-ready, and `tis_activate`
uses `t[A]` after its write of command-ready when the grant shows, and does not
wait otherwise. `tis_senddata` uses `t[D]` for the polls of the burst count: it
sleeps at most `t[D]` times after the locality is resolved, returns
TCG_RESPONSE_TIMEOUT exactly when it slept `t[D]` times, and against a chip
that never offers a burst it polls exactly `t[D]` times. -/
theorem set_timeouts_then_wait (hw : Chip σ) (w w1 : World σ) (bt : Nat) (t : List Nat)
    (d : Option (List Nat)) (locty ta tb tc td : Nat)
    (hpt : w.tpm_drivers.timeouts = Ptr.low bt) (hpd : w.tpm_drivers.durations ≠ Ptr.low bt)
    (hlt : (w.low bt).length = 4) (ht : t.length = 4)
    (hta : t[TIS_TIMEOUT_TYPE_A]? = some ta) (htb : t[TIS_TIMEOUT_TYPE_B]? = some tb)
    (htc : t[TIS_TIMEOUT_TYPE_C]? = some tc) (htd : t[TIS_TIMEOUT_TYPE_D]? = some td)
    (hfind : tis_find_active_locality hw (set_timeouts (some t) d w) = some (locty, w1)) :
    ((∃ rc x m, tis_waitdatavalid hw (set_timeouts (some t) d w) = some (rc, x) ∧
        m + (if rc = 0 then 1 else 0) ≤ tc ∧
        x.trace = w1.trace ++ waitEvents hw locty w1.chip m ++
          (if rc = 0 then [Event.readb (TIS_REG locty TIS_REG_STS) (pollSts hw locty w1.chip m)]
            else []) ∧
        (rc = 0 ↔ ∃ i, i < tc ∧ pollSts hw locty w1.chip i &&& TIS_STS_VALID = TIS_STS_VALID) ∧
        (rc ≠ 0 → rc = TCG_NO_RESPONSE ∧ m = tc)) ∧
      ((∀ i, i < tc → pollSts hw locty w1.chip i &&& TIS_STS_VALID ≠ TIS_STS_VALID) →
        ∃ x, tis_waitdatavalid hw (set_timeouts (some t) d w) = some (TCG_NO_RESPONSE, x) ∧
          x.trace = w1.trace ++ waitEvents hw locty w1.chip tc)) ∧
    (∃ rc x m, tis_ready hw (set_timeouts (some t) d w) = some (rc, x) ∧
      m + (if rc = 0 then 1 else 0) ≤ tb ∧
      x.trace = (writeb hw (TIS_REG locty TIS_REG_STS) TIS_STS_COMMAND_READY w1).trace ++
        waitEvents hw locty
          (writeb hw (TIS_REG locty TIS_REG_STS) TIS_STS_COMMAND_READY w1).chip m ++
        (if rc = 0 then [Event.readb (TIS_REG locty TIS_REG_STS) (pollSts hw locty
          (writeb hw (TIS_REG locty TIS_REG_STS) TIS_STS_COMMAND_READY w1).chip m)]
          else []) ∧
      (rc = 0 ↔ ∃ i, i < tb ∧ pollSts hw locty
        (writeb hw (TIS_REG locty TIS_REG_STS) TIS_STS_COMMAND_READY w1).chip i &&&
          TIS_STS_COMMAND_READY = TIS_STS_COMMAND_READY) ∧
      (rc ≠ 0 → rc = 1 ∧ m = tb)) ∧
    (∀ l, ((activateHead hw l (set_timeouts (some t) d w)).1 &&& TIS_ACCESS_ACTIVE_LOCALITY ≠ 0 →
        ∃ rc x m, tis_activate hw l (set_timeouts (some t) d w) = some (rc, x) ∧
          m + (if rc = 0 then 1 else 0) ≤ ta ∧
          x.trace = (writeb hw (TIS_REG l TIS_REG_STS) TIS_STS_COMMAND_READY
              (activateHead hw l (set_timeouts (some t) d w)).2).trace ++
            waitEvents hw l (writeb hw (TIS_REG l TIS_REG_STS) TIS_STS_COMMAND_READY
              (activateHead hw l (set_timeouts (some t) d w)).2).chip m ++
            (if rc = 0 then [Event.readb (TIS_REG l TIS_REG_STS) (pollSts hw l
              (writeb hw (TIS_REG l TIS_REG_STS) TIS_STS_COMMAND_READY
                (activateHead hw l (set_timeouts (some t) d w)).2).chip m)]
              else []) ∧
          (rc = 0 ↔ ∃ i, i < ta ∧ pollSts hw l
            (writeb hw (TIS_REG l TIS_REG_STS) TIS_STS_COMMAND_READY
              (activateHead hw l (set_timeouts (some t) d w)).2).chip i &&&
                TIS_STS_COMMAND_READY = TIS_STS_COMMAND_READY) ∧
          (rc ≠ 0 → rc = 1 ∧ m = ta)) ∧
      ((activateHead hw l (set_timeouts (some t) d w)).1 &&& TIS_ACCESS_ACTIVE_LOCALITY = 0 →
        tis_activate hw l (set_timeouts (some t) d w) =
          some (0, (activateHead hw l (set_timeouts (some t) d w)).2))) ∧
    (∀ (data : Nat → Nat) (len : Nat), len < 2 ^ 32 →
      ∃ rc x evs, tis_senddata hw data len (set_timeouts (some t) d w) = some (rc, x) ∧
        x.trace = w1.trace ++ evs ∧ sleeps evs ≤ td ∧
        (rc = 0 ∨ rc = TCG_RESPONSE_TIMEOUT) ∧
        (rc = TCG_RESPONSE_TIMEOUT ↔ sleeps evs = td)) ∧
    (∀ (data : Nat → Nat) (len : Nat), pollsZero hw locty td w1.chip = true →
      ∃ x, tis_senddata hw data len (set_timeouts (some t) d w) =
          some (TCG_RESPONSE_TIMEOUT, x) ∧
        x.trace = w1.trace ++ zeroPollEvents hw locty td w1.chip) := by
  obtain ⟨s1, s2⟩ := set_timeouts_own_block w bt t d hpt hpd hlt ht
  have hload : ∀ i, load (set_timeouts (some t) d w)
      (set_timeouts (some t) d w).tpm_drivers.timeouts i = t[i]? := by
    intro i
    rw [s2, hpt]
    simp only [load, deref, s1]
  obtain ⟨q, -⟩ := quiet_tis_find_active_locality hw _ w1 locty hfind
  have hload1 : ∀ i, load w1 w1.tpm_drivers.timeouts i = t[i]? := by
    intro i
    rw [tpm_drivers_of_memOf q.1, load_of_memOf q.1, hload]
  refine ⟨waitdatavalid_after_set_timeouts hw w w1 bt t d locty tc hpt hpd hlt ht htc hfind,
    ?_, fun l => ⟨fun hg => ?_, fun hg => ?_⟩, fun data len hlen => ?_, fun data len hz => ?_⟩
  · obtain ⟨m, r1, r2, r3, r4⟩ := tis_wait_sts_run hw locty TIS_STS_COMMAND_READY
      TIS_STS_COMMAND_READY tb (writeb hw (TIS_REG locty TIS_REG_STS) TIS_STS_COMMAND_READY w1)
    refine ⟨_, _, m, ?_, r1, r2, r3, r4⟩
    unfold tis_ready
    simp only [hfind, hload1, htb]
  · obtain ⟨m, r1, r2, r3, r4⟩ := tis_wait_sts_run hw l TIS_STS_COMMAND_READY
      TIS_STS_COMMAND_READY ta (writeb hw (TIS_REG l TIS_REG_STS) TIS_STS_COMMAND_READY
        (activateHead hw l (set_timeouts (some t) d w)).2)
    refine ⟨_, _, m, ?_, r1, r2, r3, r4⟩
    rw [tis_activate_eq hw l ta _ ((hload _).trans hta), if_pos hg]
  · rw [tis_activate_eq hw l ta _ ((hload _).trans hta), if_neg (not_not.mpr hg)]
  · obtain ⟨rc, x, evs, h1, h2, -, -, h5⟩ :=
      senddata_loop_run hw locty data len td hlen (2 ^ 32) 0 0 w1 (by decide)
        (by unfold sendDist; split_ifs <;> omega) (Nat.zero_le _)
    have hne : ¬ (TCG_RESPONSE_TIMEOUT = 0) := by decide
    refine ⟨rc, x, evs, ?_, h2, ?_, ?_, ?_⟩
    · unfold tis_senddata
      simp only [hfind, hload1, htd]
      exact h1
    · rcases h5 with ⟨-, -, c3⟩ | ⟨-, -, c3⟩ <;> omega
    · rcases h5 with ⟨c1, -, -⟩ | ⟨c1, -, -⟩
      · exact Or.inl c1
      · exact Or.inr c1
    · rcases h5 with ⟨c1, -, c3⟩ | ⟨c1, -, c3⟩
      · refine ⟨fun h => ?_, fun h => ?_⟩
        · rw [c1] at h
          exact absurd h.symm hne
        · omega
      · exact ⟨fun _ => by omega, fun _ => c1⟩
  · obtain ⟨x, h1, h2, -⟩ := senddata_poll_all_zero hw locty td 0 w1 hz
    refine ⟨x, ?_, h2⟩
    unfold tis_senddata
    simp only [hfind, hload1, htd]
    rw [show (2 : Nat) ^ 32 = 4294967295 + 1 from rfl, senddata_loop]
    simp [h1]

/-- C11 at a driver initialised with both allocations granted, with the
timeouts then set to 2, 4, 3, 5, and a chip whose locality 0 is active and
which never shows the valid bit, command-ready or a burst: `tis_waitdatavalid`
polls 3 times and returns TCG_NO_RESPONSE, `tis_ready` polls 4 times and
returns 1, `tis_activate 0` polls twice and returns 1, and `tis_senddata`
sleeps 5 times and returns TCG_RESPONSE_TIMEOUT. -/
theorem set_timeouts_then_wait_witness :
    (tis_waitdatavalid replay
        (set_timeouts (some [2, 4, 3, 5]) none
          (tis_init replay (World.boot ([0xA0], []) [true, true])).2)).map
        (fun r => (r.1, stsPolls 0 r.2.trace)) = some (TCG_NO_RESPONSE, 3) ∧
    (tis_ready replay
        (set_timeouts (some [2, 4, 3, 5]) none
          (tis_init replay (World.boot ([0xA0], []) [true, true])).2)).map
        (fun r => (r.1, stsPolls 0 r.2.trace)) = some (1, 4) ∧
    (tis_activate replay 0
        (set_timeouts (some [2, 4, 3, 5]) none
          (tis_init replay (World.boot ([0xA0, 0xA0], []) [true, true])).2)).map
        (fun r => (r.1, stsPolls 0 r.2.trace)) = some (1, 2) ∧
    (tis_senddata replay samplePayload 1
        (set_timeouts (some [2, 4, 3, 5]) none
          (tis_init replay (World.boot ([0xA0], []) [true, true])).2)).map
        (fun r => (r.1, sleeps r.2.trace)) = some (TCG_RESPONSE_TIMEOUT, 5) ∧
    (∃ x, tis_waitdatavalid replay
        (set_timeouts (some [2, 4, 3, 5]) none
          (tis_init replay (World.boot ([0xA0], []) [true, true])).2)
        = some (TCG_NO_RESPONSE, x)) ∧
    ∃ x, tis_senddata replay samplePayload 1
        (set_timeouts (some [2, 4, 3, 5]) none
          (tis_init replay (World.boot ([0xA0], []) [true, true])).2)
        = some (TCG_RESPONSE_TIMEOUT, x) := by
  have h := set_timeouts_then_wait replay
    (tis_init replay (World.boot ([0xA0], []) [true, true])).2
    (readb replay (TIS_REG 0 TIS_REG_ACCESS)
      (set_timeouts (some [2, 4, 3, 5]) none
        (tis_init replay (World.boot ([0xA0], []) [true, true])).2)).2
    1 [2, 4, 3, 5] none 0 2 4 3 5 rfl (by decide) rfl rfl rfl rfl rfl rfl rfl
  refine ⟨by decide, by decide, by decide, by decide, ?_, ?_⟩
  · obtain ⟨x, h1, -⟩ := h.1.2 (fun i hi => by interval_cases i <;> decide)
    exact ⟨x, h1⟩
  · obtain ⟨x, h1, -⟩ := h.2.2.2.2 samplePayload 1 (by decide)
    exact ⟨x, h1⟩

end Proofs

end Tpm
